import Mathlib

/-!
# QUIC packet-header codec, header protection, and the `o_time.c` calendar utility

A shallow embedding of two parts of the repository.

* `crypto/o_time.c`: `date_to_julian`, `julian_to_date`, `julian_adj`,
  `OPENSSL_gmtime_adj` and `OPENSSL_gmtime_diff`, translated statement by statement.
  C `int`/`long` values are mathematical integers and C `/`, `%` are the truncating
  `Int.tdiv`, `Int.tmod`; the theorems therefore speak about executions without signed
  overflow (which is undefined behaviour in C).
* `include/internal/quic_wire_pkt.h`: the header only declares the QUIC functions, so
  their bodies are modelled from the specification text (each such definition says so).
  Bytes are natural numbers, a buffer is a `List Nat`, a pointer into a buffer is an
  offset from the start of the packet.
-/

namespace QuicWire

/-! ## Byte-level helpers -/

/-- The `w` low-order bytes of `v`, most significant byte first. -/
def be_bytes : Nat → Nat → List Nat
  | 0, _ => []
  | w + 1, v => (v / 256 ^ w) % 256 :: be_bytes w v

/-- The number a byte string denotes when read most significant byte first. -/
def be_value (bs : List Nat) : Nat :=
  bs.foldl (fun acc b => acc * 256 + b) 0

/-! ## Packet-number codec (spec section 4.3) -/

/-- Modelled from the spec: the adequacy rule inside `ossl_quic_wire_determine_pn_len`,
whose body is not in the repository sources. Section 4.3: a width is adequate if
`2^(8*width-1)` exceeds twice the distance between `pn` and `largest_acked + 1`.
Packet numbers are integers and `largest_acked = -1` is the "none" sentinel. -/
def pn_width_adequate (width : Nat) (pn largest_acked : Int) : Bool :=
  decide (2 * (pn - (largest_acked + 1)).natAbs < 2 ^ (8 * width - 1))

/-- Modelled from the spec: body of `ossl_quic_wire_determine_pn_len` (declared in
`quic_wire_pkt.h`, "Returns the number of bytes (which will be in range [1, 4])").
Section 4.3: the smallest width in {1,2,3,4} that is adequate, saturating at 4. -/
def ossl_quic_wire_determine_pn_len (pn largest_acked : Int) : Nat :=
  if pn_width_adequate 1 pn largest_acked then 1
  else if pn_width_adequate 2 pn largest_acked then 2
  else if pn_width_adequate 3 pn largest_acked then 3
  else 4

/-- Modelled from the spec: body of `ossl_quic_wire_encode_pkt_hdr_pn`. Section 4.3:
writes the low `8*width` bits of `pn` big-endian into exactly `width` bytes. The result
is `none` (the C function returns 0) when the width is not one of 1..4. -/
def ossl_quic_wire_encode_pkt_hdr_pn (pn : Int) (enc_pn_len : Nat) : Option (List Nat) :=
  if 1 ≤ enc_pn_len ∧ enc_pn_len ≤ 4 then
    some (be_bytes enc_pn_len (pn % 2 ^ (8 * enc_pn_len)).toNat)
  else none

/-- Modelled from the spec: body of `ossl_quic_wire_decode_pkt_hdr_pn`. Section 4.3:
with the window `2^(8*width)`, its half, and the expected next packet number
`largest_pn + 1`, place the truncated value at the window position of the expected
number and pick, among that candidate, one window above and one window below, the one
closest to the expected number, never going negative. The result is `none` when the
width is not one of 1..4 or fewer than `enc_pn_len` bytes are supplied. -/
def ossl_quic_wire_decode_pkt_hdr_pn (enc_pn : List Nat) (enc_pn_len : Nat)
    (largest_pn : Int) : Option Int :=
  if 1 ≤ enc_pn_len ∧ enc_pn_len ≤ 4 ∧ enc_pn_len ≤ enc_pn.length then
    let truncated_pn : Int := (be_value (enc_pn.take enc_pn_len) : Nat)
    let expected_pn : Int := largest_pn + 1
    let pn_win : Int := 2 ^ (8 * enc_pn_len)
    let pn_hwin : Int := pn_win / 2
    let candidate_pn : Int := expected_pn - expected_pn % pn_win + truncated_pn
    if candidate_pn ≤ expected_pn - pn_hwin then some (candidate_pn + pn_win)
    else if candidate_pn > expected_pn + pn_hwin ∧ candidate_pn ≥ pn_win then
      some (candidate_pn - pn_win)
    else some candidate_pn
  else none

end QuicWire

namespace OTime

/-! ## `crypto/o_time.c`: Julian-day arithmetic

The functions are first given over the integers, with C truncating division: what the
code computes as long as no C integer leaves its range. The same functions with the
widths of the C types follow further down (`date_to_julian_c` and the others). -/

/-- The fields of C `struct tm`. -/
structure Tm where
  tm_sec : Int
  tm_min : Int
  tm_hour : Int
  tm_mday : Int
  tm_mon : Int
  tm_year : Int
  tm_wday : Int
  tm_yday : Int
  tm_isdst : Int
  deriving DecidableEq, Repr

/-- The constant `#define SECS_PER_DAY (24 * 60 * 60)`. -/
def SECS_PER_DAY : Int := 24 * 60 * 60

/-- The function `date_to_julian` (Fliegel and Van Flandern); C `/` truncates. -/
def date_to_julian (y m d : Int) : Int :=
  Int.tdiv (1461 * (y + 4800 + Int.tdiv (m - 14) 12)) 4 +
    Int.tdiv (367 * (m - 2 - 12 * Int.tdiv (m - 14) 12)) 12 -
    Int.tdiv (3 * Int.tdiv (y + 4900 + Int.tdiv (m - 14) 12) 100) 4 + d - 32075

/-- The function `julian_to_date`; the result is the triple written to `*y`, `*m`, `*d`. -/
def julian_to_date (jd : Int) : Int × Int × Int :=
  let L := jd + 68569
  let n := Int.tdiv (4 * L) 146097
  let L := L - Int.tdiv (146097 * n + 3) 4
  let i := Int.tdiv (4000 * (L + 1)) 1461001
  let L := L - Int.tdiv (1461 * i) 4 + 31
  let j := Int.tdiv (80 * L) 2447
  let d := L - Int.tdiv (2447 * j) 80
  let L := Int.tdiv j 11
  let m := j + 2 - 12 * L
  let y := 100 * (n - 49) + i + L
  (y, m, d)

/-- The function `julian_adj`: `none` when it returns 0, otherwise the pair written to
`*pday`, `*psec`. -/
def julian_adj (tm : Tm) (off_day offset_sec : Int) : Option (Int × Int) :=
  -- split offset into days and day seconds
  let offset_day := Int.tdiv offset_sec SECS_PER_DAY
  -- Avoid sign issues with % operator
  let offset_hms := offset_sec - offset_day * SECS_PER_DAY
  let offset_day := offset_day + off_day
  -- Add current time seconds to offset
  let offset_hms := offset_hms + (tm.tm_hour * 3600 + tm.tm_min * 60 + tm.tm_sec)
  -- Adjust day seconds if overflow
  let adj : Int × Int :=
    if offset_hms ≥ SECS_PER_DAY then (offset_day + 1, offset_hms - SECS_PER_DAY)
    else if offset_hms < 0 then (offset_day - 1, offset_hms + SECS_PER_DAY)
    else (offset_day, offset_hms)
  -- Convert date of time structure into a Julian day number.
  let time_year := tm.tm_year + 1900
  let time_month := tm.tm_mon + 1
  let time_day := tm.tm_mday
  let time_jd := date_to_julian time_year time_month time_day
  -- Work out Julian day of new date
  let time_jd := time_jd + adj.1
  if time_jd < 0 then none
  else some (time_jd, adj.2)

/-- The function `OPENSSL_gmtime_adj`: `none` when it returns 0 (the structure is then
untouched), otherwise the updated structure. -/
def OPENSSL_gmtime_adj (tm : Tm) (off_day offset_sec : Int) : Option Tm :=
  -- Convert time and offset into Julian day and seconds
  match julian_adj tm off_day offset_sec with
  | none => none
  | some (time_jd, time_sec) =>
    -- Convert Julian day back to date
    match julian_to_date time_jd with
    | (time_year, time_month, time_day) =>
      if time_year < 1900 ∨ time_year > 9999 then none
      else
        -- Update tm structure
        some { tm with
          tm_year := time_year - 1900
          tm_mon := time_month - 1
          tm_mday := time_day
          tm_hour := Int.tdiv time_sec 3600
          tm_min := Int.tmod (Int.tdiv time_sec 60) 60
          tm_sec := Int.tmod time_sec 60 }

/-- The function `OPENSSL_gmtime_diff`: `none` when it returns 0, otherwise the pair of
values stored through `pday` and `psec` (the narrowing `(int)diff_day` is exact in an
execution without overflow). -/
def OPENSSL_gmtime_diff (from_tm to_tm : Tm) : Option (Int × Int) :=
  match julian_adj from_tm 0 0 with
  | none => none
  | some (from_jd, from_sec) =>
    match julian_adj to_tm 0 0 with
    | none => none
    | some (to_jd, to_sec) =>
      let diff_day := to_jd - from_jd
      let diff_sec := to_sec - from_sec
      -- Adjust differences so both positive or both negative
      let s1 : Int × Int :=
        if diff_day > 0 ∧ diff_sec < 0 then (diff_day - 1, diff_sec + SECS_PER_DAY)
        else (diff_day, diff_sec)
      let s2 : Int × Int :=
        if s1.1 < 0 ∧ s1.2 > 0 then (s1.1 + 1, s1.2 - SECS_PER_DAY)
        else s1
      some s2

/-! ### Calendar vocabulary used to state the properties -/

/-- Gregorian leap year: divisible by 4 and not by 100, or divisible by 400. -/
def is_leap_year (y : Int) : Bool :=
  (y % 4 == 0 && y % 100 != 0) || y % 400 == 0

/-- Number of days of month `m` (1..12) in Gregorian year `y`. -/
def days_in_month (y m : Int) : Int :=
  if m = 2 then (if is_leap_year y then 29 else 28)
  else if m = 4 ∨ m = 6 ∨ m = 9 ∨ m = 11 then 30
  else 31

/-- A calendar date of the proleptic Gregorian calendar. -/
def valid_date (y m d : Int) : Prop :=
  1 ≤ m ∧ m ≤ 12 ∧ 1 ≤ d ∧ d ≤ days_in_month y m

instance (y m d : Int) : Decidable (valid_date y m d) := by
  unfold valid_date; infer_instance

/-- Day count up to the year that starts on 1 March of year `Y - 4800`: the part of
`date_to_julian` that depends on the year only. A proof device, not part of the source. -/
def march_year_start (Y : Int) : Int :=
  (1461 * Y) / 4 - (3 * ((Y + 100) / 100)) / 4

/-- Seconds since the start of Julian day 0 denoted by the date and time fields of `tm`. -/
def tm_seconds (tm : Tm) : Int :=
  date_to_julian (tm.tm_year + 1900) (tm.tm_mon + 1) tm.tm_mday * 86400
    + tm.tm_hour * 3600 + tm.tm_min * 60 + tm.tm_sec

end OTime

namespace OTime

/-! ### Sample values used to exercise the `o_time.c` functions -/

/-- 31 December 1999, 23:59:30. -/
def tm_1999_12_31 : Tm :=
  { tm_sec := 30, tm_min := 59, tm_hour := 23, tm_mday := 31, tm_mon := 11, tm_year := 99,
    tm_wday := 5, tm_yday := 364, tm_isdst := 0 }

/-- 1 January 2000, 00:00:15; the fields `OPENSSL_gmtime_adj` does not write are those of
`tm_1999_12_31`. -/
def tm_2000_01_01 : Tm :=
  { tm_sec := 15, tm_min := 0, tm_hour := 0, tm_mday := 1, tm_mon := 0, tm_year := 100,
    tm_wday := 5, tm_yday := 364, tm_isdst := 0 }

end OTime

namespace QuicWire

/-! ## Header protection (spec section 4.4) -/

/-- The external single-block cipher primitive (AES-ECB, ChaCha20), which the spec
treats as a collaborator: for each cipher family the sample length it needs, and the mask
bytes it produces from the header-protection key and a sample of that length. -/
structure HdrCipher where
  sample_len : Nat → Nat
  mask : Nat → List Nat → List Nat → List Nat

/-- Cipher family identifier `QUIC_HDR_PROT_CIPHER_AES_128`. -/
def QUIC_HDR_PROT_CIPHER_AES_128 : Nat := 1
/-- Cipher family identifier `QUIC_HDR_PROT_CIPHER_AES_256`. -/
def QUIC_HDR_PROT_CIPHER_AES_256 : Nat := 2
/-- Cipher family identifier `QUIC_HDR_PROT_CIPHER_CHACHA`. -/
def QUIC_HDR_PROT_CIPHER_CHACHA : Nat := 3

/-- The structure `QUIC_HDR_PROTECTOR`: the cipher family and the header-protection key
(the library context and the cipher context carry no data of their own here). -/
structure QUIC_HDR_PROTECTOR where
  cipher_id : Nat
  quic_hp_key : List Nat

/-- The structure `quic_pkt_hdr_ptrs_st`. A pointer is an address, `none` is `NULL`. -/
structure QUIC_PKT_HDR_PTRS where
  raw_start : Option Nat
  raw_sample : Option Nat
  raw_sample_len : Nat
  raw_pn : Option Nat
  deriving DecidableEq, Repr

/-- Byte-addressed memory. -/
abbrev Mem := Nat → Nat

/-- The `n` bytes of memory starting at address `p`. -/
def read_bytes (mem : Mem) (p n : Nat) : List Nat :=
  (List.range n).map (fun i => mem (p + i))

/-- Memory after storing the bytes `bs` from address `p` on. -/
def write_bytes (mem : Mem) (p : Nat) (bs : List Nat) : Mem :=
  fun a => if p ≤ a ∧ a < p + bs.length then bs.getD (a - p) 0 else mem a

/-- Modelled from the spec: mask generation shared by the two `_fields` functions, whose
bodies are not in the repository sources. Section 4.4: the sample window must contain at
least the fixed sample length the cipher family needs (failure otherwise); the mask is
computed by running the configured cipher once over the sample. -/
def hdr_generate_mask (C : HdrCipher) (hpr : QUIC_HDR_PROTECTOR) (sample : List Nat)
    (sample_len : Nat) : Option (List Nat) :=
  if sample_len < C.sample_len hpr.cipher_id then none
  else some (C.mask hpr.cipher_id hpr.quic_hp_key (sample.take (C.sample_len hpr.cipher_id)))

/-- The bits of the first header byte that carry header protection: the low four bits of
a long header (reserved bits and packet-number length), the low five bits of a short
header (reserved bits, key phase and packet-number length), as marked `*` in the field
table of `quic_wire_pkt.h`. -/
def hdr_protected_bits (first_byte : Nat) : Nat :=
  if first_byte &&& 0x80 ≠ 0 then 0x0f else 0x1f

/-- XOR of mask bytes `1..pn_len` into the first `pn_len` packet-number bytes; `k` is the
index of the head of the list. -/
def xor_pn_bytes (pn_len : Nat) (mask : List Nat) : Nat → List Nat → List Nat
  | _, [] => []
  | k, b :: bs =>
    (if k < pn_len then b ^^^ mask.getD (k + 1) 0 else b) :: xor_pn_bytes pn_len mask (k + 1) bs

/-- Modelled from the spec: body of `ossl_quic_hdr_protector_decrypt_fields`. Section
4.4: fail without modifying anything when the sample is too short; otherwise XOR mask
byte 0, restricted to the protected bits, into the first byte, and only then, with the
packet-number length read from the unmasked first byte, XOR mask bytes `1..pn_len` into
that many packet-number bytes. The result is the return value and the contents of
`*first_byte` and `pn_bytes[0..3]` afterwards. -/
def ossl_quic_hdr_protector_decrypt_fields (C : HdrCipher) (hpr : QUIC_HDR_PROTECTOR)
    (sample : List Nat) (sample_len : Nat) (first_byte : Nat) (pn_bytes : List Nat) :
    Bool × Nat × List Nat :=
  match hdr_generate_mask C hpr sample sample_len with
  | none => (false, first_byte, pn_bytes)
  | some mask =>
    let first_byte' := first_byte ^^^ (mask.getD 0 0 &&& hdr_protected_bits first_byte)
    let pn_len := (first_byte' &&& 0x3) + 1
    (true, first_byte', xor_pn_bytes pn_len mask 0 pn_bytes)

/-- Modelled from the spec: body of `ossl_quic_hdr_protector_encrypt_fields`. Section
4.4: the same mask computation and XOR in the encode direction, with the packet-number
length taken from the still unprotected first byte. -/
def ossl_quic_hdr_protector_encrypt_fields (C : HdrCipher) (hpr : QUIC_HDR_PROTECTOR)
    (sample : List Nat) (sample_len : Nat) (first_byte : Nat) (pn_bytes : List Nat) :
    Bool × Nat × List Nat :=
  match hdr_generate_mask C hpr sample sample_len with
  | none => (false, first_byte, pn_bytes)
  | some mask =>
    let pn_len := (first_byte &&& 0x3) + 1
    (true, first_byte ^^^ (mask.getD 0 0 &&& hdr_protected_bits first_byte),
      xor_pn_bytes pn_len mask 0 pn_bytes)

/-- Modelled from the spec: body of `ossl_quic_hdr_protector_decrypt`, "implemented as a
call to ossl_quic_hdr_protector_decrypt_fields" on the sample window, the first byte and
the four bytes at the packet-number pointer of the pointer record. The result is the
return value and the memory afterwards. A record with a `NULL` pointer (Version
Negotiation, Retry) is outside the contract and is rejected. -/
def ossl_quic_hdr_protector_decrypt (C : HdrCipher) (hpr : QUIC_HDR_PROTECTOR)
    (ptrs : QUIC_PKT_HDR_PTRS) (mem : Mem) : Bool × Mem :=
  match ptrs.raw_start, ptrs.raw_sample, ptrs.raw_pn with
  | some start, some sample, some pn =>
    match ossl_quic_hdr_protector_decrypt_fields C hpr
        (read_bytes mem sample ptrs.raw_sample_len) ptrs.raw_sample_len
        (mem start) (read_bytes mem pn 4) with
    | (true, first_byte, pn_bytes) =>
      (true, write_bytes (write_bytes mem start [first_byte]) pn pn_bytes)
    | (false, _, _) => (false, mem)
  | _, _, _ => (false, mem)

/-- Modelled from the spec: body of `ossl_quic_hdr_protector_encrypt`, "implemented as a
call to ossl_quic_hdr_protector_encrypt_fields" in the same way. -/
def ossl_quic_hdr_protector_encrypt (C : HdrCipher) (hpr : QUIC_HDR_PROTECTOR)
    (ptrs : QUIC_PKT_HDR_PTRS) (mem : Mem) : Bool × Mem :=
  match ptrs.raw_start, ptrs.raw_sample, ptrs.raw_pn with
  | some start, some sample, some pn =>
    match ossl_quic_hdr_protector_encrypt_fields C hpr
        (read_bytes mem sample ptrs.raw_sample_len) ptrs.raw_sample_len
        (mem start) (read_bytes mem pn 4) with
    | (true, first_byte, pn_bytes) =>
      (true, write_bytes (write_bytes mem start [first_byte]) pn pn_bytes)
    | (false, _, _) => (false, mem)
  | _, _, _ => (false, mem)

/-! ### Sample values used to exercise header protection -/

/-- A stand-in cipher for examples: a 16-byte sample, and a mask made of the first five
sample bytes each XORed with the first key byte. -/
def example_cipher : HdrCipher :=
  { sample_len := fun _ => 16
    mask := fun _ key sample => (sample.take 5).map (fun b => b ^^^ key.getD 0 0) }

/-- A protector for the stand-in cipher. -/
def example_protector : QUIC_HDR_PROTECTOR :=
  { cipher_id := QUIC_HDR_PROT_CIPHER_AES_128, quic_hp_key := [0x5a] }

/-- A 24-byte packet image: a short header with a 2-byte packet number at address 1, then
payload; bytes past the end read as zero. -/
def example_packet : Mem :=
  fun a => [0x41, 0x12, 0x34, 0xa0, 0xa1, 0xa2, 0xa3, 0xa4, 0xa5, 0xa6, 0xa7, 0xa8,
    0xa9, 0xaa, 0xab, 0xac, 0xad, 0xae, 0xaf, 0xb0, 0xb1, 0xb2, 0xb3, 0xb4].getD a 0

/-- Pointer record for `example_packet` with a full 16-byte sample window. -/
def example_ptrs : QUIC_PKT_HDR_PTRS :=
  { raw_start := some 0, raw_sample := some 5, raw_sample_len := 19, raw_pn := some 1 }

/-- Pointer record for `example_packet` whose sample window is only 15 bytes long. -/
def example_ptrs_short : QUIC_PKT_HDR_PTRS :=
  { raw_start := some 0, raw_sample := some 5, raw_sample_len := 15, raw_pn := some 1 }

end QuicWire

namespace QuicWire

/-! ## Packet header model (`quic_wire_pkt.h`) -/

/-- The constant `QUIC_VERSION_NONE`, used for version negotiation. -/
def QUIC_VERSION_NONE : Nat := 0
/-- The constant `QUIC_VERSION_1`. -/
def QUIC_VERSION_1 : Nat := 1

/-- Logical packet type `QUIC_PKT_TYPE_INITIAL`. -/
def QUIC_PKT_TYPE_INITIAL : Nat := 1
/-- Logical packet type `QUIC_PKT_TYPE_0RTT`. -/
def QUIC_PKT_TYPE_0RTT : Nat := 2
/-- Logical packet type `QUIC_PKT_TYPE_HANDSHAKE`. -/
def QUIC_PKT_TYPE_HANDSHAKE : Nat := 3
/-- Logical packet type `QUIC_PKT_TYPE_RETRY`. -/
def QUIC_PKT_TYPE_RETRY : Nat := 4
/-- Logical packet type `QUIC_PKT_TYPE_1RTT`. -/
def QUIC_PKT_TYPE_1RTT : Nat := 5
/-- Logical packet type `QUIC_PKT_TYPE_VERSION_NEG`. -/
def QUIC_PKT_TYPE_VERSION_NEG : Nat := 6

/-- The constant `QUIC_MIN_VALID_PKT_LEN_CRYPTO`. -/
def QUIC_MIN_VALID_PKT_LEN_CRYPTO : Nat := 21
/-- The constant `QUIC_MIN_VALID_PKT_LEN_VERSION_NEG`. -/
def QUIC_MIN_VALID_PKT_LEN_VERSION_NEG : Nat := 7
/-- The constant `QUIC_MIN_VALID_PKT_LEN`. -/
def QUIC_MIN_VALID_PKT_LEN : Nat := QUIC_MIN_VALID_PKT_LEN_VERSION_NEG

/-- Modelled from the spec: `QUIC_MAX_CONN_ID_LEN` comes from `internal/quic_types.h`,
which is not in the repository sources; section 3 and the comments of `QUIC_PKT_HDR`
give the maximum connection-ID length as 20. -/
def QUIC_MAX_CONN_ID_LEN : Nat := 20

/-- The structure `QUIC_PKT_HDR`. Bit fields are numbers; a connection ID is the list of
its `id_len` bytes; `pn` is the four-byte array; `token` is the `token_len` bytes the
pointer refers to; `data` is an offset from the start of the packet (`none` is `NULL`);
`partial_decode` is the field `partial`. -/
structure QUIC_PKT_HDR where
  type : Nat
  spin_bit : Nat
  key_phase : Nat
  pn_len : Nat
  partial_decode : Nat
  fixed : Nat
  version : Nat
  dst_conn_id : List Nat
  src_conn_id : List Nat
  pn : List Nat
  token : List Nat
  token_len : Nat
  len : Nat
  data : Option Nat
  deriving DecidableEq, Repr

/-! ### The byte cursor (external collaborator) -/

/-- Modelled from the spec: read one byte from the bounds-checked read cursor. -/
def PACKET_get_1 : List Nat → Option (Nat × List Nat)
  | [] => none
  | b :: r => some (b, r)

/-- Modelled from the spec: read `n` bytes from the read cursor, failing on underrun. -/
def PACKET_copy_bytes (pkt : List Nat) (n : Nat) : Option (List Nat × List Nat) :=
  if n ≤ pkt.length then some (pkt.take n, pkt.drop n) else none

/-- Modelled from the spec: read a 4-byte big-endian value (the version field). -/
def PACKET_get_net_4 (pkt : List Nat) : Option (Nat × List Nat) :=
  match PACKET_copy_bytes pkt 4 with
  | some (bs, r) => some (be_value bs, r)
  | none => none

/-- Modelled from the spec: read a variable-length integer. The spec names the encoding
without defining it and calls the wire layout RFC-mandated; this is the encoding of
RFC 9000 section 16: the two high bits of the first byte give the length 1, 2, 4 or 8,
the remaining bits are the value, big-endian. -/
def PACKET_get_quic_vlint (pkt : List Nat) : Option (Nat × List Nat) :=
  match pkt with
  | [] => none
  | b :: _ =>
    match PACKET_copy_bytes pkt (2 ^ (b / 64 % 4)) with
    | some (bs, r) => some (be_value bs % 2 ^ (8 * 2 ^ (b / 64 % 4) - 2), r)
    | none => none

/-- Modelled from the spec: write a variable-length integer (RFC 9000 section 16);
values of `2^62` and more cannot be written. The spec leaves the writer to the byte
cursor and gives no rule for the length it picks; this model picks the shortest of the
four lengths. -/
def WPACKET_quic_write_vlint (v : Nat) : Option (List Nat) :=
  if v < 2 ^ 6 then some (be_bytes 1 v)
  else if v < 2 ^ 14 then some (be_bytes 2 (v + 0x4000))
  else if v < 2 ^ 30 then some (be_bytes 4 (v + 0x80000000))
  else if v < 2 ^ 62 then some (be_bytes 8 (v + 0xC000000000000000))
  else none

/-! ### Header decoder and encoder (spec sections 4.1, 4.2 and 6) -/

/-- Modelled from the spec: the version-specific mapping of the 2-bit long packet type.
The spec does not list the values; these are those of QUIC version 1 (RFC 9000 section
17.2), the only version `quic_wire_pkt.h` defines. An unmapped combination is `none`. -/
def long_type_of_wire (version raw_type : Nat) : Option Nat :=
  if version = QUIC_VERSION_1 then
    match raw_type with
    | 0 => some QUIC_PKT_TYPE_INITIAL
    | 1 => some QUIC_PKT_TYPE_0RTT
    | 2 => some QUIC_PKT_TYPE_HANDSHAKE
    | 3 => some QUIC_PKT_TYPE_RETRY
    | _ => none
  else none

/-- Modelled from the spec: the inverse mapping, used by the encoder. -/
def wire_of_long_type (version type : Nat) : Option Nat :=
  if version = QUIC_VERSION_1 then
    if type = QUIC_PKT_TYPE_INITIAL then some 0
    else if type = QUIC_PKT_TYPE_0RTT then some 1
    else if type = QUIC_PKT_TYPE_HANDSHAKE then some 2
    else if type = QUIC_PKT_TYPE_RETRY then some 3
    else none
  else none

/-- The four-byte array `pn` after `memset` and a copy of the encoded bytes. -/
def pn_array (bs : List Nat) : List Nat :=
  bs ++ List.replicate (4 - bs.length) 0

/-- Modelled from the spec: the pointer record for a packet of `pkt_len` bytes whose
packet-number field starts at offset `pn_off`. Section 4.1: packet start, a sampling
window starting 4 bytes after the start of the packet-number field, and the
packet-number field start itself, null if fewer than 4 bytes remain available. -/
def hdr_ptrs_at (pkt_len pn_off : Nat) : QUIC_PKT_HDR_PTRS :=
  if pn_off + 4 ≤ pkt_len then
    { raw_start := some 0, raw_sample := some (pn_off + 4),
      raw_sample_len := pkt_len - (pn_off + 4), raw_pn := some pn_off }
  else
    { raw_start := some 0, raw_sample := none, raw_sample_len := 0, raw_pn := none }

/-- The pointer record of a packet type without header protection as the decoder emits
it: only the packet start. -/
def hdr_ptrs_unprotected : QUIC_PKT_HDR_PTRS :=
  { raw_start := some 0, raw_sample := none, raw_sample_len := 0, raw_pn := none }

/-- The all-zero pointer record the encoder writes for Version Negotiation and Retry. -/
def hdr_ptrs_zero : QUIC_PKT_HDR_PTRS :=
  { raw_start := none, raw_sample := none, raw_sample_len := 0, raw_pn := none }

/-- Modelled from the spec: the short-header branch of `ossl_quic_wire_decode_pkt_hdr`
(section 4.1). `pkt` is the whole packet, `b0` its first byte, `r1` the bytes after it.
Fails if the contextual connection-ID length exceeds 20, if the fixed bit is clear, or
if the packet is shorter than 21 bytes. The type is 1-RTT; `pn_len`, `key_phase`, `pn`
are populated only if not partial. In a partial decode the four bytes of the
packet-number field are skipped unread and `data` points at their start. A field that
is not valid for the type is zero (comment above `quic_pkt_hdr_st`). A short-header
packet extends to the end of the datagram. -/
def decode_short_hdr (pkt : List Nat) (b0 : Nat) (r1 : List Nat) (short_conn_id_len : Nat)
    (partial_decode : Bool) : Option (QUIC_PKT_HDR × QUIC_PKT_HDR_PTRS × List Nat) :=
  if short_conn_id_len > QUIC_MAX_CONN_ID_LEN then none
  else if b0 &&& 0x40 = 0 then none
  else if pkt.length < QUIC_MIN_VALID_PKT_LEN_CRYPTO then none
  else
    match PACKET_copy_bytes r1 short_conn_id_len with
    | none => none
    | some (dcid, r2) =>
      if partial_decode then
        match PACKET_copy_bytes r2 4 with
        | none => none
        | some (_, _) =>
          some ({ type := QUIC_PKT_TYPE_1RTT, spin_bit := (b0 >>> 5) &&& 1, key_phase := 0,
                  pn_len := 0, partial_decode := 1, fixed := 1, version := 0,
                  dst_conn_id := dcid, src_conn_id := [], pn := [0, 0, 0, 0],
                  token := [], token_len := 0, len := 0,
                  data := some (1 + short_conn_id_len) },
                hdr_ptrs_at pkt.length (1 + short_conn_id_len), [])
      else
        match PACKET_copy_bytes r2 ((b0 &&& 0x3) + 1) with
        | none => none
        | some (pn_bytes, _) =>
          some ({ type := QUIC_PKT_TYPE_1RTT, spin_bit := (b0 >>> 5) &&& 1,
                  key_phase := (b0 >>> 2) &&& 1, pn_len := (b0 &&& 0x3) + 1,
                  partial_decode := 0, fixed := 1, version := 0,
                  dst_conn_id := dcid, src_conn_id := [], pn := pn_array pn_bytes,
                  token := [], token_len := 0, len := 0,
                  data := some (1 + short_conn_id_len + ((b0 &&& 0x3) + 1)) },
                hdr_ptrs_at pkt.length (1 + short_conn_id_len), [])

/-- Modelled from the spec: the token of an Initial packet (section 4.1): Initial
additionally reads a variable-length-integer token length and that many token bytes;
the other types have no token. The result is the token, its length and the rest of the
input. -/
def decode_initial_token (type : Nat) (r6 : List Nat) : Option (List Nat × Nat × List Nat) :=
  if type = QUIC_PKT_TYPE_INITIAL then
    match PACKET_get_quic_vlint r6 with
    | none => none
    | some (token_len, r) =>
      match PACKET_copy_bytes r token_len with
      | none => none
      | some (token, r') => some (token, token_len, r')
  else some ([], 0, r6)

/-- Modelled from the spec: the continuation of the long-header branch for Initial,
0-RTT and Handshake packets, after the connection IDs (section 4.1). `r6` is the input
after the source connection ID. After the token of an Initial packet, all three read
the variable-length payload length, which counts the packet-number bytes. If not
partial, `pn_len` comes from the low 2 bits of the first byte and that many
packet-number bytes are read; if partial, `data` and `len` begin at the packet-number
field. The cursor ends behind the payload. -/
def decode_long_pn_hdr (pkt : List Nat) (b0 type version : Nat) (dcid scid r6 : List Nat)
    (partial_decode : Bool) : Option (QUIC_PKT_HDR × QUIC_PKT_HDR_PTRS × List Nat) :=
  match decode_initial_token type r6 with
  | none => none
  | some (token, token_len, r7) =>
    match PACKET_get_quic_vlint r7 with
    | none => none
    | some (length, r8) =>
      if r8.length < length then none
      else if partial_decode then
        some ({ type := type, spin_bit := 0, key_phase := 0, pn_len := 0,
                partial_decode := 1, fixed := 1, version := version,
                dst_conn_id := dcid, src_conn_id := scid, pn := [0, 0, 0, 0],
                token := token, token_len := token_len, len := length,
                data := some (pkt.length - r8.length) },
              hdr_ptrs_at pkt.length (pkt.length - r8.length), r8.drop length)
      else if length < (b0 &&& 0x3) + 1 then none
      else
        match PACKET_copy_bytes r8 ((b0 &&& 0x3) + 1) with
        | none => none
        | some (pn_bytes, r9) =>
          some ({ type := type, spin_bit := 0, key_phase := 0, pn_len := (b0 &&& 0x3) + 1,
                  partial_decode := 0, fixed := 1, version := version,
                  dst_conn_id := dcid, src_conn_id := scid, pn := pn_array pn_bytes,
                  token := token, token_len := token_len,
                  len := length - ((b0 &&& 0x3) + 1),
                  data := some (pkt.length - r9.length) },
                hdr_ptrs_at pkt.length (pkt.length - r8.length),
                r9.drop (length - ((b0 &&& 0x3) + 1)))

/-- Modelled from the spec: the long-header branch of `ossl_quic_wire_decode_pkt_hdr`
after the version and the connection IDs have been read (section 4.1); `r6` is the
input behind the source connection ID. Version 0 forces type Version Negotiation
whatever the other bits and skips the fixed-bit check; its payload is the raw remainder.
Otherwise the fixed bit must be set, the packet must have at least 21 bytes, and the
2-bit long type is mapped by version. Retry has no length field and no packet number;
its payload is the remainder of the datagram. -/
def decode_long_body (pkt : List Nat) (b0 version : Nat) (dcid scid r6 : List Nat)
    (partial_decode : Bool) : Option (QUIC_PKT_HDR × QUIC_PKT_HDR_PTRS × List Nat) :=
  if version = QUIC_VERSION_NONE then
    some ({ type := QUIC_PKT_TYPE_VERSION_NEG, spin_bit := 0, key_phase := 0,
            pn_len := 0, partial_decode := if partial_decode then 1 else 0,
            fixed := (b0 >>> 6) &&& 1, version := 0,
            dst_conn_id := dcid, src_conn_id := scid, pn := [0, 0, 0, 0],
            token := [], token_len := 0, len := 0,
            data := some (pkt.length - r6.length) },
          hdr_ptrs_unprotected, [])
  else if b0 &&& 0x40 = 0 then none
  else if pkt.length < QUIC_MIN_VALID_PKT_LEN_CRYPTO then none
  else
    match long_type_of_wire version ((b0 >>> 4) &&& 0x3) with
    | none => none
    | some type =>
      if type = QUIC_PKT_TYPE_RETRY then
        some ({ type := QUIC_PKT_TYPE_RETRY, spin_bit := 0, key_phase := 0,
                pn_len := 0,
                partial_decode := if partial_decode then 1 else 0,
                fixed := 1, version := version,
                dst_conn_id := dcid, src_conn_id := scid,
                pn := [0, 0, 0, 0], token := [], token_len := 0, len := 0,
                data := some (pkt.length - r6.length) },
              hdr_ptrs_unprotected, [])
      else decode_long_pn_hdr pkt b0 type version dcid scid r6 partial_decode

/-- Modelled from the spec: the long-header branch of `ossl_quic_wire_decode_pkt_hdr`
(section 4.1). Reads the 4-byte version and the two length-prefixed connection IDs, each
capped at 20 bytes (a longer one is a decode failure), then continues by type. -/
def decode_long_hdr (pkt : List Nat) (b0 : Nat) (r1 : List Nat) (partial_decode : Bool) :
    Option (QUIC_PKT_HDR × QUIC_PKT_HDR_PTRS × List Nat) :=
  match PACKET_get_net_4 r1 with
  | none => none
  | some (version, r2) =>
    match PACKET_get_1 r2 with
    | none => none
    | some (dcid_len, r3) =>
      if dcid_len > QUIC_MAX_CONN_ID_LEN then none
      else
        match PACKET_copy_bytes r3 dcid_len with
        | none => none
        | some (dcid, r4) =>
          match PACKET_get_1 r4 with
          | none => none
          | some (scid_len, r5) =>
            if scid_len > QUIC_MAX_CONN_ID_LEN then none
            else
              match PACKET_copy_bytes r5 scid_len with
              | none => none
              | some (scid, r6) =>
                decode_long_body pkt b0 version dcid scid r6 partial_decode

/-- Modelled from the spec: body of `ossl_quic_wire_decode_pkt_hdr` (declared in
`quic_wire_pkt.h`), section 4.1. `pkt` holds the bytes from the cursor to the end of the
datagram. The result is `none` when the C function returns 0, otherwise the header, the
pointer record and the bytes left after the packet. Packets shorter than
`QUIC_MIN_VALID_PKT_LEN` fail early; bit 7 of the first byte selects the long or the
short header form. -/
def ossl_quic_wire_decode_pkt_hdr (pkt : List Nat) (short_conn_id_len : Nat)
    (partial_decode : Bool) : Option (QUIC_PKT_HDR × QUIC_PKT_HDR_PTRS × List Nat) :=
  if pkt.length < QUIC_MIN_VALID_PKT_LEN then none
  else
    match PACKET_get_1 pkt with
    | none => none
    | some (b0, r1) =>
      if b0 &&& 0x80 = 0 then decode_short_hdr pkt b0 r1 short_conn_id_len partial_decode
      else decode_long_hdr pkt b0 r1 partial_decode

/-- Modelled from the spec: the token of an Initial packet as the encoder writes it
(section 4.2 mirrors the decoder): the variable-length token length and the token;
nothing for the other types. -/
def encode_initial_token (hdr : QUIC_PKT_HDR) : Option (List Nat) :=
  if hdr.type = QUIC_PKT_TYPE_INITIAL then
    match WPACKET_quic_write_vlint hdr.token_len with
    | none => none
    | some tl => some (tl ++ hdr.token.take hdr.token_len)
  else some []

/-- Modelled from the spec: body of `ossl_quic_wire_encode_pkt_hdr` (declared in
`quic_wire_pkt.h`), section 4.2. The result is `none` when the C function returns 0,
otherwise the header bytes written and the pointer record; the `len` bytes reserved
behind the header are the caller's to fill. Fails on a partial header, on a short header
whose destination connection-ID length differs from the contextual one, on a destination
or source connection ID longer than 20 bytes whatever the type (section 8: encoding a
model with such a length fails), on a packet-number length outside 1..4, on an unmapped
type and version, and on a length no variable-length integer can hold. The fixed bit is
written as 1 except for Version Negotiation. The payload length, counting the packet-number
bytes, is written for Initial, 0-RTT and Handshake only. The pointer record mirrors the
decoder and is all zero for Version Negotiation and Retry. -/
def ossl_quic_wire_encode_pkt_hdr (short_conn_id_len : Nat) (hdr : QUIC_PKT_HDR) :
    Option (List Nat × QUIC_PKT_HDR_PTRS) :=
  if hdr.partial_decode ≠ 0 then none
  else if hdr.type = QUIC_PKT_TYPE_1RTT then
    if hdr.dst_conn_id.length ≠ short_conn_id_len ∨ short_conn_id_len > QUIC_MAX_CONN_ID_LEN
        ∨ hdr.src_conn_id.length > QUIC_MAX_CONN_ID_LEN
    then none
    else if hdr.pn_len < 1 ∨ hdr.pn_len > 4 then none
    else
      some ((0x40 ||| (hdr.spin_bit <<< 5) ||| (hdr.key_phase <<< 2) ||| (hdr.pn_len - 1))
              :: (hdr.dst_conn_id ++ hdr.pn.take hdr.pn_len),
            hdr_ptrs_at (1 + short_conn_id_len + hdr.pn_len + hdr.len)
              (1 + short_conn_id_len))
  else if hdr.dst_conn_id.length > QUIC_MAX_CONN_ID_LEN
      ∨ hdr.src_conn_id.length > QUIC_MAX_CONN_ID_LEN then none
  else if hdr.type = QUIC_PKT_TYPE_VERSION_NEG then
    some ((0x80 ||| (hdr.fixed <<< 6)) :: (be_bytes 4 hdr.version
            ++ hdr.dst_conn_id.length :: hdr.dst_conn_id
            ++ hdr.src_conn_id.length :: hdr.src_conn_id),
          hdr_ptrs_zero)
  else
    match wire_of_long_type hdr.version hdr.type with
    | none => none
    | some raw_type =>
      if hdr.type = QUIC_PKT_TYPE_RETRY then
        some ((0xc0 ||| (raw_type <<< 4)) :: (be_bytes 4 hdr.version
                ++ hdr.dst_conn_id.length :: hdr.dst_conn_id
                ++ hdr.src_conn_id.length :: hdr.src_conn_id),
              hdr_ptrs_zero)
      else if hdr.pn_len < 1 ∨ hdr.pn_len > 4 then none
      else
        match encode_initial_token hdr, WPACKET_quic_write_vlint (hdr.len + hdr.pn_len) with
        | some tok_bytes, some len_bytes =>
          some ((0xc0 ||| (raw_type <<< 4) ||| (hdr.pn_len - 1))
                  :: (be_bytes 4 hdr.version
                    ++ hdr.dst_conn_id.length :: hdr.dst_conn_id
                    ++ hdr.src_conn_id.length :: hdr.src_conn_id
                    ++ tok_bytes ++ len_bytes ++ hdr.pn.take hdr.pn_len),
                hdr_ptrs_at
                  (7 + hdr.dst_conn_id.length + hdr.src_conn_id.length + tok_bytes.length
                    + len_bytes.length + hdr.pn_len + hdr.len)
                  (7 + hdr.dst_conn_id.length + hdr.src_conn_id.length + tok_bytes.length
                    + len_bytes.length))
        | _, _ => none

end QuicWire

namespace QuicWire

/-! ### Vocabulary used to state the header round trip -/

/-- A header the encoder is meant for (section 3): not partial; a known type; the fixed
bit set unless Version Negotiation; one-bit fields in range; both connection IDs of at
most 20 bytes (the destination one of a short header of the contextual length); version
1 for Initial, 0-RTT, Handshake and Retry and version 0 for Version Negotiation; a
packet-number length of 1..4 and the four-byte `pn` array where the type has a packet
number; lengths that a variable-length integer can hold; and a token of `token_len`
bytes. -/
def valid_pkt_hdr (short_conn_id_len : Nat) (hdr : QUIC_PKT_HDR) : Prop :=
  hdr.partial_decode = 0 ∧
  ((hdr.type = QUIC_PKT_TYPE_1RTT ∧ hdr.fixed = 1 ∧ hdr.spin_bit ≤ 1 ∧ hdr.key_phase ≤ 1 ∧
      hdr.dst_conn_id.length = short_conn_id_len ∧
      short_conn_id_len ≤ QUIC_MAX_CONN_ID_LEN ∧
      hdr.src_conn_id.length ≤ QUIC_MAX_CONN_ID_LEN ∧
      1 ≤ hdr.pn_len ∧ hdr.pn_len ≤ 4 ∧ hdr.pn.length = 4) ∨
   (hdr.type = QUIC_PKT_TYPE_VERSION_NEG ∧ hdr.fixed ≤ 1 ∧ hdr.version = QUIC_VERSION_NONE ∧
      hdr.dst_conn_id.length ≤ QUIC_MAX_CONN_ID_LEN ∧
      hdr.src_conn_id.length ≤ QUIC_MAX_CONN_ID_LEN) ∨
   (hdr.type = QUIC_PKT_TYPE_RETRY ∧ hdr.fixed = 1 ∧ hdr.version = QUIC_VERSION_1 ∧
      hdr.dst_conn_id.length ≤ QUIC_MAX_CONN_ID_LEN ∧
      hdr.src_conn_id.length ≤ QUIC_MAX_CONN_ID_LEN) ∨
   ((hdr.type = QUIC_PKT_TYPE_INITIAL ∨ hdr.type = QUIC_PKT_TYPE_0RTT
        ∨ hdr.type = QUIC_PKT_TYPE_HANDSHAKE) ∧
      hdr.fixed = 1 ∧ hdr.version = QUIC_VERSION_1 ∧
      hdr.dst_conn_id.length ≤ QUIC_MAX_CONN_ID_LEN ∧
      hdr.src_conn_id.length ≤ QUIC_MAX_CONN_ID_LEN ∧
      1 ≤ hdr.pn_len ∧ hdr.pn_len ≤ 4 ∧ hdr.pn.length = 4 ∧
      hdr.len + hdr.pn_len < 2 ^ 62 ∧
      (hdr.type = QUIC_PKT_TYPE_INITIAL →
        hdr.token.length = hdr.token_len ∧ hdr.token_len < 2 ^ 62)))

instance (short_conn_id_len : Nat) (hdr : QUIC_PKT_HDR) :
    Decidable (valid_pkt_hdr short_conn_id_len hdr) := by
  unfold valid_pkt_hdr; infer_instance

/-- Whether a packet type carries a packet number. -/
def type_has_pn (type : Nat) : Bool :=
  type == QUIC_PKT_TYPE_1RTT || type == QUIC_PKT_TYPE_INITIAL || type == QUIC_PKT_TYPE_0RTT
    || type == QUIC_PKT_TYPE_HANDSHAKE

/-- Whether a packet type carries a Length field. -/
def type_has_len (type : Nat) : Bool :=
  type == QUIC_PKT_TYPE_INITIAL || type == QUIC_PKT_TYPE_0RTT
    || type == QUIC_PKT_TYPE_HANDSHAKE

/-- The header a full decode is expected to return for an encoded `hdr`: every field
that is valid for the type as in `hdr` (of `pn`, the `pn_len` encoded bytes), every
field the comments of `QUIC_PKT_HDR` mark as not valid for the type zero or empty, and
`data` at the given offset. -/
def hdr_valid_fields (hdr : QUIC_PKT_HDR) (data_off : Nat) : QUIC_PKT_HDR :=
  { type := hdr.type
    spin_bit := if hdr.type = QUIC_PKT_TYPE_1RTT then hdr.spin_bit else 0
    key_phase := if hdr.type = QUIC_PKT_TYPE_1RTT then hdr.key_phase else 0
    pn_len := if type_has_pn hdr.type then hdr.pn_len else 0
    partial_decode := 0
    fixed := hdr.fixed
    version := if hdr.type = QUIC_PKT_TYPE_1RTT then 0 else hdr.version
    dst_conn_id := hdr.dst_conn_id
    src_conn_id := if hdr.type = QUIC_PKT_TYPE_1RTT then [] else hdr.src_conn_id
    pn := if type_has_pn hdr.type then pn_array (hdr.pn.take hdr.pn_len) else [0, 0, 0, 0]
    token := if hdr.type = QUIC_PKT_TYPE_INITIAL then hdr.token else []
    token_len := if hdr.type = QUIC_PKT_TYPE_INITIAL then hdr.token_len else 0
    len := if type_has_len hdr.type then hdr.len else 0
    data := some data_off }

/-- Size of the packet an encoded header announces: the header bytes
`ossl_quic_wire_encode_pkt_hdr` writes plus the `len` payload bytes it reserves (0 when
encoding fails). -/
def encoded_pkt_len (short_conn_id_len : Nat) (hdr : QUIC_PKT_HDR) : Nat :=
  match ossl_quic_wire_encode_pkt_hdr short_conn_id_len hdr with
  | some (bytes, _) => bytes.length + hdr.len
  | none => 0

/-! ### Sample headers -/

/-- A 1-RTT header with an 8-byte destination connection ID and a 2-byte packet number,
for a 5-byte payload. -/
def example_short_hdr : QUIC_PKT_HDR :=
  { type := QUIC_PKT_TYPE_1RTT, spin_bit := 1, key_phase := 0, pn_len := 2,
    partial_decode := 0, fixed := 1, version := 0,
    dst_conn_id := [1, 2, 3, 4, 5, 6, 7, 8], src_conn_id := [],
    pn := [0xab, 0xcd, 0, 0], token := [], token_len := 0, len := 5, data := none }

/-- An Initial header: version 1, 8-byte destination connection ID, empty source
connection ID, 2-byte token, 2-byte packet number, payload length 100. -/
def example_initial_hdr : QUIC_PKT_HDR :=
  { type := QUIC_PKT_TYPE_INITIAL, spin_bit := 0, key_phase := 0, pn_len := 2,
    partial_decode := 0, fixed := 1, version := QUIC_VERSION_1,
    dst_conn_id := [1, 2, 3, 4, 5, 6, 7, 8], src_conn_id := [],
    pn := [0xab, 0xcd, 0, 0], token := [0x11, 0x22], token_len := 2, len := 100,
    data := none }

/-- A Handshake header: version 1, 8-byte destination connection ID, empty source
connection ID, 2-byte packet number, payload length 20. -/
def example_handshake_hdr : QUIC_PKT_HDR :=
  { type := QUIC_PKT_TYPE_HANDSHAKE, spin_bit := 0, key_phase := 0, pn_len := 2,
    partial_decode := 0, fixed := 1, version := QUIC_VERSION_1,
    dst_conn_id := [1, 2, 3, 4, 5, 6, 7, 8], src_conn_id := [],
    pn := [0xab, 0xcd, 0, 0], token := [], token_len := 0, len := 20, data := none }

/-- Twenty payload bytes. -/
def example_payload_20 : List Nat :=
  [1, 2, 3, 4, 5, 6, 7, 8, 9, 10, 11, 12, 13, 14, 15, 16, 17, 18, 19, 20]

end QuicWire

namespace OTime

/-- The calendar day after `(y, m, d)`: the next day of the month, else the first day of
the next month, else 1 January of the next year. -/
def next_day (y m d : Int) : Int × Int × Int :=
  if d + 1 ≤ days_in_month y m then (y, m, d + 1)
  else if m + 1 ≤ 12 then (y, m + 1, 1)
  else (y + 1, 1, 1)

/-- A time of day out of range: 48 hours, on 1 January 2000. -/
def tm_hour_48 : Tm :=
  { tm_sec := 0, tm_min := 0, tm_hour := 48, tm_mday := 1, tm_mon := 0, tm_year := 100,
    tm_wday := 6, tm_yday := 0, tm_isdst := 0 }

end OTime

namespace QuicWire

/-! ### Further sample values -/

/-- A 21-byte short-header packet whose first byte has the fixed bit clear. -/
def example_packet_fixed_clear : List Nat :=
  [0x01, 1, 2, 3, 4, 5, 6, 7, 8, 0xab, 0xcd, 0, 0, 0, 0, 0, 0, 0, 0, 0, 0]

/-- The 20 bytes after the first byte of a short-header packet: an 8-byte destination
connection ID, then the protected packet-number field and payload. -/
def example_short_body : List Nat :=
  [1, 2, 3, 4, 5, 6, 7, 8, 0xab, 0xcd, 0xe0, 0xe1, 0xe2, 0xe3, 0xe4, 0xe5, 0xe6, 0xe7,
    0xe8, 0xe9]

/-- The header a partial decode returns for the first byte 0x5d followed by
`example_short_body`, with an 8-byte contextual connection-ID length. -/
def example_partial_hdr : QUIC_PKT_HDR :=
  { type := QUIC_PKT_TYPE_1RTT, spin_bit := 0, key_phase := 0, pn_len := 0,
    partial_decode := 1, fixed := 1, version := 0,
    dst_conn_id := [1, 2, 3, 4, 5, 6, 7, 8], src_conn_id := [],
    pn := [0, 0, 0, 0], token := [], token_len := 0, len := 0, data := some 9 }

/-- The pointer record of that partial decode. -/
def example_partial_ptrs : QUIC_PKT_HDR_PTRS :=
  { raw_start := some 0, raw_sample := some 13, raw_sample_len := 8, raw_pn := some 9 }

/-- The sample 1-RTT header with a 21-byte source connection ID, a field that is not
valid for a short header. -/
def example_short_hdr_long_scid : QUIC_PKT_HDR :=
  { example_short_hdr with src_conn_id := List.replicate 21 0 }

/-- An Initial header whose destination connection ID has 21 bytes. -/
def example_initial_hdr_long_dcid : QUIC_PKT_HDR :=
  { example_initial_hdr with dst_conn_id := List.replicate 21 0 }

/-- A long-header packet (version 1) whose destination connection-ID length byte is 21. -/
def example_packet_long_dcid : List Nat :=
  [0xc1, 0, 0, 0, 1, 21] ++ List.replicate 30 0

/-- The 19 bytes of `example_packet` from address 5 on: its sample window. -/
def example_sample : List Nat :=
  [0xa2, 0xa3, 0xa4, 0xa5, 0xa6, 0xa7, 0xa8, 0xa9, 0xaa, 0xab, 0xac, 0xad, 0xae, 0xaf,
    0xb0, 0xb1, 0xb2, 0xb3, 0xb4]

end QuicWire

namespace OTime

/-! ## `crypto/o_time.c` with the C integer types

The definitions above compute over the integers. The ones below keep the widths of the C
types on an LP64 platform: `int` has 32 bits and `long` has 64 bits. A conversion to a
narrower type keeps the low bits (two's complement). Signed overflow, which C leaves
undefined, is modelled the same way, as the usual hardware does. -/

/-- Conversion of an integer to the C type `int`: the value modulo `2^32` in
`-2^31 .. 2^31 - 1`. -/
def to_int (x : Int) : Int := (x + 2147483648) % 4294967296 - 2147483648

/-- Conversion of an integer to the C type `long`: the value modulo `2^64` in
`-2^63 .. 2^63 - 1`. -/
def to_long (x : Int) : Int :=
  (x + 9223372036854775808) % 18446744073709551616 - 9223372036854775808

/-- The function `date_to_julian` with its C types: `y`, `m`, `d` and every intermediate
result are `int`; the value is converted to `long` on return. -/
def date_to_julian_c (y m d : Int) : Int :=
  let a := Int.tdiv (to_int (m - 14)) 12
  let t1 := Int.tdiv (to_int (1461 * to_int (to_int (y + 4800) + a))) 4
  let t2 := Int.tdiv (to_int (367 * to_int (to_int (m - 2) - to_int (12 * a)))) 12
  let t3 := Int.tdiv (to_int (3 * Int.tdiv (to_int (to_int (y + 4900) + a)) 100)) 4
  to_int (to_int (to_int (to_int (t1 + t2) - t3) + d) - 32075)

/-- The function `julian_to_date` with its C types: `jd`, `L`, `n`, `i`, `j` are `long`,
the results are stored through `int *`. -/
def julian_to_date_c (jd : Int) : Int × Int × Int :=
  let L := to_long (jd + 68569)
  let n := Int.tdiv (to_long (4 * L)) 146097
  let L := to_long (L - Int.tdiv (to_long (to_long (146097 * n) + 3)) 4)
  let i := Int.tdiv (to_long (4000 * to_long (L + 1))) 1461001
  let L := to_long (to_long (L - Int.tdiv (to_long (1461 * i)) 4) + 31)
  let j := Int.tdiv (to_long (80 * L)) 2447
  let d := to_int (to_long (L - Int.tdiv (to_long (2447 * j)) 80))
  let L := Int.tdiv j 11
  let m := to_int (to_long (to_long (j + 2) - to_long (12 * L)))
  let y := to_int (to_long (to_long (to_long (100 * to_long (n - 49)) + i) + L))
  (y, m, d)

end OTime

namespace QuicWire

/-! ## Lemmas on the byte helpers -/

theorem be_bytes_length (w v : Nat) : (be_bytes w v).length = w := by
  induction w with
  | zero => rfl
  | succ k ih => simp [be_bytes, ih]

theorem be_value_foldl (bs : List Nat) (a : Nat) :
    bs.foldl (fun acc b => acc * 256 + b) a = a * 256 ^ bs.length + be_value bs := by
  induction bs generalizing a with
  | nil => simp [be_value]
  | cons b t ih =>
    simp only [List.foldl_cons, List.length_cons, be_value]
    rw [ih (a * 256 + b), ih (0 * 256 + b)]
    simp only [be_value]
    ring

theorem be_value_cons (b : Nat) (t : List Nat) :
    be_value (b :: t) = b * 256 ^ t.length + be_value t := by
  have h := be_value_foldl t (0 * 256 + b)
  simp only [be_value, List.foldl_cons] at h ⊢
  rw [h]
  simp

theorem be_value_be_bytes (w v : Nat) : be_value (be_bytes w v) = v % 256 ^ w := by
  induction w with
  | zero => simp [be_bytes, be_value, Nat.mod_one]
  | succ k ih =>
    rw [be_bytes, be_value_cons, be_bytes_length, ih]
    have h1 : v % 256 ^ (k + 1) = 256 ^ k * (v / 256 ^ k % 256) + v % 256 ^ k := by
      rw [pow_succ, Nat.mod_mul]
      ring
    rw [h1]
    ring

end QuicWire

namespace QuicWire

/-! ## Packet-number codec: reconstruction inside the window -/

theorem pn_truncated_value (w : Nat) (pn : Int) :
    ((be_value ((be_bytes w (pn % 2 ^ (8 * w)).toNat).take w) : Nat) : Int)
      = pn % 2 ^ (8 * w) := by
  have hl : ((be_bytes w (pn % 2 ^ (8 * w)).toNat).take w)
      = be_bytes w (pn % 2 ^ (8 * w)).toNat := by
    apply List.take_of_length_le
    rw [be_bytes_length]
  rw [hl, be_value_be_bytes]
  have hpos : (0 : Int) < 2 ^ (8 * w) := by positivity
  have h0 : 0 ≤ pn % 2 ^ (8 * w) := Int.emod_nonneg _ (ne_of_gt hpos)
  have h1 : pn % 2 ^ (8 * w) < 2 ^ (8 * w) := Int.emod_lt_of_pos _ hpos
  have h2 : (256 : Nat) ^ w = 2 ^ (8 * w) := by
    rw [pow_mul]; norm_num
  rw [h2]
  have h3 : (pn % 2 ^ (8 * w)).toNat < 2 ^ (8 * w) := by
    zify
    rw [Int.toNat_of_nonneg h0]
    exact_mod_cast h1
  rw [Nat.mod_eq_of_lt h3, Int.toNat_of_nonneg h0]

/-- Decoding the `w`-byte encoding of a non-negative `pn` returns `pn` as soon as `pn`
lies strictly inside the half window around `largest_pn + 1`. -/
theorem decode_pn_window (w : Nat) (hw1 : 1 ≤ w) (hw4 : w ≤ 4) (pn la : Int) (hpn : 0 ≤ pn)
    (hd : 2 * (pn - (la + 1)).natAbs < 2 ^ (8 * w)) :
    ossl_quic_wire_decode_pkt_hdr_pn (be_bytes w (pn % 2 ^ (8 * w)).toNat) w la
      = some pn := by
  unfold ossl_quic_wire_decode_pkt_hdr_pn
  have hc : 1 ≤ w ∧ w ≤ 4 ∧ w ≤ (be_bytes w (pn % 2 ^ (8 * w)).toNat).length := by
    rw [be_bytes_length]; omega
  rw [if_pos hc]
  simp only [pn_truncated_value]
  interval_cases w
  · norm_num at hd ⊢
    split_ifs <;> simp only [Option.some.injEq] <;> omega
  · norm_num at hd ⊢
    split_ifs <;> simp only [Option.some.injEq] <;> omega
  · norm_num at hd ⊢
    split_ifs <;> simp only [Option.some.injEq] <;> omega
  · norm_num at hd ⊢
    split_ifs <;> simp only [Option.some.injEq] <;> omega

theorem determine_pn_len_range (pn la : Int) :
    1 ≤ ossl_quic_wire_determine_pn_len pn la ∧ ossl_quic_wire_determine_pn_len pn la ≤ 4 := by
  unfold ossl_quic_wire_determine_pn_len
  split_ifs <;> omega

theorem determine_pn_len_cases (pn la : Int) :
    (ossl_quic_wire_determine_pn_len pn la = 1 ∧ 2 * (pn - (la + 1)).natAbs < 2 ^ 7) ∨
    (ossl_quic_wire_determine_pn_len pn la = 2 ∧ 2 ^ 7 ≤ 2 * (pn - (la + 1)).natAbs
        ∧ 2 * (pn - (la + 1)).natAbs < 2 ^ 15) ∨
    (ossl_quic_wire_determine_pn_len pn la = 3 ∧ 2 ^ 15 ≤ 2 * (pn - (la + 1)).natAbs
        ∧ 2 * (pn - (la + 1)).natAbs < 2 ^ 23) ∨
    (ossl_quic_wire_determine_pn_len pn la = 4 ∧ 2 ^ 23 ≤ 2 * (pn - (la + 1)).natAbs) := by
  unfold ossl_quic_wire_determine_pn_len pn_width_adequate
  simp only [decide_eq_true_eq]
  norm_num
  split_ifs <;> omega

/-- C1 (counterexample): with nothing acknowledged (`largest_acked = -1`) and
`pn = 2^32`, the width saturates at 4, the four encoded bytes are all zero, and decoding
them relative to `-1` yields `0`, not `2^32`. -/
theorem pn_codec_round_trip_counterexample :
    (-1 : Int) ≤ -1 ∧ (0 : Int) ≤ 4294967296 ∧
    ossl_quic_wire_determine_pn_len 4294967296 (-1) = 4 ∧
    ossl_quic_wire_encode_pkt_hdr_pn 4294967296 4 = some [0, 0, 0, 0] ∧
    ossl_quic_wire_decode_pkt_hdr_pn [0, 0, 0, 0] 4 (-1) = some 0 ∧
    ossl_quic_wire_decode_pkt_hdr_pn [0, 0, 0, 0] 4 (-1) ≠ some 4294967296 := by
  decide

/-- C1 (amended): for all `largest_acked ≥ -1` and `pn ≥ 0` whose distance
`|pn - (largest_acked + 1)|` is below `2^31` (half of the widest, 4-byte, window),
encoding `pn` in `ossl_quic_wire_determine_pn_len pn largest_acked` bytes succeeds, writes
exactly that many bytes, and decoding them relative to `largest_acked` returns `pn`. -/
theorem pn_codec_round_trip_within_window (pn largest_acked : Int)
    (_hla : -1 ≤ largest_acked) (hpn : 0 ≤ pn)
    (hdist : (pn - (largest_acked + 1)).natAbs < 2 ^ 31) :
    ∃ enc : List Nat,
      ossl_quic_wire_encode_pkt_hdr_pn pn (ossl_quic_wire_determine_pn_len pn largest_acked)
        = some enc ∧
      enc.length = ossl_quic_wire_determine_pn_len pn largest_acked ∧
      ossl_quic_wire_decode_pkt_hdr_pn enc
        (ossl_quic_wire_determine_pn_len pn largest_acked) largest_acked = some pn := by
  have hr := determine_pn_len_range pn largest_acked
  refine ⟨be_bytes (ossl_quic_wire_determine_pn_len pn largest_acked)
    (pn % 2 ^ (8 * ossl_quic_wire_determine_pn_len pn largest_acked)).toNat, ?_, ?_, ?_⟩
  · unfold ossl_quic_wire_encode_pkt_hdr_pn
    rw [if_pos hr]
  · rw [be_bytes_length]
  · apply decode_pn_window _ hr.1 hr.2 _ _ hpn
    rcases determine_pn_len_cases pn largest_acked with h | h | h | h <;>
      rw [h.1] <;> norm_num at hdist ⊢ <;> omega

/-- C1 (witness): the amended round trip at `pn = 70000`, `largest_acked = 5`. -/
theorem pn_codec_round_trip_within_window_witness :
    (-1 : Int) ≤ 5 ∧ (0 : Int) ≤ 70000 ∧ ((70000 : Int) - (5 + 1)).natAbs < 2 ^ 31 ∧
    ∃ enc : List Nat,
      ossl_quic_wire_encode_pkt_hdr_pn 70000 (ossl_quic_wire_determine_pn_len 70000 5)
        = some enc ∧
      enc.length = ossl_quic_wire_determine_pn_len 70000 5 ∧
      ossl_quic_wire_decode_pkt_hdr_pn enc
        (ossl_quic_wire_determine_pn_len 70000 5) 5 = some 70000 :=
  ⟨by decide, by decide, by decide,
    pn_codec_round_trip_within_window 70000 5 (by decide) (by decide) (by decide)⟩

/-- C10: the width chosen by `ossl_quic_wire_determine_pn_len` lies in 1..4; no smaller
width in 1..4 satisfies the rule "`2^(8*width-1)` exceeds twice the distance between `pn`
and `largest_acked + 1`"; and the chosen width satisfies the rule itself unless no width
in 1..4 does, in which case the result is 4. -/
theorem determine_pn_len_minimal_adequate (pn largest_acked : Int) :
    1 ≤ ossl_quic_wire_determine_pn_len pn largest_acked ∧
    ossl_quic_wire_determine_pn_len pn largest_acked ≤ 4 ∧
    (∀ v : Nat, 1 ≤ v → v < ossl_quic_wire_determine_pn_len pn largest_acked →
      ¬ 2 * (pn - (largest_acked + 1)).natAbs < 2 ^ (8 * v - 1)) ∧
    (2 * (pn - (largest_acked + 1)).natAbs
        < 2 ^ (8 * ossl_quic_wire_determine_pn_len pn largest_acked - 1) ∨
      (ossl_quic_wire_determine_pn_len pn largest_acked = 4 ∧
        ∀ v : Nat, 1 ≤ v → v ≤ 4 →
          ¬ 2 * (pn - (largest_acked + 1)).natAbs < 2 ^ (8 * v - 1))) := by
  have hr := determine_pn_len_range pn largest_acked
  refine ⟨hr.1, hr.2, ?_, ?_⟩
  · intro v hv1 hv
    rcases determine_pn_len_cases pn largest_acked with h | h | h | h <;>
      rw [h.1] at hv <;> interval_cases v <;> norm_num <;> omega
  · rcases determine_pn_len_cases pn largest_acked with h | h | h | h
    · left; rw [h.1]; norm_num; omega
    · left; rw [h.1]; norm_num; omega
    · left; rw [h.1]; norm_num; omega
    · by_cases h4 : 2 * (pn - (largest_acked + 1)).natAbs < 2 ^ 31
      · left; rw [h.1]; norm_num; omega
      · right
        refine ⟨h.1, ?_⟩
        intro v hv1 hv4
        interval_cases v <;> norm_num <;> omega

end QuicWire

namespace QuicWire

/-! ## Header protection -/

theorem hdr_generate_mask_short (C : HdrCipher) (hpr : QUIC_HDR_PROTECTOR)
    (sample : List Nat) (sample_len : Nat) (h : sample_len < C.sample_len hpr.cipher_id) :
    hdr_generate_mask C hpr sample sample_len = none := by
  unfold hdr_generate_mask
  rw [if_pos h]

theorem decrypt_fields_short (C : HdrCipher) (hpr : QUIC_HDR_PROTECTOR)
    (sample : List Nat) (sample_len first_byte : Nat) (pn_bytes : List Nat)
    (h : sample_len < C.sample_len hpr.cipher_id) :
    ossl_quic_hdr_protector_decrypt_fields C hpr sample sample_len first_byte pn_bytes
      = (false, first_byte, pn_bytes) := by
  unfold ossl_quic_hdr_protector_decrypt_fields
  rw [hdr_generate_mask_short C hpr sample sample_len h]

/-- C3: when the sample window of the pointer record is shorter than the sample length
the cipher family requires, `ossl_quic_hdr_protector_decrypt` returns 0 and leaves the
memory, in particular the first header byte and the packet-number bytes, unchanged; and
`ossl_quic_hdr_protector_decrypt_fields` on such a sample returns 0 with the first byte
and the packet-number bytes unchanged. -/
theorem hdr_protector_decrypt_short_sample (C : HdrCipher) (hpr : QUIC_HDR_PROTECTOR)
    (ptrs : QUIC_PKT_HDR_PTRS) (mem : Mem)
    (h : ptrs.raw_sample_len < C.sample_len hpr.cipher_id) :
    ossl_quic_hdr_protector_decrypt C hpr ptrs mem = (false, mem) ∧
    ∀ (sample : List Nat) (first_byte : Nat) (pn_bytes : List Nat),
      ossl_quic_hdr_protector_decrypt_fields C hpr sample ptrs.raw_sample_len first_byte
        pn_bytes = (false, first_byte, pn_bytes) := by
  constructor
  · unfold ossl_quic_hdr_protector_decrypt
    cases ptrs.raw_start <;> cases ptrs.raw_sample <;> cases ptrs.raw_pn <;> try rfl
    simp only [decrypt_fields_short C hpr _ _ _ _ h]
  · intro sample first_byte pn_bytes
    exact decrypt_fields_short C hpr sample _ first_byte pn_bytes h

/-- C3 (witness): with a 15-byte sample window and a cipher that needs 16 bytes,
removal fails and the packet image is what it was. -/
theorem hdr_protector_decrypt_short_sample_witness :
    example_ptrs_short.raw_sample_len < example_cipher.sample_len example_protector.cipher_id ∧
    (ossl_quic_hdr_protector_decrypt example_cipher example_protector example_ptrs_short
        example_packet = (false, example_packet) ∧
      ∀ (sample : List Nat) (first_byte : Nat) (pn_bytes : List Nat),
        ossl_quic_hdr_protector_decrypt_fields example_cipher example_protector sample
          example_ptrs_short.raw_sample_len first_byte pn_bytes
          = (false, first_byte, pn_bytes)) :=
  ⟨by decide, hdr_protector_decrypt_short_sample example_cipher example_protector
    example_ptrs_short example_packet (by decide)⟩

end QuicWire

namespace QuicWire

/-! ## Header protection: applying then removing -/

theorem read_bytes_length (mem : Mem) (p n : Nat) : (read_bytes mem p n).length = n := by
  simp [read_bytes]

theorem read_bytes_getD (mem : Mem) (p n i : Nat) (h : i < n) :
    (read_bytes mem p n).getD i 0 = mem (p + i) := by
  simp [read_bytes, List.getD_eq_getElem?_getD, List.getElem?_map, List.getElem?_range h]

theorem read_bytes_ext (m1 m2 : Mem) (p n : Nat) (h : ∀ i, i < n → m1 (p + i) = m2 (p + i)) :
    read_bytes m1 p n = read_bytes m2 p n := by
  unfold read_bytes
  apply List.map_congr_left
  intro i hi
  exact h i (List.mem_range.mp hi)

theorem read_bytes_of_getD (mem : Mem) (p : Nat) (bs : List Nat)
    (h : ∀ i, i < bs.length → mem (p + i) = bs.getD i 0) :
    read_bytes mem p bs.length = bs := by
  apply List.ext_getElem
  · rw [read_bytes_length]
  · intro i h1 h2
    have e1 := read_bytes_getD mem p bs.length i h2
    rw [List.getD_eq_getElem _ _ h1] at e1
    rw [e1, h i h2, List.getD_eq_getElem _ _ h2]

theorem write_bytes_inside (mem : Mem) (p : Nat) (bs : List Nat) (a : Nat)
    (h1 : p ≤ a) (h2 : a < p + bs.length) :
    write_bytes mem p bs a = bs.getD (a - p) 0 := by
  unfold write_bytes
  rw [if_pos ⟨h1, h2⟩]

theorem write_bytes_outside (mem : Mem) (p : Nat) (bs : List Nat) (a : Nat)
    (h : a < p ∨ p + bs.length ≤ a) :
    write_bytes mem p bs a = mem a := by
  unfold write_bytes
  rw [if_neg (by omega)]

theorem xor_pn_bytes_length (pn_len : Nat) (mask : List Nat) (k : Nat) (bs : List Nat) :
    (xor_pn_bytes pn_len mask k bs).length = bs.length := by
  induction bs generalizing k with
  | nil => rfl
  | cons b t ih => simp [xor_pn_bytes, ih]

/-- Applying the same mask bytes twice gives the packet-number bytes back. -/
theorem xor_pn_bytes_twice (pn_len : Nat) (mask : List Nat) (k : Nat) (bs : List Nat) :
    xor_pn_bytes pn_len mask k (xor_pn_bytes pn_len mask k bs) = bs := by
  induction bs generalizing k with
  | nil => rfl
  | cons b t ih =>
    simp only [xor_pn_bytes, ih]
    split_ifs
    · rw [Nat.xor_cancel_right]
    · rfl

/-- Masking the protected bits does not change the header-form bit, hence not the set
of protected bits either. -/
theorem hdr_protected_bits_masked (first_byte m : Nat) :
    hdr_protected_bits (first_byte ^^^ (m &&& hdr_protected_bits first_byte))
      = hdr_protected_bits first_byte := by
  have key : (first_byte ^^^ (m &&& hdr_protected_bits first_byte)) &&& 0x80
      = first_byte &&& 0x80 := by
    rw [Nat.and_xor_distrib_right, Nat.and_assoc]
    have hz : hdr_protected_bits first_byte &&& 0x80 = 0 := by
      unfold hdr_protected_bits
      split_ifs <;> decide
    rw [hz, Nat.and_zero, Nat.xor_zero]
  unfold hdr_protected_bits at key ⊢
  rw [key]

/-- Removing protection from what `ossl_quic_hdr_protector_encrypt_fields` produced,
with the same protector and sample, gives the original first byte and packet-number
bytes. -/
theorem hdr_fields_round_trip (C : HdrCipher) (hpr : QUIC_HDR_PROTECTOR)
    (sample : List Nat) (sample_len first_byte : Nat) (pn_bytes : List Nat)
    (h : C.sample_len hpr.cipher_id ≤ sample_len) :
    ∃ fb1 pn1,
      ossl_quic_hdr_protector_encrypt_fields C hpr sample sample_len first_byte pn_bytes
        = (true, fb1, pn1) ∧ pn1.length = pn_bytes.length ∧
      ossl_quic_hdr_protector_decrypt_fields C hpr sample sample_len fb1 pn1
        = (true, first_byte, pn_bytes) := by
  unfold ossl_quic_hdr_protector_encrypt_fields ossl_quic_hdr_protector_decrypt_fields
    hdr_generate_mask
  rw [if_neg (by omega)]
  refine ⟨_, _, rfl, xor_pn_bytes_length _ _ _ _, ?_⟩
  simp only [hdr_protected_bits_masked, Nat.xor_cancel_right, xor_pn_bytes_twice]

/-- Memory after applying protection and removing it again, for a pointer record laid
out as the decoder and encoder emit it: first byte, then the packet-number field, then
the sample window, which starts no earlier than four bytes after the start of the
packet-number field. -/
theorem hdr_protector_round_trip_mem (C : HdrCipher) (hpr : QUIC_HDR_PROTECTOR)
    (ptrs : QUIC_PKT_HDR_PTRS) (mem : Mem) (start pn sample : Nat)
    (hs : ptrs.raw_start = some start) (hp : ptrs.raw_pn = some pn)
    (hsm : ptrs.raw_sample = some sample) (hlt : start < pn) (hgap : pn + 4 ≤ sample)
    (hlen : C.sample_len hpr.cipher_id ≤ ptrs.raw_sample_len) :
    (ossl_quic_hdr_protector_encrypt C hpr ptrs mem).1 = true ∧
    ossl_quic_hdr_protector_decrypt C hpr ptrs
      (ossl_quic_hdr_protector_encrypt C hpr ptrs mem).2 = (true, mem) := by
  obtain ⟨fb1, pn1, he, hl, hd⟩ := hdr_fields_round_trip C hpr
    (read_bytes mem sample ptrs.raw_sample_len) ptrs.raw_sample_len (mem start)
    (read_bytes mem pn 4) hlen
  rw [read_bytes_length] at hl
  have henc : ossl_quic_hdr_protector_encrypt C hpr ptrs mem
      = (true, write_bytes (write_bytes mem start [fb1]) pn pn1) := by
    unfold ossl_quic_hdr_protector_encrypt
    rw [hs, hp, hsm]
    simp only [he]
  rw [henc]
  refine ⟨rfl, ?_⟩
  have r1 : write_bytes (write_bytes mem start [fb1]) pn pn1 start = fb1 := by
    rw [write_bytes_outside _ _ _ _ (Or.inl hlt),
      write_bytes_inside _ _ _ _ (le_refl _) (by simp)]
    simp
  have r2 : read_bytes (write_bytes (write_bytes mem start [fb1]) pn pn1) pn 4 = pn1 := by
    rw [← hl]
    apply read_bytes_of_getD
    intro i hi
    rw [write_bytes_inside _ _ _ _ (by omega) (by omega)]
    simp
  have r3 : read_bytes (write_bytes (write_bytes mem start [fb1]) pn pn1) sample
      ptrs.raw_sample_len = read_bytes mem sample ptrs.raw_sample_len := by
    apply read_bytes_ext
    intro i _
    rw [write_bytes_outside _ _ _ _ (Or.inr (by omega)),
      write_bytes_outside _ _ _ _ (Or.inr (by simp; omega))]
  unfold ossl_quic_hdr_protector_decrypt
  rw [hs, hp, hsm]
  simp only [r1, r2, r3, hd]
  congr 1
  funext a
  by_cases ha : pn ≤ a ∧ a < pn + 4
  · rw [write_bytes_inside _ _ _ _ ha.1 (by rw [read_bytes_length]; exact ha.2),
      read_bytes_getD _ _ _ _ (by omega)]
    congr 1
    omega
  · rw [write_bytes_outside _ _ _ _ (by rw [read_bytes_length]; omega)]
    by_cases hb : a = start
    · subst hb
      rw [write_bytes_inside _ _ _ _ (le_refl _) (by simp)]
      simp
    · rw [write_bytes_outside _ _ _ _ (by simp; omega),
        write_bytes_outside _ _ _ _ (by omega),
        write_bytes_outside _ _ _ _ (by simp; omega)]

/-- C9: for every header protector and every memory content (every sample, first header
byte and packet-number bytes), with a pointer record whose sample window has at least
the required length, `ossl_quic_hdr_protector_encrypt` succeeds, and
`ossl_quic_hdr_protector_decrypt` on the resulting buffer with the same protector
succeeds and restores the original first byte and packet-number bytes (indeed the whole
buffer). The pointer record is laid out as the codec emits it: the packet-number field
after the first byte, the sample window behind the four bytes of that field. -/
theorem hdr_protector_round_trip (C : HdrCipher) (hpr : QUIC_HDR_PROTECTOR)
    (ptrs : QUIC_PKT_HDR_PTRS) (mem : Mem) (start pn sample : Nat)
    (hs : ptrs.raw_start = some start) (hp : ptrs.raw_pn = some pn)
    (hsm : ptrs.raw_sample = some sample) (hlt : start < pn) (hgap : pn + 4 ≤ sample)
    (hlen : C.sample_len hpr.cipher_id ≤ ptrs.raw_sample_len) :
    (ossl_quic_hdr_protector_encrypt C hpr ptrs mem).1 = true ∧
    (ossl_quic_hdr_protector_decrypt C hpr ptrs
      (ossl_quic_hdr_protector_encrypt C hpr ptrs mem).2).1 = true ∧
    (ossl_quic_hdr_protector_decrypt C hpr ptrs
      (ossl_quic_hdr_protector_encrypt C hpr ptrs mem).2).2 start = mem start ∧
    read_bytes (ossl_quic_hdr_protector_decrypt C hpr ptrs
      (ossl_quic_hdr_protector_encrypt C hpr ptrs mem).2).2 pn 4 = read_bytes mem pn 4 ∧
    (ossl_quic_hdr_protector_decrypt C hpr ptrs
      (ossl_quic_hdr_protector_encrypt C hpr ptrs mem).2).2 = mem := by
  obtain ⟨h1, h2⟩ :=
    hdr_protector_round_trip_mem C hpr ptrs mem start pn sample hs hp hsm hlt hgap hlen
  rw [h2]
  exact ⟨h1, rfl, rfl, rfl, rfl⟩

/-- C9 (witness): the sample packet image, protected and unprotected again with the
stand-in cipher; protection does change the first byte and the packet-number bytes. -/
theorem hdr_protector_round_trip_witness :
    (ossl_quic_hdr_protector_encrypt example_cipher example_protector example_ptrs
        example_packet).2 0 = 0x59 ∧
    read_bytes (ossl_quic_hdr_protector_encrypt example_cipher example_protector
        example_ptrs example_packet).2 1 4 = [0xeb, 0xca, 0xa0, 0xa1] ∧
    ((ossl_quic_hdr_protector_encrypt example_cipher example_protector example_ptrs
        example_packet).1 = true ∧
      (ossl_quic_hdr_protector_decrypt example_cipher example_protector example_ptrs
        (ossl_quic_hdr_protector_encrypt example_cipher example_protector example_ptrs
          example_packet).2).1 = true ∧
      (ossl_quic_hdr_protector_decrypt example_cipher example_protector example_ptrs
        (ossl_quic_hdr_protector_encrypt example_cipher example_protector example_ptrs
          example_packet).2).2 0 = example_packet 0 ∧
      read_bytes (ossl_quic_hdr_protector_decrypt example_cipher example_protector
        example_ptrs
        (ossl_quic_hdr_protector_encrypt example_cipher example_protector example_ptrs
          example_packet).2).2 1 4 = read_bytes example_packet 1 4 ∧
      (ossl_quic_hdr_protector_decrypt example_cipher example_protector example_ptrs
        (ossl_quic_hdr_protector_encrypt example_cipher example_protector example_ptrs
          example_packet).2).2 = example_packet) :=
  ⟨by decide, by decide,
    hdr_protector_round_trip example_cipher example_protector example_ptrs example_packet
      0 1 5 rfl rfl rfl (by decide) (by decide) (by decide)⟩

end QuicWire

namespace QuicWire

/-! ## Header codec: reading back what was written -/

theorem PACKET_copy_bytes_append (xs r : List Nat) (n : Nat) (h : xs.length = n) :
    PACKET_copy_bytes (xs ++ r) n = some (xs, r) := by
  unfold PACKET_copy_bytes
  subst h
  rw [if_pos (by simp)]
  simp

theorem PACKET_get_net_4_append (v : Nat) (r : List Nat) (h : v < 2 ^ 32) :
    PACKET_get_net_4 (be_bytes 4 v ++ r) = some (v, r) := by
  unfold PACKET_get_net_4
  rw [PACKET_copy_bytes_append _ _ 4 (be_bytes_length 4 v)]
  simp only [be_value_be_bytes]
  rw [Nat.mod_eq_of_lt (by norm_num at h ⊢; exact h)]

theorem be_bytes_one (v : Nat) : be_bytes 1 v = [v % 256] := by
  simp [be_bytes]

theorem be_bytes_head (n v : Nat) (r : List Nat) :
    be_bytes (n + 1) v ++ r = (v / 256 ^ n % 256) :: (be_bytes n v ++ r) := by
  simp [be_bytes]

theorem be_bytes_cons (n x : Nat) (h : 0 < n) :
    be_bytes n x = (x / 256 ^ (n - 1) % 256) :: be_bytes (n - 1) x := by
  cases n with
  | zero => omega
  | succ k => simp [be_bytes]

/-- Reading a variable-length integer from `n` big-endian bytes whose first byte
announces the length `n`. -/
theorem vlint_read_bytes (n x : Nat) (r : List Nat) (hpos : 0 < n)
    (hfirst : 2 ^ (x / 256 ^ (n - 1) % 256 / 64 % 4) = n) :
    PACKET_get_quic_vlint (be_bytes n x ++ r) = some (x % 256 ^ n % 2 ^ (8 * n - 2), r) := by
  have hc := be_bytes_cons n x hpos
  have hcopy := PACKET_copy_bytes_append (be_bytes n x) r n (be_bytes_length n x)
  rw [hc] at hcopy ⊢
  simp only [List.cons_append, PACKET_get_quic_vlint] at hcopy ⊢
  rw [hfirst, hcopy]
  simp only
  rw [← hc, be_value_be_bytes]

theorem vlint_read_1 (v : Nat) (r : List Nat) (h1 : v < 2 ^ 6) :
    PACKET_get_quic_vlint (be_bytes 1 v ++ r) = some (v, r) := by
  have e : v / 256 ^ (1 - 1) % 256 / 64 % 4 = 0 := by norm_num at h1 ⊢; omega
  have e2 : v % 256 ^ 1 % 2 ^ (8 * 1 - 2) = v := by norm_num at h1 ⊢; omega
  have h := vlint_read_bytes 1 v r (by norm_num) (by rw [e]; norm_num)
  rw [e2] at h
  exact h

theorem vlint_read_2 (x : Nat) (r : List Nat) (h1 : 2 ^ 14 ≤ x) (h2 : x < 2 ^ 15) :
    PACKET_get_quic_vlint (be_bytes 2 x ++ r) = some (x - 2 ^ 14, r) := by
  have e : x / 256 ^ (2 - 1) % 256 / 64 % 4 = 1 := by norm_num at h1 h2 ⊢; omega
  have e2 : x % 256 ^ 2 % 2 ^ (8 * 2 - 2) = x - 2 ^ 14 := by norm_num at h1 h2 ⊢; omega
  have h := vlint_read_bytes 2 x r (by norm_num) (by rw [e]; norm_num)
  rw [e2] at h
  exact h

theorem vlint_read_4 (x : Nat) (r : List Nat) (h1 : 2 ^ 31 ≤ x) (h2 : x < 2 ^ 31 + 2 ^ 30) :
    PACKET_get_quic_vlint (be_bytes 4 x ++ r) = some (x - 2 ^ 31, r) := by
  have e : x / 256 ^ (4 - 1) % 256 / 64 % 4 = 2 := by norm_num at h1 h2 ⊢; omega
  have e2 : x % 256 ^ 4 % 2 ^ (8 * 4 - 2) = x - 2 ^ 31 := by norm_num at h1 h2 ⊢; omega
  have h := vlint_read_bytes 4 x r (by norm_num) (by rw [e]; norm_num)
  rw [e2] at h
  exact h

theorem vlint_read_8 (x : Nat) (r : List Nat) (h1 : 2 ^ 63 + 2 ^ 62 ≤ x) (h2 : x < 2 ^ 64) :
    PACKET_get_quic_vlint (be_bytes 8 x ++ r) = some (x - (2 ^ 63 + 2 ^ 62), r) := by
  have e : x / 256 ^ (8 - 1) % 256 / 64 % 4 = 3 := by norm_num at h1 h2 ⊢; omega
  have e2 : x % 256 ^ 8 % 2 ^ (8 * 8 - 2) = x - (2 ^ 63 + 2 ^ 62) := by
    norm_num at h1 h2 ⊢; omega
  have h := vlint_read_bytes 8 x r (by norm_num) (by rw [e]; norm_num)
  rw [e2] at h
  exact h

/-- A variable-length integer that was written is read back, whatever follows it. -/
theorem vlint_round_trip (v : Nat) (enc r : List Nat)
    (h : WPACKET_quic_write_vlint v = some enc) :
    PACKET_get_quic_vlint (enc ++ r) = some (v, r) := by
  unfold WPACKET_quic_write_vlint at h
  by_cases h1 : v < 2 ^ 6
  · rw [if_pos h1] at h
    rw [← Option.some.inj h]
    exact vlint_read_1 v r h1
  · rw [if_neg h1] at h
    by_cases h2 : v < 2 ^ 14
    · rw [if_pos h2] at h
      rw [← Option.some.inj h]
      have hr := vlint_read_2 (v + 0x4000) r (by norm_num) (by norm_num at h2 ⊢; omega)
      have e : v + 0x4000 - 2 ^ 14 = v := by norm_num
      rw [e] at hr
      exact hr
    · rw [if_neg h2] at h
      by_cases h3 : v < 2 ^ 30
      · rw [if_pos h3] at h
        rw [← Option.some.inj h]
        have hr := vlint_read_4 (v + 0x80000000) r (by norm_num)
          (by norm_num at h3 ⊢; omega)
        have e : v + 0x80000000 - 2 ^ 31 = v := by norm_num
        rw [e] at hr
        exact hr
      · rw [if_neg h3] at h
        by_cases h4 : v < 2 ^ 62
        · rw [if_pos h4] at h
          rw [← Option.some.inj h]
          have hr := vlint_read_8 (v + 0xC000000000000000) r (by norm_num)
            (by norm_num at h4 ⊢; omega)
          have e : v + 0xC000000000000000 - (2 ^ 63 + 2 ^ 62) = v := by norm_num
          rw [e] at hr
          exact hr
        · rw [if_neg h4] at h
          cases h

theorem vlint_write_some (v : Nat) (h : v < 2 ^ 62) :
    ∃ enc, WPACKET_quic_write_vlint v = some enc ∧ 1 ≤ enc.length := by
  unfold WPACKET_quic_write_vlint
  split_ifs
  · exact ⟨_, rfl, by rw [be_bytes_length]⟩
  · exact ⟨_, rfl, by rw [be_bytes_length]; omega⟩
  · exact ⟨_, rfl, by rw [be_bytes_length]; omega⟩
  · exact ⟨_, rfl, by rw [be_bytes_length]; omega⟩

/-- The first byte of a short header decodes to the fields it was built from. -/
theorem short_first_byte (spin kp pn_len : Nat) (hs : spin ≤ 1) (hk : kp ≤ 1)
    (h1 : 1 ≤ pn_len) (h4 : pn_len ≤ 4) :
    (0x40 ||| (spin <<< 5) ||| (kp <<< 2) ||| (pn_len - 1)) &&& 0x80 = 0 ∧
    (0x40 ||| (spin <<< 5) ||| (kp <<< 2) ||| (pn_len - 1)) &&& 0x40 ≠ 0 ∧
    ((0x40 ||| (spin <<< 5) ||| (kp <<< 2) ||| (pn_len - 1)) >>> 5) &&& 1 = spin ∧
    ((0x40 ||| (spin <<< 5) ||| (kp <<< 2) ||| (pn_len - 1)) >>> 2) &&& 1 = kp ∧
    ((0x40 ||| (spin <<< 5) ||| (kp <<< 2) ||| (pn_len - 1)) &&& 0x3) + 1 = pn_len := by
  interval_cases spin <;> interval_cases kp <;> interval_cases pn_len <;> decide

/-- The first byte of a long header with a packet number decodes to the fields it was
built from. -/
theorem long_first_byte (raw_type pn_len : Nat) (ht : raw_type ≤ 3)
    (h1 : 1 ≤ pn_len) (h4 : pn_len ≤ 4) :
    (0xc0 ||| (raw_type <<< 4) ||| (pn_len - 1)) &&& 0x80 ≠ 0 ∧
    (0xc0 ||| (raw_type <<< 4) ||| (pn_len - 1)) &&& 0x40 ≠ 0 ∧
    ((0xc0 ||| (raw_type <<< 4) ||| (pn_len - 1)) >>> 4) &&& 0x3 = raw_type ∧
    ((0xc0 ||| (raw_type <<< 4) ||| (pn_len - 1)) &&& 0x3) + 1 = pn_len := by
  interval_cases raw_type <;> interval_cases pn_len <;> decide

theorem retry_first_byte (raw_type : Nat) (ht : raw_type ≤ 3) :
    (0xc0 ||| (raw_type <<< 4)) &&& 0x80 ≠ 0 ∧
    (0xc0 ||| (raw_type <<< 4)) &&& 0x40 ≠ 0 ∧
    ((0xc0 ||| (raw_type <<< 4)) >>> 4) &&& 0x3 = raw_type := by
  interval_cases raw_type <;> decide

theorem vn_first_byte (fixed : Nat) (hf : fixed ≤ 1) :
    (0x80 ||| (fixed <<< 6)) &&& 0x80 ≠ 0 ∧ ((0x80 ||| (fixed <<< 6)) >>> 6) &&& 1 = fixed := by
  interval_cases fixed <;> decide

theorem pn_take_length (pn : List Nat) (pn_len : Nat) (h : pn.length = 4) (h4 : pn_len ≤ 4) :
    (pn.take pn_len).length = pn_len := by
  rw [List.length_take, h]
  omega

end QuicWire

namespace QuicWire

/-! ## Header codec: encode then decode, by packet type -/

/-- Round trip of a 1-RTT header whose packet has at least 21 bytes. -/
theorem round_trip_1rtt (scl : Nat) (hdr : QUIC_PKT_HDR) (payload : List Nat)
    (hp : hdr.partial_decode = 0) (ht : hdr.type = QUIC_PKT_TYPE_1RTT) (hf : hdr.fixed = 1)
    (hs : hdr.spin_bit ≤ 1) (hk : hdr.key_phase ≤ 1)
    (hd : hdr.dst_conn_id.length = scl) (hscl : scl ≤ QUIC_MAX_CONN_ID_LEN)
    (hsrc : hdr.src_conn_id.length ≤ QUIC_MAX_CONN_ID_LEN)
    (h1 : 1 ≤ hdr.pn_len) (h4 : hdr.pn_len ≤ 4) (hpn : hdr.pn.length = 4)
    (hmin : 21 ≤ 1 + scl + hdr.pn_len + payload.length) :
    ∃ bytes ptrs ptrs2,
      ossl_quic_wire_encode_pkt_hdr scl hdr = some (bytes, ptrs) ∧
      bytes.length = 1 + scl + hdr.pn_len ∧
      ossl_quic_wire_decode_pkt_hdr (bytes ++ payload) scl false
        = some (hdr_valid_fields hdr bytes.length, ptrs2, []) := by
  obtain ⟨hb80, hb40, hspin, hkp, hpnl⟩ :=
    short_first_byte hdr.spin_bit hdr.key_phase hdr.pn_len hs hk h1 h4
  have hpt := pn_take_length hdr.pn hdr.pn_len hpn h4
  have henc : ossl_quic_wire_encode_pkt_hdr scl hdr
      = some ((0x40 ||| (hdr.spin_bit <<< 5) ||| (hdr.key_phase <<< 2) ||| (hdr.pn_len - 1))
              :: (hdr.dst_conn_id ++ hdr.pn.take hdr.pn_len),
            hdr_ptrs_at (1 + scl + hdr.pn_len + hdr.len) (1 + scl)) := by
    unfold ossl_quic_wire_encode_pkt_hdr
    rw [if_neg (by rw [hp]; simp), if_pos ht, if_neg (by omega), if_neg (by omega)]
  generalize (0x40 ||| (hdr.spin_bit <<< 5) ||| (hdr.key_phase <<< 2) ||| (hdr.pn_len - 1))
    = b0 at hb80 hb40 hspin hkp hpnl henc
  have hlen : (b0 :: (hdr.dst_conn_id ++ hdr.pn.take hdr.pn_len)).length
      = 1 + scl + hdr.pn_len := by
    simp only [List.length_cons, List.length_append, hd, hpt]; omega
  refine ⟨_, _, hdr_ptrs_at (1 + scl + hdr.pn_len + payload.length) (1 + scl), henc, hlen, ?_⟩
  have htot : ((b0 :: (hdr.dst_conn_id ++ hdr.pn.take hdr.pn_len)) ++ payload).length
      = 1 + scl + hdr.pn_len + payload.length := by
    rw [List.length_append, hlen]
  unfold ossl_quic_wire_decode_pkt_hdr
  rw [if_neg (by
    rw [htot]; unfold QUIC_MIN_VALID_PKT_LEN QUIC_MIN_VALID_PKT_LEN_VERSION_NEG; omega)]
  simp only [List.cons_append, PACKET_get_1]
  rw [if_pos hb80]
  unfold decode_short_hdr
  rw [if_neg (by omega), if_neg hb40]
  rw [if_neg (by
    rw [← List.cons_append, htot]; unfold QUIC_MIN_VALID_PKT_LEN_CRYPTO; omega)]
  rw [List.append_assoc, PACKET_copy_bytes_append _ _ scl hd]
  simp only [Bool.false_eq_true, if_false, hpnl]
  rw [PACKET_copy_bytes_append _ _ hdr.pn_len hpt]
  simp only [hspin, hkp, ← List.cons_append, htot, hlen]
  unfold hdr_valid_fields type_has_pn type_has_len
  simp [ht, hf, QUIC_PKT_TYPE_1RTT, QUIC_PKT_TYPE_INITIAL, QUIC_PKT_TYPE_0RTT,
    QUIC_PKT_TYPE_HANDSHAKE]
  rw [hpn, min_eq_left h4, hd]
  refine ⟨by omega, ?_⟩
  congr 1
  omega

end QuicWire

namespace QuicWire

/-- The long-header decoder on a packet that starts with a version and two
length-prefixed connection IDs of at most 20 bytes. -/
theorem decode_long_hdr_start (pkt : List Nat) (b0 version : Nat)
    (dcid scid tail : List Nat) (pd : Bool) (hv : version < 2 ^ 32)
    (hd : dcid.length ≤ QUIC_MAX_CONN_ID_LEN) (hs : scid.length ≤ QUIC_MAX_CONN_ID_LEN) :
    decode_long_hdr pkt b0
        (be_bytes 4 version ++ (dcid.length :: (dcid ++ (scid.length :: (scid ++ tail))))) pd
      = decode_long_body pkt b0 version dcid scid tail pd := by
  unfold decode_long_hdr
  rw [PACKET_get_net_4_append version _ hv]
  simp only [PACKET_get_1]
  rw [if_neg (by omega), PACKET_copy_bytes_append dcid _ _ rfl]
  simp only [PACKET_get_1]
  rw [if_neg (by omega), PACKET_copy_bytes_append scid _ _ rfl]

/-- Round trip of a Version Negotiation header. -/
theorem round_trip_version_neg (scl : Nat) (hdr : QUIC_PKT_HDR) (payload : List Nat)
    (hp : hdr.partial_decode = 0) (ht : hdr.type = QUIC_PKT_TYPE_VERSION_NEG)
    (hf : hdr.fixed ≤ 1) (hv : hdr.version = QUIC_VERSION_NONE)
    (hd : hdr.dst_conn_id.length ≤ QUIC_MAX_CONN_ID_LEN)
    (hs : hdr.src_conn_id.length ≤ QUIC_MAX_CONN_ID_LEN) :
    ∃ bytes ptrs ptrs2,
      ossl_quic_wire_encode_pkt_hdr scl hdr = some (bytes, ptrs) ∧
      bytes.length = 7 + hdr.dst_conn_id.length + hdr.src_conn_id.length ∧
      ossl_quic_wire_decode_pkt_hdr (bytes ++ payload) scl false
        = some (hdr_valid_fields hdr bytes.length, ptrs2, []) := by
  obtain ⟨hb80, hfix⟩ := vn_first_byte hdr.fixed hf
  have henc : ossl_quic_wire_encode_pkt_hdr scl hdr
      = some ((0x80 ||| (hdr.fixed <<< 6)) :: (be_bytes 4 hdr.version
            ++ hdr.dst_conn_id.length :: hdr.dst_conn_id
            ++ hdr.src_conn_id.length :: hdr.src_conn_id), hdr_ptrs_zero) := by
    unfold ossl_quic_wire_encode_pkt_hdr
    rw [if_neg (by rw [hp]; simp), if_neg (by rw [ht]; decide), if_neg (by omega),
      if_pos ht]
  generalize (0x80 ||| (hdr.fixed <<< 6)) = b0 at hb80 hfix henc
  have hlen : (b0 :: (be_bytes 4 hdr.version
            ++ hdr.dst_conn_id.length :: hdr.dst_conn_id
            ++ hdr.src_conn_id.length :: hdr.src_conn_id)).length
      = 7 + hdr.dst_conn_id.length + hdr.src_conn_id.length := by
    simp only [List.length_cons, List.length_append, be_bytes_length]; omega
  refine ⟨_, _, hdr_ptrs_unprotected, henc, hlen, ?_⟩
  have htot : ((b0 :: (be_bytes 4 hdr.version
            ++ hdr.dst_conn_id.length :: hdr.dst_conn_id
            ++ hdr.src_conn_id.length :: hdr.src_conn_id)) ++ payload).length
      = 7 + hdr.dst_conn_id.length + hdr.src_conn_id.length + payload.length := by
    rw [List.length_append, hlen]
  unfold ossl_quic_wire_decode_pkt_hdr
  rw [if_neg (by
    rw [htot]; unfold QUIC_MIN_VALID_PKT_LEN QUIC_MIN_VALID_PKT_LEN_VERSION_NEG; omega)]
  have hshape : (b0 :: (be_bytes 4 hdr.version
            ++ hdr.dst_conn_id.length :: hdr.dst_conn_id
            ++ hdr.src_conn_id.length :: hdr.src_conn_id)) ++ payload
      = b0 :: (be_bytes 4 hdr.version ++ (hdr.dst_conn_id.length :: (hdr.dst_conn_id
          ++ (hdr.src_conn_id.length :: (hdr.src_conn_id ++ payload))))) := by
    simp only [List.cons_append, List.append_assoc]
  rw [hshape] at htot ⊢
  simp only [PACKET_get_1]
  rw [if_neg hb80]
  rw [decode_long_hdr_start _ _ _ _ _ _ _ (by rw [hv]; decide) hd hs]
  unfold decode_long_body
  rw [if_pos hv, htot, hlen]
  unfold hdr_valid_fields type_has_pn type_has_len
  simp [ht, hv, hfix, QUIC_PKT_TYPE_1RTT, QUIC_PKT_TYPE_INITIAL, QUIC_PKT_TYPE_0RTT,
    QUIC_PKT_TYPE_HANDSHAKE, QUIC_PKT_TYPE_VERSION_NEG, QUIC_VERSION_NONE]

end QuicWire

namespace QuicWire

theorem long_type_wire_inverse (type : Nat)
    (h : type = QUIC_PKT_TYPE_INITIAL ∨ type = QUIC_PKT_TYPE_0RTT
      ∨ type = QUIC_PKT_TYPE_HANDSHAKE ∨ type = QUIC_PKT_TYPE_RETRY) :
    ∃ raw, wire_of_long_type QUIC_VERSION_1 type = some raw ∧ raw ≤ 3 ∧
      long_type_of_wire QUIC_VERSION_1 raw = some type := by
  rcases h with h | h | h | h <;> subst h
  · exact ⟨0, by decide, by decide, by decide⟩
  · exact ⟨1, by decide, by decide, by decide⟩
  · exact ⟨2, by decide, by decide, by decide⟩
  · exact ⟨3, by decide, by decide, by decide⟩

/-- Round trip of a Retry header whose packet has at least 21 bytes. -/
theorem round_trip_retry (scl : Nat) (hdr : QUIC_PKT_HDR) (payload : List Nat)
    (hp : hdr.partial_decode = 0) (ht : hdr.type = QUIC_PKT_TYPE_RETRY)
    (hf : hdr.fixed = 1) (hv : hdr.version = QUIC_VERSION_1)
    (hd : hdr.dst_conn_id.length ≤ QUIC_MAX_CONN_ID_LEN)
    (hs : hdr.src_conn_id.length ≤ QUIC_MAX_CONN_ID_LEN)
    (hmin : 21 ≤ 7 + hdr.dst_conn_id.length + hdr.src_conn_id.length + payload.length) :
    ∃ bytes ptrs ptrs2,
      ossl_quic_wire_encode_pkt_hdr scl hdr = some (bytes, ptrs) ∧
      bytes.length = 7 + hdr.dst_conn_id.length + hdr.src_conn_id.length ∧
      ossl_quic_wire_decode_pkt_hdr (bytes ++ payload) scl false
        = some (hdr_valid_fields hdr bytes.length, ptrs2, []) := by
  obtain ⟨raw, hraw, hraw3, hback⟩ :=
    long_type_wire_inverse hdr.type (Or.inr (Or.inr (Or.inr ht)))
  obtain ⟨hb80, hb40, hty⟩ := retry_first_byte raw hraw3
  have henc : ossl_quic_wire_encode_pkt_hdr scl hdr
      = some ((0xc0 ||| (raw <<< 4)) :: (be_bytes 4 hdr.version
            ++ hdr.dst_conn_id.length :: hdr.dst_conn_id
            ++ hdr.src_conn_id.length :: hdr.src_conn_id), hdr_ptrs_zero) := by
    unfold ossl_quic_wire_encode_pkt_hdr
    rw [if_neg (by rw [hp]; simp), if_neg (by rw [ht]; decide), if_neg (by omega),
      if_neg (by rw [ht]; decide), hv, hraw]
    simp only [if_pos ht]
  generalize (0xc0 ||| (raw <<< 4)) = b0 at hb80 hb40 hty henc
  have hlen : (b0 :: (be_bytes 4 hdr.version
            ++ hdr.dst_conn_id.length :: hdr.dst_conn_id
            ++ hdr.src_conn_id.length :: hdr.src_conn_id)).length
      = 7 + hdr.dst_conn_id.length + hdr.src_conn_id.length := by
    simp only [List.length_cons, List.length_append, be_bytes_length]; omega
  refine ⟨_, _, hdr_ptrs_unprotected, henc, hlen, ?_⟩
  have htot : ((b0 :: (be_bytes 4 hdr.version
            ++ hdr.dst_conn_id.length :: hdr.dst_conn_id
            ++ hdr.src_conn_id.length :: hdr.src_conn_id)) ++ payload).length
      = 7 + hdr.dst_conn_id.length + hdr.src_conn_id.length + payload.length := by
    rw [List.length_append, hlen]
  unfold ossl_quic_wire_decode_pkt_hdr
  rw [if_neg (by
    rw [htot]; unfold QUIC_MIN_VALID_PKT_LEN QUIC_MIN_VALID_PKT_LEN_VERSION_NEG; omega)]
  have hshape : (b0 :: (be_bytes 4 hdr.version
            ++ hdr.dst_conn_id.length :: hdr.dst_conn_id
            ++ hdr.src_conn_id.length :: hdr.src_conn_id)) ++ payload
      = b0 :: (be_bytes 4 hdr.version ++ (hdr.dst_conn_id.length :: (hdr.dst_conn_id
          ++ (hdr.src_conn_id.length :: (hdr.src_conn_id ++ payload))))) := by
    simp only [List.cons_append, List.append_assoc]
  rw [hshape] at htot ⊢
  simp only [PACKET_get_1]
  rw [if_neg hb80]
  rw [decode_long_hdr_start _ _ _ _ _ _ _ (by rw [hv]; decide) hd hs]
  unfold decode_long_body
  rw [htot, hlen]
  rw [if_neg (by rw [hv]; decide), if_neg hb40,
    if_neg (by unfold QUIC_MIN_VALID_PKT_LEN_CRYPTO; omega), hty, hv, hback]
  simp only [if_pos ht]
  unfold hdr_valid_fields type_has_pn type_has_len
  simp [ht, hv, hf, QUIC_PKT_TYPE_1RTT, QUIC_PKT_TYPE_INITIAL, QUIC_PKT_TYPE_0RTT,
    QUIC_PKT_TYPE_HANDSHAKE, QUIC_PKT_TYPE_RETRY, QUIC_VERSION_1]

/-- The token of an Initial packet is read back; other types have none. -/
theorem initial_token_round_trip (hdr : QUIC_PKT_HDR) (rest : List Nat)
    (htok : hdr.type = QUIC_PKT_TYPE_INITIAL →
      hdr.token.length = hdr.token_len ∧ hdr.token_len < 2 ^ 62) :
    ∃ tok_bytes, encode_initial_token hdr = some tok_bytes ∧
      decode_initial_token hdr.type (tok_bytes ++ rest)
        = some (if hdr.type = QUIC_PKT_TYPE_INITIAL then hdr.token else [],
                if hdr.type = QUIC_PKT_TYPE_INITIAL then hdr.token_len else 0, rest) := by
  unfold encode_initial_token decode_initial_token
  by_cases hI : hdr.type = QUIC_PKT_TYPE_INITIAL
  · obtain ⟨hl, hlt⟩ := htok hI
    obtain ⟨tl, htl, -⟩ := vlint_write_some hdr.token_len hlt
    have htake : hdr.token.take hdr.token_len = hdr.token := by
      rw [← hl]; exact List.take_length _
    refine ⟨tl ++ hdr.token, ?_, ?_⟩
    · simp only [if_pos hI, htl, htake]
    · simp only [if_pos hI]
      rw [List.append_assoc, vlint_round_trip _ _ _ htl]
      simp only
      rw [PACKET_copy_bytes_append _ _ _ hl]
  · exact ⟨[], by simp only [if_neg hI], by simp only [if_neg hI, List.nil_append]⟩

/-- Round trip of an Initial, 0-RTT or Handshake header whose packet has at least 21
bytes. -/
theorem round_trip_long_pn (scl : Nat) (hdr : QUIC_PKT_HDR) (payload : List Nat)
    (hp : hdr.partial_decode = 0)
    (ht : hdr.type = QUIC_PKT_TYPE_INITIAL ∨ hdr.type = QUIC_PKT_TYPE_0RTT
      ∨ hdr.type = QUIC_PKT_TYPE_HANDSHAKE)
    (hf : hdr.fixed = 1) (hv : hdr.version = QUIC_VERSION_1)
    (hd : hdr.dst_conn_id.length ≤ QUIC_MAX_CONN_ID_LEN)
    (hs : hdr.src_conn_id.length ≤ QUIC_MAX_CONN_ID_LEN)
    (h1 : 1 ≤ hdr.pn_len) (h4 : hdr.pn_len ≤ 4) (hpn : hdr.pn.length = 4)
    (hlen62 : hdr.len + hdr.pn_len < 2 ^ 62)
    (htok : hdr.type = QUIC_PKT_TYPE_INITIAL →
      hdr.token.length = hdr.token_len ∧ hdr.token_len < 2 ^ 62)
    (hpl : payload.length = hdr.len)
    (hmin : ∀ bytes ptrs, ossl_quic_wire_encode_pkt_hdr scl hdr = some (bytes, ptrs) →
      21 ≤ bytes.length + payload.length) :
    ∃ bytes ptrs ptrs2,
      ossl_quic_wire_encode_pkt_hdr scl hdr = some (bytes, ptrs) ∧
      ossl_quic_wire_decode_pkt_hdr (bytes ++ payload) scl false
        = some (hdr_valid_fields hdr bytes.length, ptrs2, []) := by
  have ht4 : hdr.type = QUIC_PKT_TYPE_INITIAL ∨ hdr.type = QUIC_PKT_TYPE_0RTT
      ∨ hdr.type = QUIC_PKT_TYPE_HANDSHAKE ∨ hdr.type = QUIC_PKT_TYPE_RETRY := by
    rcases ht with h | h | h
    · exact Or.inl h
    · exact Or.inr (Or.inl h)
    · exact Or.inr (Or.inr (Or.inl h))
  have hnot : hdr.type ≠ QUIC_PKT_TYPE_1RTT ∧ hdr.type ≠ QUIC_PKT_TYPE_VERSION_NEG
      ∧ hdr.type ≠ QUIC_PKT_TYPE_RETRY := by
    rcases ht with h | h | h <;> rw [h] <;> decide
  obtain ⟨raw, hraw, hraw3, hback⟩ := long_type_wire_inverse hdr.type ht4
  obtain ⟨hb80, hb40, hty, hpnl⟩ := long_first_byte raw hdr.pn_len hraw3 h1 h4
  have hpt := pn_take_length hdr.pn hdr.pn_len hpn h4
  obtain ⟨len_bytes, hlb, -⟩ := vlint_write_some (hdr.len + hdr.pn_len) hlen62
  obtain ⟨tok_bytes, htb, htd⟩ := initial_token_round_trip hdr
    (len_bytes ++ (hdr.pn.take hdr.pn_len ++ payload)) htok
  have henc : ossl_quic_wire_encode_pkt_hdr scl hdr
      = some ((0xc0 ||| (raw <<< 4) ||| (hdr.pn_len - 1))
                  :: (be_bytes 4 hdr.version
                    ++ hdr.dst_conn_id.length :: hdr.dst_conn_id
                    ++ hdr.src_conn_id.length :: hdr.src_conn_id
                    ++ tok_bytes ++ len_bytes ++ hdr.pn.take hdr.pn_len),
                hdr_ptrs_at
                  (7 + hdr.dst_conn_id.length + hdr.src_conn_id.length + tok_bytes.length
                    + len_bytes.length + hdr.pn_len + hdr.len)
                  (7 + hdr.dst_conn_id.length + hdr.src_conn_id.length + tok_bytes.length
                    + len_bytes.length)) := by
    unfold ossl_quic_wire_encode_pkt_hdr
    rw [if_neg (by rw [hp]; simp), if_neg hnot.1, if_neg (by omega), if_neg hnot.2.1,
      hv, hraw]
    simp only [if_neg hnot.2.2]
    rw [if_neg (by omega), htb, hlb]
  have hmin' := hmin _ _ henc
  generalize (0xc0 ||| (raw <<< 4) ||| (hdr.pn_len - 1)) = b0
    at hb80 hb40 hty hpnl henc hmin'
  have hlen : (b0 :: (be_bytes 4 hdr.version
                    ++ hdr.dst_conn_id.length :: hdr.dst_conn_id
                    ++ hdr.src_conn_id.length :: hdr.src_conn_id
                    ++ tok_bytes ++ len_bytes ++ hdr.pn.take hdr.pn_len)).length
      = 7 + hdr.dst_conn_id.length + hdr.src_conn_id.length + tok_bytes.length
          + len_bytes.length + hdr.pn_len := by
    simp only [List.length_cons, List.length_append, be_bytes_length, hpt]; omega
  refine ⟨_, _, hdr_ptrs_at
      (7 + hdr.dst_conn_id.length + hdr.src_conn_id.length + tok_bytes.length
          + len_bytes.length + hdr.pn_len + payload.length)
      (7 + hdr.dst_conn_id.length + hdr.src_conn_id.length + tok_bytes.length
          + len_bytes.length), henc, ?_⟩
  have htot : ((b0 :: (be_bytes 4 hdr.version
                    ++ hdr.dst_conn_id.length :: hdr.dst_conn_id
                    ++ hdr.src_conn_id.length :: hdr.src_conn_id
                    ++ tok_bytes ++ len_bytes ++ hdr.pn.take hdr.pn_len)) ++ payload).length
      = 7 + hdr.dst_conn_id.length + hdr.src_conn_id.length + tok_bytes.length
          + len_bytes.length + hdr.pn_len + payload.length := by
    rw [List.length_append, hlen]
  rw [hlen] at hmin' ⊢
  unfold ossl_quic_wire_decode_pkt_hdr
  rw [if_neg (by
    rw [htot]; unfold QUIC_MIN_VALID_PKT_LEN QUIC_MIN_VALID_PKT_LEN_VERSION_NEG; omega)]
  have hshape : (b0 :: (be_bytes 4 hdr.version
                    ++ hdr.dst_conn_id.length :: hdr.dst_conn_id
                    ++ hdr.src_conn_id.length :: hdr.src_conn_id
                    ++ tok_bytes ++ len_bytes ++ hdr.pn.take hdr.pn_len)) ++ payload
      = b0 :: (be_bytes 4 hdr.version ++ (hdr.dst_conn_id.length :: (hdr.dst_conn_id
          ++ (hdr.src_conn_id.length :: (hdr.src_conn_id
            ++ (tok_bytes ++ (len_bytes ++ (hdr.pn.take hdr.pn_len ++ payload)))))))) := by
    simp only [List.cons_append, List.append_assoc]
  rw [hshape] at htot ⊢
  simp only [PACKET_get_1]
  rw [if_neg hb80]
  rw [decode_long_hdr_start _ _ _ _ _ _ _ (by rw [hv]; decide) hd hs]
  unfold decode_long_body
  rw [htot]
  rw [if_neg (by rw [hv]; decide), if_neg hb40,
    if_neg (by unfold QUIC_MIN_VALID_PKT_LEN_CRYPTO; omega), hty]
  have hback' : long_type_of_wire hdr.version raw = some hdr.type := by rw [hv]; exact hback
  rw [hback']
  simp only [if_neg hnot.2.2]
  unfold decode_long_pn_hdr
  rw [htd]
  simp only
  rw [vlint_round_trip _ _ _ hlb]
  simp only [Bool.false_eq_true, if_false, hpnl]
  rw [if_neg (by rw [List.length_append, hpt]; omega), if_neg (by omega),
    PACKET_copy_bytes_append _ _ _ hpt]
  simp only [htot, List.length_append, hpt]
  unfold hdr_valid_fields type_has_pn type_has_len
  rcases ht with h | h | h <;>
    simp [h, hv, hf, hpl, QUIC_PKT_TYPE_1RTT, QUIC_PKT_TYPE_INITIAL, QUIC_PKT_TYPE_0RTT,
      QUIC_PKT_TYPE_HANDSHAKE, QUIC_PKT_TYPE_RETRY, QUIC_VERSION_1] <;>
    (congr 1; omega)

end QuicWire

namespace QuicWire

/-! ## Header round trip -/

/-- C2 (counterexample): a valid 1-RTT header with an 8-byte connection ID, a 2-byte
packet number and a 5-byte payload encodes to 11 header bytes; the 16-byte packet is
shorter than `QUIC_MIN_VALID_PKT_LEN_CRYPTO` and the full decode fails. -/
theorem hdr_round_trip_counterexample :
    valid_pkt_hdr 8 example_short_hdr ∧
    ossl_quic_wire_encode_pkt_hdr 8 example_short_hdr
      = some ([0x61, 1, 2, 3, 4, 5, 6, 7, 8, 0xab, 0xcd],
          { raw_start := some 0, raw_sample := some 13, raw_sample_len := 3,
            raw_pn := some 9 }) ∧
    [0xe0, 0xe1, 0xe2, 0xe3, 0xe4].length = example_short_hdr.len ∧
    ossl_quic_wire_decode_pkt_hdr
      ([0x61, 1, 2, 3, 4, 5, 6, 7, 8, 0xab, 0xcd] ++ [0xe0, 0xe1, 0xe2, 0xe3, 0xe4]) 8 false
      = none := by
  decide

/-- C2 (amended): for every valid packet header (Initial, 0-RTT, Handshake, Retry,
1-RTT or Version Negotiation) whose encoded packet, header plus `len` payload bytes,
has at least 21 bytes unless it is a Version Negotiation packet,
`ossl_quic_wire_encode_pkt_hdr` succeeds, and a full decode of the header bytes followed
by the payload, with the same `short_conn_id_len`, succeeds, consumes the packet, and
yields the original header on every field valid for the type, zero or empty on every
field not valid for it, with `data` at the first payload byte. -/
theorem hdr_round_trip_min_len (short_conn_id_len : Nat) (hdr : QUIC_PKT_HDR)
    (payload : List Nat) (hvalid : valid_pkt_hdr short_conn_id_len hdr)
    (hpl : payload.length = hdr.len)
    (hmin : hdr.type ≠ QUIC_PKT_TYPE_VERSION_NEG →
      QUIC_MIN_VALID_PKT_LEN_CRYPTO ≤ encoded_pkt_len short_conn_id_len hdr) :
    ∃ bytes ptrs ptrs2,
      ossl_quic_wire_encode_pkt_hdr short_conn_id_len hdr = some (bytes, ptrs) ∧
      ossl_quic_wire_decode_pkt_hdr (bytes ++ payload) short_conn_id_len false
        = some (hdr_valid_fields hdr bytes.length, ptrs2, []) := by
  obtain ⟨hp, hcases⟩ := hvalid
  rcases hcases with ⟨ht, hf, hs, hk, hd, hscl, hsrc, h1, h4, hpn⟩ | ⟨ht, hf, hv, hd, hs⟩ |
    ⟨ht, hf, hv, hd, hs⟩ | ⟨ht, hf, hv, hd, hs, h1, h4, hpn, hl62, htok⟩
  · have hne : hdr.type ≠ QUIC_PKT_TYPE_VERSION_NEG := by rw [ht]; decide
    have hm := hmin hne
    -- the packet length in terms of the fields
    have hex : ∃ bytes ptrs, ossl_quic_wire_encode_pkt_hdr short_conn_id_len hdr
        = some (bytes, ptrs) ∧ bytes.length = 1 + short_conn_id_len + hdr.pn_len := by
      have h0 : 21 ≤ 1 + short_conn_id_len + hdr.pn_len + (List.replicate 21 0).length := by
        simp
      obtain ⟨b, p, -, he, hl, -⟩ := round_trip_1rtt short_conn_id_len hdr
        (List.replicate 21 0) hp ht hf hs hk hd hscl hsrc h1 h4 hpn h0
      exact ⟨b, p, he, hl⟩
    obtain ⟨b, p, he, hl⟩ := hex
    unfold encoded_pkt_len at hm
    rw [he] at hm
    simp only [hl, QUIC_MIN_VALID_PKT_LEN_CRYPTO] at hm
    obtain ⟨b', p', p2, he', -, hdec⟩ := round_trip_1rtt short_conn_id_len hdr payload
      hp ht hf hs hk hd hscl hsrc h1 h4 hpn (by omega)
    exact ⟨b', p', p2, he', hdec⟩
  · obtain ⟨b, p, p2, he, -, hdec⟩ :=
      round_trip_version_neg short_conn_id_len hdr payload hp ht hf hv hd hs
    exact ⟨b, p, p2, he, hdec⟩
  · have hne : hdr.type ≠ QUIC_PKT_TYPE_VERSION_NEG := by rw [ht]; decide
    have hm := hmin hne
    have hex : ∃ bytes ptrs, ossl_quic_wire_encode_pkt_hdr short_conn_id_len hdr
        = some (bytes, ptrs) ∧
        bytes.length = 7 + hdr.dst_conn_id.length + hdr.src_conn_id.length := by
      have h0 : 21 ≤ 7 + hdr.dst_conn_id.length + hdr.src_conn_id.length
          + (List.replicate 21 0).length := by simp
      obtain ⟨b, p, -, he, hl, -⟩ := round_trip_retry short_conn_id_len hdr
        (List.replicate 21 0) hp ht hf hv hd hs h0
      exact ⟨b, p, he, hl⟩
    obtain ⟨b, p, he, hl⟩ := hex
    unfold encoded_pkt_len at hm
    rw [he] at hm
    simp only [hl, QUIC_MIN_VALID_PKT_LEN_CRYPTO] at hm
    obtain ⟨b', p', p2, he', -, hdec⟩ := round_trip_retry short_conn_id_len hdr payload
      hp ht hf hv hd hs (by omega)
    exact ⟨b', p', p2, he', hdec⟩
  · have hne : hdr.type ≠ QUIC_PKT_TYPE_VERSION_NEG := by
      rcases ht with h | h | h <;> rw [h] <;> decide
    have hm := hmin hne
    apply round_trip_long_pn short_conn_id_len hdr payload hp ht hf hv hd hs h1 h4 hpn hl62
      htok hpl
    intro bytes ptrs he
    unfold encoded_pkt_len at hm
    rw [he] at hm
    simp only [QUIC_MIN_VALID_PKT_LEN_CRYPTO] at hm
    omega

/-- C2 (witness): the sample Handshake header with its 20-byte payload. -/
theorem hdr_round_trip_min_len_witness :
    valid_pkt_hdr 0 example_handshake_hdr ∧
    example_payload_20.length = example_handshake_hdr.len ∧
    encoded_pkt_len 0 example_handshake_hdr = 38 ∧
    ∃ bytes ptrs ptrs2,
      ossl_quic_wire_encode_pkt_hdr 0 example_handshake_hdr = some (bytes, ptrs) ∧
      ossl_quic_wire_decode_pkt_hdr (bytes ++ example_payload_20) 0 false
        = some (hdr_valid_fields example_handshake_hdr bytes.length, ptrs2, []) :=
  ⟨by decide, by decide, by decide,
    hdr_round_trip_min_len 0 example_handshake_hdr example_payload_20 (by decide)
      (by decide) (by decide)⟩

end QuicWire

namespace QuicWire

/-! ## Rejections and the partial decode -/

theorem decode_short_hdr_fixed_clear (pkt : List Nat) (b0 : Nat) (r1 : List Nat)
    (scl : Nat) (pd : Bool) (h : b0 &&& 0x40 = 0) :
    decode_short_hdr pkt b0 r1 scl pd = none := by
  unfold decode_short_hdr
  split_ifs <;> rfl

theorem decode_long_body_fixed_clear (pkt : List Nat) (b0 version : Nat)
    (dcid scid r6 : List Nat) (pd : Bool) (hv : version ≠ QUIC_VERSION_NONE)
    (h : b0 &&& 0x40 = 0) :
    decode_long_body pkt b0 version dcid scid r6 pd = none := by
  unfold decode_long_body
  rw [if_neg hv, if_pos h]

theorem decode_long_hdr_fixed_clear (pkt : List Nat) (b0 : Nat) (r1 : List Nat) (pd : Bool)
    (hv : ∀ r2, PACKET_get_net_4 r1 ≠ some (QUIC_VERSION_NONE, r2))
    (h : b0 &&& 0x40 = 0) :
    decode_long_hdr pkt b0 r1 pd = none := by
  unfold decode_long_hdr
  cases h4 : PACKET_get_net_4 r1 with
  | none => rfl
  | some p =>
    obtain ⟨version, r2⟩ := p
    have hne : version ≠ QUIC_VERSION_NONE := by
      intro e
      rw [e] at h4
      exact hv r2 h4
    simp only
    split <;> try rfl
    split <;> try rfl
    split <;> try rfl
    split <;> try rfl
    split <;> try rfl
    split <;> try rfl
    exact decode_long_body_fixed_clear _ _ _ _ _ _ _ hne h

/-- What a successful short-header decode returns. -/
theorem decode_short_hdr_some (pkt : List Nat) (b0 : Nat) (r1 : List Nat) (scl : Nat)
    (pd : Bool) (hdr : QUIC_PKT_HDR) (ptrs : QUIC_PKT_HDR_PTRS) (rest : List Nat)
    (h : decode_short_hdr pkt b0 r1 scl pd = some (hdr, ptrs, rest)) :
    hdr.type = QUIC_PKT_TYPE_1RTT ∧ hdr.fixed = 1 ∧
    (pd = true → hdr.partial_decode = 1 ∧ hdr.pn_len = 0 ∧ hdr.pn = [0, 0, 0, 0] ∧
      hdr.key_phase = 0 ∧ hdr.data = some (1 + scl) ∧
      ptrs = hdr_ptrs_at pkt.length (1 + scl) ∧ scl + 4 ≤ r1.length) := by
  unfold decode_short_hdr at h
  by_cases h1 : scl > QUIC_MAX_CONN_ID_LEN
  · rw [if_pos h1] at h; cases h
  rw [if_neg h1] at h
  by_cases h2 : b0 &&& 0x40 = 0
  · rw [if_pos h2] at h; cases h
  rw [if_neg h2] at h
  by_cases h3 : pkt.length < QUIC_MIN_VALID_PKT_LEN_CRYPTO
  · rw [if_pos h3] at h; cases h
  rw [if_neg h3] at h
  cases hc : PACKET_copy_bytes r1 scl with
  | none => rw [hc] at h; cases h
  | some p =>
    obtain ⟨dcid, r2⟩ := p
    rw [hc] at h
    simp only at h
    have hr2 : scl ≤ r1.length ∧ r2 = r1.drop scl := by
      unfold PACKET_copy_bytes at hc
      split_ifs at hc with hle
      simp only [Option.some.injEq, Prod.mk.injEq] at hc
      exact ⟨hle, hc.2.symm⟩
    cases pd with
    | true =>
      simp only [↓reduceIte] at h
      cases hc2 : PACKET_copy_bytes r2 4 with
      | none => rw [hc2] at h; cases h
      | some q =>
        rw [hc2] at h
        simp only [Option.some.injEq, Prod.mk.injEq] at h
        obtain ⟨e1, e2, -⟩ := h
        have h4 : 4 ≤ r2.length := by
          unfold PACKET_copy_bytes at hc2
          split_ifs at hc2 with hle
          exact hle
        rw [hr2.2, List.length_drop] at h4
        subst e1
        exact ⟨rfl, rfl, fun _ => ⟨rfl, rfl, rfl, rfl, rfl, e2.symm, by omega⟩⟩
    | false =>
      simp only [Bool.false_eq_true, ↓reduceIte] at h
      cases hc2 : PACKET_copy_bytes r2 ((b0 &&& 0x3) + 1) with
      | none => rw [hc2] at h; cases h
      | some q =>
        rw [hc2] at h
        simp only [Option.some.injEq, Prod.mk.injEq] at h
        obtain ⟨e1, -, -⟩ := h
        subst e1
        exact ⟨rfl, rfl, fun hpd => by cases hpd⟩

theorem decode_long_pn_hdr_fixed (pkt : List Nat) (b0 type version : Nat)
    (dcid scid r6 : List Nat) (pd : Bool) (hdr : QUIC_PKT_HDR) (ptrs : QUIC_PKT_HDR_PTRS)
    (rest : List Nat)
    (h : decode_long_pn_hdr pkt b0 type version dcid scid r6 pd = some (hdr, ptrs, rest)) :
    hdr.fixed = 1 := by
  unfold decode_long_pn_hdr at h
  split at h
  · cases h
  · split at h
    · cases h
    · split_ifs at h
      · simp only [Option.some.injEq, Prod.mk.injEq] at h
        obtain ⟨e1, -, -⟩ := h
        subst e1
        rfl
      · split at h
        · cases h
        · simp only [Option.some.injEq, Prod.mk.injEq] at h
          obtain ⟨e1, -, -⟩ := h
          subst e1
          rfl

theorem decode_long_body_fixed (pkt : List Nat) (b0 version : Nat)
    (dcid scid r6 : List Nat) (pd : Bool) (hdr : QUIC_PKT_HDR) (ptrs : QUIC_PKT_HDR_PTRS)
    (rest : List Nat)
    (h : decode_long_body pkt b0 version dcid scid r6 pd = some (hdr, ptrs, rest))
    (ht : hdr.type ≠ QUIC_PKT_TYPE_VERSION_NEG) :
    hdr.fixed = 1 := by
  unfold decode_long_body at h
  by_cases h1 : version = QUIC_VERSION_NONE
  · rw [if_pos h1] at h
    simp only [Option.some.injEq, Prod.mk.injEq] at h
    obtain ⟨e1, -, -⟩ := h
    subst e1
    exact absurd rfl ht
  rw [if_neg h1] at h
  by_cases h2 : b0 &&& 0x40 = 0
  · rw [if_pos h2] at h; cases h
  rw [if_neg h2] at h
  by_cases h3 : pkt.length < QUIC_MIN_VALID_PKT_LEN_CRYPTO
  · rw [if_pos h3] at h; cases h
  rw [if_neg h3] at h
  cases hl : long_type_of_wire version ((b0 >>> 4) &&& 0x3) with
  | none => rw [hl] at h; cases h
  | some type =>
    rw [hl] at h
    simp only at h
    by_cases h4 : type = QUIC_PKT_TYPE_RETRY
    · rw [if_pos h4] at h
      simp only [Option.some.injEq, Prod.mk.injEq] at h
      obtain ⟨e1, -, -⟩ := h
      subst e1
      rfl
    · rw [if_neg h4] at h
      exact decode_long_pn_hdr_fixed _ _ _ _ _ _ _ _ _ _ _ h

theorem decode_long_hdr_fixed (pkt : List Nat) (b0 : Nat) (r1 : List Nat) (pd : Bool)
    (hdr : QUIC_PKT_HDR) (ptrs : QUIC_PKT_HDR_PTRS) (rest : List Nat)
    (h : decode_long_hdr pkt b0 r1 pd = some (hdr, ptrs, rest))
    (ht : hdr.type ≠ QUIC_PKT_TYPE_VERSION_NEG) :
    hdr.fixed = 1 := by
  unfold decode_long_hdr at h
  split at h
  · cases h
  · split at h
    · cases h
    · split_ifs at h
      split at h
      · cases h
      · split at h
        · cases h
        · split_ifs at h
          split at h
          · cases h
          · exact decode_long_body_fixed _ _ _ _ _ _ _ _ _ _ h ht

/-- The decoder on a packet with a first byte: the short or the long branch. -/
theorem decode_pkt_hdr_cons (b0 : Nat) (r : List Nat) (scl : Nat) (pd : Bool) :
    ossl_quic_wire_decode_pkt_hdr (b0 :: r) scl pd =
      if (b0 :: r).length < QUIC_MIN_VALID_PKT_LEN then none
      else if b0 &&& 0x80 = 0 then decode_short_hdr (b0 :: r) b0 r scl pd
      else decode_long_hdr (b0 :: r) b0 r pd := by
  unfold ossl_quic_wire_decode_pkt_hdr
  simp only [PACKET_get_1]

theorem decode_pkt_hdr_nil (scl : Nat) (pd : Bool) :
    ossl_quic_wire_decode_pkt_hdr [] scl pd = none := by
  unfold ossl_quic_wire_decode_pkt_hdr
  simp [QUIC_MIN_VALID_PKT_LEN, QUIC_MIN_VALID_PKT_LEN_VERSION_NEG]

end QuicWire

namespace OTime

/-! ## Truncating division on the ranges that occur -/

theorem month_shift (m : Int) (h1 : 1 ≤ m) (h12 : m ≤ 12) :
    Int.tdiv (m - 14) 12 = if m ≤ 2 then -1 else 0 := by
  interval_cases m <;> decide

/-- On dates from March of year -4800 on, `date_to_julian` is the familiar formula with
flooring division. -/
theorem date_to_julian_ediv (y m d a : Int) (h1 : 1 ≤ m) (h12 : m ≤ 12)
    (ha : a = if m ≤ 2 then -1 else 0) (hy : 0 ≤ y + 4800 + a) :
    date_to_julian y m d =
      (1461 * (y + 4800 + a)) / 4 + (367 * (m - 2 - 12 * a)) / 12
        - (3 * ((y + 4900 + a) / 100)) / 4 + d - 32075 := by
  unfold date_to_julian
  rw [month_shift m h1 h12, ← ha]
  have hm : 0 ≤ m - 2 - 12 * a := by
    by_cases hm : m ≤ 2
    · rw [if_pos hm] at ha; omega
    · rw [if_neg hm] at ha; omega
  rw [Int.tdiv_eq_ediv (a := y + 4900 + a) (by omega) (by norm_num)]
  rw [Int.tdiv_eq_ediv (a := 1461 * (y + 4800 + a)) (by omega) (by norm_num)]
  rw [Int.tdiv_eq_ediv (a := 367 * (m - 2 - 12 * a)) (by omega) (by norm_num)]
  rw [Int.tdiv_eq_ediv (a := 3 * ((y + 4900 + a) / 100)) (by omega) (by norm_num)]

/-- For a non-negative Julian day number every quotient in `julian_to_date` has a
non-negative numerator, so truncation and flooring agree. -/
theorem julian_to_date_ediv (jd : Int) (h : 0 ≤ jd) :
    ∃ n c i dd j : Int,
      n = (4 * (jd + 68569)) / 146097 ∧
      c = jd + 68569 - (146097 * n + 3) / 4 ∧
      i = (4000 * (c + 1)) / 1461001 ∧
      dd = c - (1461 * i) / 4 ∧
      j = (80 * (dd + 31)) / 2447 ∧
      1 ≤ n ∧ 0 ≤ c ∧ 0 ≤ i ∧ 0 ≤ dd ∧ 0 ≤ j ∧
      julian_to_date jd =
        (100 * (n - 49) + i + j / 11, j + 2 - 12 * (j / 11), dd + 31 - (2447 * j) / 80) := by
  refine ⟨(4 * (jd + 68569)) / 146097, _, _, _, _, rfl, rfl, rfl, rfl, rfl, ?_⟩
  unfold julian_to_date
  simp only []
  have hn : 1 ≤ (4 * (jd + 68569)) / 146097 := by omega
  have hc : 0 ≤ jd + 68569 - (146097 * ((4 * (jd + 68569)) / 146097) + 3) / 4 := by omega
  rw [Int.tdiv_eq_ediv (a := 4 * (jd + 68569)) (by omega) (by norm_num)]
  generalize (4 * (jd + 68569)) / 146097 = n at hn hc ⊢
  rw [Int.tdiv_eq_ediv (a := 146097 * n + 3) (by omega) (by norm_num)]
  generalize jd + 68569 - (146097 * n + 3) / 4 = c at hc ⊢
  have hi : 0 ≤ (4000 * (c + 1)) / 1461001 := by omega
  have hdd : 0 ≤ c - (1461 * ((4000 * (c + 1)) / 1461001)) / 4 := by omega
  rw [Int.tdiv_eq_ediv (a := 4000 * (c + 1)) (by omega) (by norm_num)]
  generalize (4000 * (c + 1)) / 1461001 = i at hi hdd ⊢
  rw [Int.tdiv_eq_ediv (a := 1461 * i) (by omega) (by norm_num)]
  generalize c - (1461 * i) / 4 = dd at hdd ⊢
  have hj : 0 ≤ (80 * (dd + 31)) / 2447 := by omega
  rw [Int.tdiv_eq_ediv (a := 80 * (dd + 31)) (by omega) (by norm_num)]
  generalize (80 * (dd + 31)) / 2447 = j at hj ⊢
  rw [Int.tdiv_eq_ediv (a := 2447 * j) (by omega) (by norm_num)]
  rw [Int.tdiv_eq_ediv (a := j) (by omega) (by norm_num)]
  exact ⟨hn, hc, hi, hdd, hj, rfl⟩

theorem mod4_split (n : Int) :
    ∃ q : Int, n = 4 * q + 0 ∨ n = 4 * q + 1 ∨ n = 4 * q + 2 ∨ n = 4 * q + 3 :=
  ⟨n / 4, by omega⟩

theorem century_end_1 (L s q : Int) (hn2 : 4 * L < 146097 * (4 * q + 1) + 146097)
    (hs2 : 146097 * (4 * q + 1) + 3 < 4 * s + 4) (h : L - s = 36524) : False := by
  omega

theorem century_end_2 (L s q : Int) (hn2 : 4 * L < 146097 * (4 * q + 2) + 146097)
    (hs2 : 146097 * (4 * q + 2) + 3 < 4 * s + 4) (h : L - s = 36524) : False := by
  omega

theorem century_end_3 (L s q : Int) (hn2 : 4 * L < 146097 * (4 * q + 3) + 146097)
    (hs2 : 146097 * (4 * q + 3) + 3 < 4 * s + 4) (h : L - s = 36524) : False := by
  omega

/-- Day offset inside the century selected by `julian_to_date`: only the century that
ends in a year divisible by 400 has a day number 36524. -/
theorem century_range (L n c : Int) (hn : n = (4 * L) / 146097)
    (hc : c = L - (146097 * n + 3) / 4) :
    0 ≤ c ∧ c ≤ 36524 ∧ (c = 36524 → n % 4 = 0) := by
  have hn1 : 146097 * n ≤ 4 * L := by omega
  have hn2 : 4 * L < 146097 * n + 146097 := by omega
  clear hn
  obtain ⟨s, hs⟩ : ∃ s : Int, s = (146097 * n + 3) / 4 := ⟨_, rfl⟩
  rw [← hs] at hc
  have hs1 : 4 * s ≤ 146097 * n + 3 := by omega
  have hs2 : 146097 * n + 3 < 4 * s + 4 := by omega
  clear hs
  subst hc
  refine ⟨by omega, by omega, ?_⟩
  intro h
  clear hs1 hn1
  obtain ⟨q, h0 | h0 | h0 | h0⟩ := mod4_split n
  · subst h0; clear hn2 hs2 h; omega
  · subst h0; exact (century_end_1 L s _ hn2 hs2 h).elim
  · subst h0; exact (century_end_2 L s _ hn2 hs2 h).elim
  · subst h0; exact (century_end_3 L s _ hn2 hs2 h).elim

/-- Year inside the century and day offset inside that year. -/
theorem year_range (c i dd : Int) (h0 : 0 ≤ c) (h1 : c ≤ 36524)
    (hi : i = (4000 * (c + 1)) / 1461001) (hdd : dd = c - (1461 * i) / 4) :
    0 ≤ i ∧ i ≤ 99 ∧ 0 ≤ dd ∧ dd ≤ 365 ∧ (dd = 365 → i % 4 = 3) := by
  have hi1 : 1461001 * i ≤ 4000 * (c + 1) := by omega
  have hi2 : 4000 * (c + 1) < 1461001 * i + 1461001 := by omega
  clear hi
  have hi0 : 0 ≤ i := by omega
  have hi99 : i ≤ 99 := by omega
  refine ⟨hi0, hi99, ?_⟩
  rcases (by omega : i % 4 = 0 ∨ i % 4 = 1 ∨ i % 4 = 2 ∨ i % 4 = 3) with r | r | r | r <;>
    refine ⟨by omega, by omega, ?_⟩ <;> intro h <;> omega

/-- Month index (March = 1, ..., February = 12) and day of month from the day offset
inside a year that starts on 1 March. -/
theorem month_range (dd j d : Int) (h0 : 0 ≤ dd) (h1 : dd ≤ 365)
    (hj : j = (80 * (dd + 31)) / 2447) (hd : d = dd + 31 - (2447 * j) / 80) :
    1 ≤ j ∧ j ≤ 12 ∧ 1 ≤ d ∧ d ≤ 31 ∧
      (j = 2 ∨ j = 4 ∨ j = 7 ∨ j = 9 → d ≤ 30) ∧
      (j = 12 → d ≤ 29 ∧ (d = 29 → dd = 365)) ∧
      (367 * j) / 12 = (2447 * j) / 80 := by
  have hj1 : 2447 * j ≤ 80 * (dd + 31) := by omega
  have hj2 : 80 * (dd + 31) < 2447 * j + 2447 := by omega
  clear hj
  have hj3 : 1 ≤ j := by omega
  have hj4 : j ≤ 12 := by omega
  interval_cases j <;> norm_num at hd hj1 hj2 ⊢ <;> omega

theorem is_leap_year_iff (y : Int) :
    is_leap_year y = true ↔ (y % 4 = 0 ∧ y % 100 ≠ 0) ∨ y % 400 = 0 := by
  simp [is_leap_year]

/-- The year that `julian_to_date` reports for a 29 February is a leap year. -/
theorem leap_feb (n i : Int) (hi0 : 0 ≤ i) (hi99 : i ≤ 99) (hi : i % 4 = 3)
    (hn : i = 99 → n % 4 = 0) : is_leap_year (100 * (n - 49) + i + 1) = true := by
  rw [is_leap_year_iff]
  by_cases h99 : i = 99
  · right
    have := hn h99
    omega
  · left
    omega

theorem century_start (n : Int) : 36525 * n - (3 * n) / 4 - (146097 * n + 3) / 4 = 0 := by
  omega

/-- For every Julian day number `jd ≥ 0`, `julian_to_date jd` is a calendar date whose
`date_to_julian` is `jd` again; its year is at least -4800 (-4799 in January and
February). -/
theorem julian_to_date_inverse (jd y m d : Int) (h : 0 ≤ jd)
    (hr : julian_to_date jd = (y, m, d)) :
    valid_date y m d ∧ date_to_julian y m d = jd ∧
      0 ≤ y + 4800 + (if m ≤ 2 then -1 else 0) := by
  obtain ⟨n, c, i, dd, j, hn, hc, hi, hdd, hj, hn1, hc0, hi0, hdd0, hj0, heq⟩ :=
    julian_to_date_ediv jd h
  obtain ⟨-, hc1, hc2⟩ := century_range (jd + 68569) n c hn hc
  obtain ⟨-, hi99, -, hdd1, hdd2⟩ := year_range c i dd hc0 hc1 hi hdd
  obtain ⟨hj1, hj12, hd1, hd31, hd30, hd29, hG⟩ :=
    month_range dd j (dd + 31 - (2447 * j) / 80) hdd0 hdd1 hj rfl
  rw [heq] at hr
  simp only [Prod.mk.injEq] at hr
  obtain ⟨hy, hm, hd⟩ := hr
  have hl : (j ≤ 10 ∧ j / 11 = 0) ∨ (11 ≤ j ∧ j / 11 = 1) := by omega
  have hcs := century_start n
  have hjd : jd = dd + (1461 * i) / 4 + (146097 * n + 3) / 4 - 68569 := by omega
  have hcdd : c = dd + (1461 * i) / 4 := by omega
  have hcent : (100 * n + i) / 100 = n := by omega
  have hyr : (1461 * (100 * n + i - 100)) / 4 = 36525 * (n - 1) + (1461 * i) / 4 := by omega
  clear hn hc hi hdd hj heq
  rcases hl with ⟨hl1, hl2⟩ | ⟨hl1, hl2⟩
  · rw [hl2] at hy hm
    have hm2 : ¬ m ≤ 2 := by omega
    refine ⟨⟨by omega, by omega, by omega, ?_⟩, ?_, ?_⟩
    · unfold days_in_month
      have hmne : m ≠ 2 := by omega
      rw [if_neg hmne]
      split_ifs with h4
      · have : j = 2 ∨ j = 4 ∨ j = 7 ∨ j = 9 := by omega
        have := hd30 this
        omega
      · omega
    · rw [date_to_julian_ediv y m d 0 (by omega) (by omega) (by rw [if_neg hm2]) (by omega)]
      have e1 : y + 4800 + 0 = 100 * n + i - 100 := by omega
      have e2 : m - 2 - 12 * 0 = j := by omega
      have e3 : y + 4900 + 0 = 100 * n + i := by omega
      rw [e1, e2, e3, hcent, hyr, hG]
      omega
    · rw [if_neg hm2]; omega
  · rw [hl2] at hy hm
    have hm2 : m ≤ 2 := by omega
    refine ⟨⟨by omega, by omega, by omega, ?_⟩, ?_, ?_⟩
    · unfold days_in_month
      split_ifs with h2 hleap h4
      · omega
      · have hj12' : j = 12 := by omega
        obtain ⟨hle, hfull⟩ := hd29 hj12'
        by_cases h29 : d = 29
        · exfalso
          have hdd365 : dd = 365 := hfull (by omega)
          have hi3 := hdd2 hdd365
          have hleap' := leap_feb n i hi0 hi99 hi3 (by
            intro h99
            apply hc2
            clear hcs hjd hcent hyr hG
            omega)
          rw [← hy] at hleap
          exact hleap hleap'
        · omega
      · omega
      · omega
    · rw [date_to_julian_ediv y m d (-1) (by omega) (by omega) (by rw [if_pos hm2]) (by omega)]
      have e1 : y + 4800 + -1 = 100 * n + i - 100 := by omega
      have e2 : m - 2 - 12 * -1 = j := by omega
      have e3 : y + 4900 + -1 = 100 * n + i := by omega
      rw [e1, e2, e3, hcent, hyr, hG]
      omega
    · rw [if_pos hm2]; omega

end OTime

namespace OTime

/-! ## `julian_adj`, `OPENSSL_gmtime_adj`, `OPENSSL_gmtime_diff` -/

/-- Whatever the carry, `julian_adj` conserves the total number of seconds, and a
successful call returns a non-negative day number. -/
theorem julian_adj_total (tm : Tm) (off_day offset_sec jd sec : Int)
    (h : julian_adj tm off_day offset_sec = some (jd, sec)) :
    0 ≤ jd ∧ jd * 86400 + sec = tm_seconds tm + off_day * 86400 + offset_sec := by
  unfold julian_adj at h
  simp only [SECS_PER_DAY] at h
  norm_num at h
  unfold tm_seconds
  generalize Int.tdiv offset_sec 86400 = q at h
  generalize date_to_julian (tm.tm_year + 1900) (tm.tm_mon + 1) tm.tm_mday = j0 at h ⊢
  split_ifs at h <;> obtain ⟨h1, h2⟩ := h <;> constructor <;> omega

theorem tdiv_tdiv_60 (t : Int) : Int.tdiv (Int.tdiv t 60) 60 = Int.tdiv t 3600 := by
  have key : ∀ a : Int, 0 ≤ a → Int.tdiv (Int.tdiv a 60) 60 = Int.tdiv a 3600 := by
    intro a ha
    rw [Int.tdiv_eq_ediv ha (by norm_num), Int.tdiv_eq_ediv ha (by norm_num),
      Int.tdiv_eq_ediv (Int.ediv_nonneg ha (by norm_num)) (by norm_num)]
    omega
  rcases le_or_lt 0 t with ht | ht
  · exact key t ht
  · have hk := key (-t) (by omega)
    rw [Int.neg_tdiv, Int.neg_tdiv, Int.neg_tdiv] at hk
    omega

/-- Hours, minutes and seconds computed by `OPENSSL_gmtime_adj` recompose the day
seconds, for either sign (C division truncates). -/
theorem hms_recompose (t : Int) :
    Int.tdiv t 3600 * 3600 + Int.tmod (Int.tdiv t 60) 60 * 60 + Int.tmod t 60 = t := by
  rw [Int.tmod_def, Int.tmod_def, tdiv_tdiv_60]
  ring

/-- A successful `OPENSSL_gmtime_adj` denotes the original instant plus the offset. -/
theorem gmtime_adj_total (tm tm2 : Tm) (off_day offset_sec : Int)
    (h : OPENSSL_gmtime_adj tm off_day offset_sec = some tm2) :
    tm_seconds tm2 = tm_seconds tm + off_day * 86400 + offset_sec := by
  unfold OPENSSL_gmtime_adj at h
  cases hj : julian_adj tm off_day offset_sec with
  | none => rw [hj] at h; cases h
  | some p =>
    obtain ⟨jd, sec⟩ := p
    rw [hj] at h
    obtain ⟨hjd, htot⟩ := julian_adj_total tm off_day offset_sec jd sec hj
    cases hd : julian_to_date jd with
    | mk y md =>
      obtain ⟨m, d⟩ := md
      simp only [hd] at h
      obtain ⟨-, hinv, -⟩ := julian_to_date_inverse jd y m d hjd hd
      split_ifs at h
      simp only [Option.some.injEq] at h
      subst h
      unfold tm_seconds at htot ⊢
      simp only [sub_add_cancel, hinv]
      have := hms_recompose sec
      omega

/-- With zero offsets and an in-range time of day `julian_adj` performs no carry. -/
theorem julian_adj_zero (tm : Tm) (jd sec : Int)
    (hh : 0 ≤ tm.tm_hour ∧ tm.tm_hour ≤ 23) (hm : 0 ≤ tm.tm_min ∧ tm.tm_min ≤ 59)
    (hs : 0 ≤ tm.tm_sec ∧ tm.tm_sec ≤ 59)
    (h : julian_adj tm 0 0 = some (jd, sec)) :
    0 ≤ sec ∧ sec < 86400 := by
  unfold julian_adj at h
  simp only [SECS_PER_DAY] at h
  norm_num at h
  split_ifs at h <;> obtain ⟨h1, h2⟩ := h <;> constructor <;> omega

/-- The outputs of a successful `OPENSSL_gmtime_diff`, in terms of the two
`julian_adj` results. -/
theorem gmtime_diff_cases (from_tm to_tm : Tm) (pday psec : Int)
    (h : OPENSSL_gmtime_diff from_tm to_tm = some (pday, psec)) :
    ∃ from_jd from_sec to_jd to_sec : Int,
      julian_adj from_tm 0 0 = some (from_jd, from_sec) ∧
      julian_adj to_tm 0 0 = some (to_jd, to_sec) ∧
      pday * 86400 + psec = (to_jd * 86400 + to_sec) - (from_jd * 86400 + from_sec) ∧
      ((pday = to_jd - from_jd ∧ psec = to_sec - from_sec ∧
          ¬ (pday > 0 ∧ psec < 0) ∧ ¬ (pday < 0 ∧ psec > 0)) ∨
       (pday = to_jd - from_jd - 1 ∧ psec = to_sec - from_sec + 86400 ∧
          0 ≤ pday ∧ to_sec - from_sec < 0) ∨
       (pday = to_jd - from_jd + 1 ∧ psec = to_sec - from_sec - 86400 ∧
          pday ≤ 0 ∧ 0 < to_sec - from_sec)) := by
  unfold OPENSSL_gmtime_diff at h
  cases hf : julian_adj from_tm 0 0 with
  | none => rw [hf] at h; cases h
  | some p =>
    obtain ⟨from_jd, from_sec⟩ := p
    rw [hf] at h
    cases ht : julian_adj to_tm 0 0 with
    | none => rw [ht] at h; cases h
    | some p2 =>
      obtain ⟨to_jd, to_sec⟩ := p2
      rw [ht] at h
      refine ⟨from_jd, from_sec, to_jd, to_sec, rfl, rfl, ?_⟩
      simp only [SECS_PER_DAY, Option.some.injEq] at h
      norm_num at h
      split_ifs at h <;> simp only [Prod.mk.injEq] at h <;> obtain ⟨h1, h2⟩ := h <;>
        constructor <;> omega

end OTime

namespace OTime

/-! ## Properties of `OPENSSL_gmtime_adj` and `OPENSSL_gmtime_diff` -/

/-- C4: whenever `OPENSSL_gmtime_adj` succeeds, the updated date and time denote
exactly the original instant plus `off_day` days and `offset_sec` seconds:
`date_to_julian(y', m', d') * 86400 + h' * 3600 + mi' * 60 + s'` equals
`(date_to_julian(y, m, d) + off_day) * 86400 + h * 3600 + mi * 60 + s + offset_sec`. -/
theorem gmtime_adj_adds_offset (tm tm2 : Tm) (off_day offset_sec : Int)
    (h : OPENSSL_gmtime_adj tm off_day offset_sec = some tm2) :
    date_to_julian (tm2.tm_year + 1900) (tm2.tm_mon + 1) tm2.tm_mday * 86400
        + tm2.tm_hour * 3600 + tm2.tm_min * 60 + tm2.tm_sec
      = (date_to_julian (tm.tm_year + 1900) (tm.tm_mon + 1) tm.tm_mday + off_day) * 86400
        + tm.tm_hour * 3600 + tm.tm_min * 60 + tm.tm_sec + offset_sec := by
  have ht := gmtime_adj_total tm tm2 off_day offset_sec h
  unfold tm_seconds at ht
  omega

/-- C4 (witness): 31 December 1999 23:59:30 plus 45 seconds is 1 January 2000
00:00:15. -/
theorem gmtime_adj_adds_offset_witness :
    OPENSSL_gmtime_adj tm_1999_12_31 0 45 = some tm_2000_01_01 ∧
    date_to_julian (tm_2000_01_01.tm_year + 1900) (tm_2000_01_01.tm_mon + 1)
          tm_2000_01_01.tm_mday * 86400
        + tm_2000_01_01.tm_hour * 3600 + tm_2000_01_01.tm_min * 60 + tm_2000_01_01.tm_sec
      = (date_to_julian (tm_1999_12_31.tm_year + 1900) (tm_1999_12_31.tm_mon + 1)
          tm_1999_12_31.tm_mday + 0) * 86400
        + tm_1999_12_31.tm_hour * 3600 + tm_1999_12_31.tm_min * 60 + tm_1999_12_31.tm_sec
        + 45 :=
  ⟨by decide, gmtime_adj_adds_offset tm_1999_12_31 tm_2000_01_01 0 45 (by decide)⟩

/-- C5: whenever `OPENSSL_gmtime_diff` succeeds, `pday * 86400 + psec` is exactly the
number of seconds from `from` to `to`, each instant counted as
`date_to_julian(date) * 86400 + tm_hour * 3600 + tm_min * 60 + tm_sec`. -/
theorem gmtime_diff_exact (from_tm to_tm : Tm) (pday psec : Int)
    (h : OPENSSL_gmtime_diff from_tm to_tm = some (pday, psec)) :
    pday * 86400 + psec
      = (date_to_julian (to_tm.tm_year + 1900) (to_tm.tm_mon + 1) to_tm.tm_mday * 86400
          + to_tm.tm_hour * 3600 + to_tm.tm_min * 60 + to_tm.tm_sec)
        - (date_to_julian (from_tm.tm_year + 1900) (from_tm.tm_mon + 1) from_tm.tm_mday
            * 86400
          + from_tm.tm_hour * 3600 + from_tm.tm_min * 60 + from_tm.tm_sec) := by
  obtain ⟨fj, fs, tj, ts, hf, ht, htot, -⟩ := gmtime_diff_cases from_tm to_tm pday psec h
  have h1 := (julian_adj_total from_tm 0 0 fj fs hf).2
  have h2 := (julian_adj_total to_tm 0 0 tj ts ht).2
  unfold tm_seconds at h1 h2
  omega

/-- C5 (witness): from 31 December 1999 23:59:30 to 1 January 2000 00:00:15 the
difference is 0 days and 45 seconds. -/
theorem gmtime_diff_exact_witness :
    OPENSSL_gmtime_diff tm_1999_12_31 tm_2000_01_01 = some (0, 45) ∧
    (0 : Int) * 86400 + 45
      = (date_to_julian (tm_2000_01_01.tm_year + 1900) (tm_2000_01_01.tm_mon + 1)
            tm_2000_01_01.tm_mday * 86400
          + tm_2000_01_01.tm_hour * 3600 + tm_2000_01_01.tm_min * 60 + tm_2000_01_01.tm_sec)
        - (date_to_julian (tm_1999_12_31.tm_year + 1900) (tm_1999_12_31.tm_mon + 1)
            tm_1999_12_31.tm_mday * 86400
          + tm_1999_12_31.tm_hour * 3600 + tm_1999_12_31.tm_min * 60
          + tm_1999_12_31.tm_sec) :=
  ⟨by decide, gmtime_diff_exact tm_1999_12_31 tm_2000_01_01 0 45 (by decide)⟩

/-- C6: when both times of day are in range (hour 0..23, minute 0..59, second 0..59) and
`OPENSSL_gmtime_diff` succeeds, the day and second differences never have opposite
signs and the second difference is smaller than a day in absolute value. -/
theorem gmtime_diff_same_sign (from_tm to_tm : Tm) (pday psec : Int)
    (hfh : 0 ≤ from_tm.tm_hour ∧ from_tm.tm_hour ≤ 23)
    (hfm : 0 ≤ from_tm.tm_min ∧ from_tm.tm_min ≤ 59)
    (hfs : 0 ≤ from_tm.tm_sec ∧ from_tm.tm_sec ≤ 59)
    (hth : 0 ≤ to_tm.tm_hour ∧ to_tm.tm_hour ≤ 23)
    (htm : 0 ≤ to_tm.tm_min ∧ to_tm.tm_min ≤ 59)
    (hts : 0 ≤ to_tm.tm_sec ∧ to_tm.tm_sec ≤ 59)
    (h : OPENSSL_gmtime_diff from_tm to_tm = some (pday, psec)) :
    ¬ (pday > 0 ∧ psec < 0) ∧ ¬ (pday < 0 ∧ psec > 0) ∧ |psec| < 86400 := by
  obtain ⟨fj, fs, tj, ts, hf, ht, -, hcases⟩ := gmtime_diff_cases from_tm to_tm pday psec h
  have h1 := julian_adj_zero from_tm fj fs hfh hfm hfs hf
  have h2 := julian_adj_zero to_tm tj ts hth htm hts ht
  rw [abs_lt]
  rcases hcases with ⟨-, hs, hn1, hn2⟩ | ⟨-, hs, hp, hlt⟩ | ⟨-, hs, hp, hlt⟩
  · exact ⟨hn1, hn2, by omega, by omega⟩
  · exact ⟨by omega, by omega, by omega, by omega⟩
  · exact ⟨by omega, by omega, by omega, by omega⟩

/-- C6 (witness): from 1 January 2000 00:00:15 back to 31 December 1999 23:59:30 the
raw differences are -1 day and +86355 seconds; the function reports 0 days and -45
seconds. -/
theorem gmtime_diff_same_sign_witness :
    OPENSSL_gmtime_diff tm_2000_01_01 tm_1999_12_31 = some (0, -45) ∧
    (¬ ((0 : Int) > 0 ∧ (-45 : Int) < 0) ∧ ¬ ((0 : Int) < 0 ∧ (-45 : Int) > 0)
      ∧ |(-45 : Int)| < 86400) :=
  ⟨by decide, gmtime_diff_same_sign tm_2000_01_01 tm_1999_12_31 0 (-45)
    (by decide) (by decide) (by decide) (by decide) (by decide) (by decide) (by decide)⟩

/-- C8: if `OPENSSL_gmtime_adj` turns `tm` into `tm2` and `OPENSSL_gmtime_diff` from
`tm` to `tm2` succeeds, the reported difference is the offset that was added:
`pday * 86400 + psec = off_day * 86400 + offset_sec`. -/
theorem gmtime_adj_then_diff (tm tm2 : Tm) (off_day offset_sec pday psec : Int)
    (hadj : OPENSSL_gmtime_adj tm off_day offset_sec = some tm2)
    (hdiff : OPENSSL_gmtime_diff tm tm2 = some (pday, psec)) :
    pday * 86400 + psec = off_day * 86400 + offset_sec := by
  have ha := gmtime_adj_total tm tm2 off_day offset_sec hadj
  obtain ⟨fj, fs, tj, ts, hf, ht, htot, -⟩ := gmtime_diff_cases tm tm2 pday psec hdiff
  have h1 := (julian_adj_total tm 0 0 fj fs hf).2
  have h2 := (julian_adj_total tm2 0 0 tj ts ht).2
  omega

/-- C8 (witness): adding 45 seconds to 31 December 1999 23:59:30 and taking the
difference gives back 0 days and 45 seconds. -/
theorem gmtime_adj_then_diff_witness :
    OPENSSL_gmtime_adj tm_1999_12_31 0 45 = some tm_2000_01_01 ∧
    OPENSSL_gmtime_diff tm_1999_12_31 tm_2000_01_01 = some (0, 45) ∧
    (0 : Int) * 86400 + 45 = 0 * 86400 + 45 :=
  ⟨by decide, by decide,
    gmtime_adj_then_diff tm_1999_12_31 tm_2000_01_01 0 45 0 45 (by decide) (by decide)⟩

end OTime

namespace OTime

/-! ## `date_to_julian` is injective on calendar dates -/

theorem year_step_leap (Y : Int)
    (hl : ((Y + 1) % 4 = 0 ∧ (Y + 1) % 100 ≠ 0) ∨ (Y + 1) % 400 = 0) :
    (1461 * Y) / 4 - (3 * ((Y + 100) / 100)) / 4 + 366
      = (1461 * (Y + 1)) / 4 - (3 * ((Y + 1 + 100) / 100)) / 4 := by
  omega

theorem year_step_common (Y : Int) :
    (1461 * Y) / 4 - (3 * ((Y + 100) / 100)) / 4 + 365 ≤
    (1461 * (Y + 1)) / 4 - (3 * ((Y + 1 + 100) / 100)) / 4 := by
  rcases (by omega : (Y + 1 + 100) / 100 = (Y + 100) / 100 ∨
      ((Y + 1 + 100) / 100 = (Y + 100) / 100 + 1 ∧ (Y + 1) % 100 = 0)) with h | ⟨h, h2⟩
  · rw [h]; omega
  · rw [h]
    have h4 : (Y + 1) % 4 = 0 := by omega
    omega

theorem year_start_mono (Y Z : Int) (hZ : Y + 1 ≤ Z) :
    (1461 * (Y + 1)) / 4 - (3 * ((Y + 1 + 100) / 100)) / 4 ≤
    (1461 * Z) / 4 - (3 * ((Z + 100) / 100)) / 4 := by
  rcases (by omega : Z = Y + 1 ∨ Y + 2 ≤ Z) with h | h
  · subst h; exact le_refl _
  · omega

/-- Position of a calendar date inside the year that starts on 1 March: the month index
`j` (March = 1, ..., February = 12) and the bounds on the day. -/
theorem date_position (y m d a : Int) (hv : valid_date y m d)
    (ha : a = if m ≤ 2 then -1 else 0) :
    1 ≤ m - 2 - 12 * a ∧ m - 2 - 12 * a ≤ 12 ∧ 1 ≤ d ∧
      (m - 2 - 12 * a ≤ 11 →
        (367 * (m - 2 - 12 * a)) / 12 + d ≤ (367 * (m - 2 - 12 * a + 1)) / 12) ∧
      (367 * (m - 2 - 12 * a)) / 12 + d ≤ 396 ∧
      ((367 * (m - 2 - 12 * a)) / 12 + d = 396 →
        ((y + 4800 + a + 1) % 4 = 0 ∧ (y + 4800 + a + 1) % 100 ≠ 0)
          ∨ (y + 4800 + a + 1) % 400 = 0) := by
  obtain ⟨h1, h12, hd1, hd⟩ := hv
  unfold days_in_month at hd
  interval_cases m <;> norm_num at ha hd <;> subst ha <;> norm_num
  · omega
  · refine ⟨hd1, ?_, ?_⟩
    · split_ifs at hd <;> omega
    · intro h29
      split_ifs at hd with hleap
      · rw [is_leap_year_iff] at hleap
        omega
      · omega
  all_goals omega

/-- Dates in an earlier March-based year have smaller day numbers. -/
theorem year_gap (Y Z g1 g2 : Int) (hYZ : Y < Z) (hg1 : g1 ≤ 396) (hg2 : 31 ≤ g2)
    (hleap : g1 = 396 →
      ((Y + 1) % 4 = 0 ∧ (Y + 1) % 100 ≠ 0) ∨ (Y + 1) % 400 = 0) :
    march_year_start Y + g1 < march_year_start Z + g2 := by
  have h1 := year_step_common Y
  have h2 := year_start_mono Y Z (by omega)
  by_cases h396 : g1 = 396
  · have h3 := year_step_leap Y (hleap h396)
    unfold march_year_start
    generalize (1461 * Y) / 4 - (3 * ((Y + 100) / 100)) / 4 = fY at h1 h3 ⊢
    generalize (1461 * (Y + 1)) / 4 - (3 * ((Y + 1 + 100) / 100)) / 4 = fY1 at h1 h2 h3 ⊢
    generalize (1461 * Z) / 4 - (3 * ((Z + 100) / 100)) / 4 = fZ at h2 ⊢
    clear hleap
    omega
  · unfold march_year_start
    generalize (1461 * Y) / 4 - (3 * ((Y + 100) / 100)) / 4 = fY at h1 ⊢
    generalize (1461 * (Y + 1)) / 4 - (3 * ((Y + 1 + 100) / 100)) / 4 = fY1 at h1 h2 ⊢
    generalize (1461 * Z) / 4 - (3 * ((Z + 100) / 100)) / 4 = fZ at h2 ⊢
    clear hleap
    omega

/-- Inside one March-based year, a date in an earlier month has a smaller day number. -/
theorem month_gap (j1 j2 d1 d2 : Int) (h : j1 < j2) (hj2 : j2 ≤ 12)
    (hd1 : j1 ≤ 11 → (367 * j1) / 12 + d1 ≤ (367 * (j1 + 1)) / 12) (hd2 : 1 ≤ d2) :
    (367 * j1) / 12 + d1 < (367 * j2) / 12 + d2 := by
  have h1 := hd1 (by omega)
  have h2 : (367 * (j1 + 1)) / 12 ≤ (367 * j2) / 12 := by omega
  generalize (367 * j1) / 12 = g1 at h1 ⊢
  generalize (367 * (j1 + 1)) / 12 = g1s at h1 h2 ⊢
  generalize (367 * j2) / 12 = g2 at h2 ⊢
  omega

/-- The shape of `date_to_julian` on a calendar date: year part plus month part plus
day. -/
theorem date_to_julian_split (y m d a : Int) (hv : valid_date y m d)
    (ha : a = if m ≤ 2 then -1 else 0) (hy : 0 ≤ y + 4800 + a) :
    date_to_julian y m d =
      march_year_start (y + 4800 + a) + ((367 * (m - 2 - 12 * a)) / 12 + d) - 32075 := by
  rw [date_to_julian_ediv y m d a hv.1 hv.2.1 ha hy]
  unfold march_year_start
  have e : y + 4900 + a = y + 4800 + a + 100 := by ring
  rw [e]
  ring

/-- Two calendar dates (from 1 March -4800 on) with the same `date_to_julian` value are
the same date. -/
theorem date_to_julian_injective (y1 m1 d1 y2 m2 d2 : Int)
    (hv1 : valid_date y1 m1 d1) (hv2 : valid_date y2 m2 d2)
    (hy1 : 0 ≤ y1 + 4800 + (if m1 ≤ 2 then -1 else 0))
    (hy2 : 0 ≤ y2 + 4800 + (if m2 ≤ 2 then -1 else 0))
    (h : date_to_julian y1 m1 d1 = date_to_julian y2 m2 d2) :
    y1 = y2 ∧ m1 = m2 ∧ d1 = d2 := by
  obtain ⟨a1, ha1⟩ : ∃ a : Int, a = if m1 ≤ 2 then -1 else 0 := ⟨_, rfl⟩
  obtain ⟨a2, ha2⟩ : ∃ a : Int, a = if m2 ≤ 2 then -1 else 0 := ⟨_, rfl⟩
  rw [← ha1] at hy1
  rw [← ha2] at hy2
  rw [date_to_julian_split y1 m1 d1 a1 hv1 ha1 hy1,
    date_to_julian_split y2 m2 d2 a2 hv2 ha2 hy2] at h
  obtain ⟨p1, p2, p3, p4, p5, p6⟩ := date_position y1 m1 d1 a1 hv1 ha1
  obtain ⟨q1, q2, q3, q4, q5, q6⟩ := date_position y2 m2 d2 a2 hv2 ha2
  have hm1 : (m1 ≤ 2 ∧ a1 = -1) ∨ (3 ≤ m1 ∧ a1 = 0) := by
    by_cases hm : m1 ≤ 2
    · rw [if_pos hm] at ha1; exact Or.inl ⟨hm, ha1⟩
    · rw [if_neg hm] at ha1; exact Or.inr ⟨by omega, ha1⟩
  have hm2 : (m2 ≤ 2 ∧ a2 = -1) ∨ (3 ≤ m2 ∧ a2 = 0) := by
    by_cases hm : m2 ≤ 2
    · rw [if_pos hm] at ha2; exact Or.inl ⟨hm, ha2⟩
    · rw [if_neg hm] at ha2; exact Or.inr ⟨by omega, ha2⟩
  clear ha1 ha2
  have hb1 : 1 ≤ m1 ∧ m1 ≤ 12 := ⟨hv1.1, hv1.2.1⟩
  have hb2 : 1 ≤ m2 ∧ m2 ≤ 12 := ⟨hv2.1, hv2.2.1⟩
  obtain ⟨Y1, hY1⟩ : ∃ Y : Int, Y = y1 + 4800 + a1 := ⟨_, rfl⟩
  obtain ⟨Y2, hY2⟩ : ∃ Y : Int, Y = y2 + 4800 + a2 := ⟨_, rfl⟩
  obtain ⟨j1, hj1⟩ : ∃ j : Int, j = m1 - 2 - 12 * a1 := ⟨_, rfl⟩
  obtain ⟨j2, hj2⟩ : ∃ j : Int, j = m2 - 2 - 12 * a2 := ⟨_, rfl⟩
  simp only [← hY1, ← hj1] at h p1 p2 p4 p5 p6
  simp only [← hY2, ← hj2] at h q1 q2 q4 q5 q6
  have hg1 : 31 ≤ (367 * j1) / 12 + d1 := by omega
  have hg2 : 31 ≤ (367 * j2) / 12 + d2 := by omega
  have hY : Y1 = Y2 := by
    rcases lt_trichotomy Y1 Y2 with hlt | heq | hgt
    · have := year_gap Y1 Y2 _ _ hlt p5 hg2 p6
      omega
    · exact heq
    · have := year_gap Y2 Y1 _ _ hgt q5 hg1 q6
      omega
  rw [hY] at h
  have hj : j1 = j2 := by
    rcases lt_trichotomy j1 j2 with hlt | heq | hgt
    · have := month_gap j1 j2 d1 d2 hlt q2 p4 q3
      omega
    · exact heq
    · have := month_gap j2 j1 d2 d1 hgt p2 q4 p3
      omega
  rw [hj] at h
  have hd : d1 = d2 := by omega
  have hm : m1 = m2 := by
    rcases hm1 with ⟨b1, c1⟩ | ⟨b1, c1⟩ <;> rcases hm2 with ⟨b2, c2⟩ | ⟨b2, c2⟩ <;>
      omega
  have ha : a1 = a2 := by omega
  exact ⟨by omega, hm, hd⟩

end OTime

namespace OTime

/-! ## Date to Julian day number and back -/

/-- Calendar dates of year -4712 and later have a non-negative Julian day number. -/
theorem date_to_julian_nonneg (y m d : Int) (hy : -4712 ≤ y) (hv : valid_date y m d) :
    0 ≤ date_to_julian y m d := by
  obtain ⟨a, ha⟩ : ∃ a : Int, a = if m ≤ 2 then -1 else 0 := ⟨_, rfl⟩
  have hm : (m ≤ 2 ∧ a = -1) ∨ (3 ≤ m ∧ a = 0) := by
    by_cases hm : m ≤ 2
    · rw [if_pos hm] at ha; exact Or.inl ⟨hm, ha⟩
    · rw [if_neg hm] at ha; exact Or.inr ⟨by omega, ha⟩
  have hY : 0 ≤ y + 4800 + a := by omega
  rw [date_to_julian_split y m d a hv ha hY]
  obtain ⟨p1, -, p3, -, -, -⟩ := date_position y m d a hv ha
  have hmono := year_start_mono 86 (y + 4800 + a) (by omega)
  have h87 : (1461 * (86 + 1)) / 4 - (3 * ((86 + 1 + 100) / 100)) / 4 = (31776 : Int) := by
    norm_num
  rw [h87] at hmono
  have hb : 1 ≤ m ∧ m ≤ 12 := ⟨hv.1, hv.2.1⟩
  rcases hm with ⟨hm2, rfl⟩ | ⟨hm3, rfl⟩
  · have hg : 336 ≤ (367 * (m - 2 - 12 * -1)) / 12 := by omega
    unfold march_year_start
    generalize (367 * (m - 2 - 12 * -1)) / 12 = g at hg ⊢
    generalize (1461 * (y + 4800 + -1)) / 4 - (3 * ((y + 4800 + -1 + 100) / 100)) / 4 = f
      at hmono ⊢
    omega
  · have hmono2 := year_start_mono 87 (y + 4800 + 0) (by omega)
    have h88 : (1461 * (87 + 1)) / 4 - (3 * ((87 + 1 + 100) / 100)) / 4 = (32142 : Int) := by
      norm_num
    rw [h88] at hmono2
    have hg : 30 ≤ (367 * (m - 2 - 12 * 0)) / 12 := by omega
    unfold march_year_start
    generalize (367 * (m - 2 - 12 * 0)) / 12 = g at hg ⊢
    generalize (1461 * (y + 4800 + 0)) / 4 - (3 * ((y + 4800 + 0 + 100) / 100)) / 4 = f
      at hmono hmono2 ⊢
    omega

/-- C7: for every calendar date `(y, m, d)` of the proleptic Gregorian calendar with
`y ≥ -4712` (month 1..12, day between 1 and the length of the month, February having
29 days exactly in leap years), `julian_to_date (date_to_julian y m d)` is `(y, m, d)`. -/
theorem date_julian_round_trip (y m d : Int) (hy : -4712 ≤ y) (hm1 : 1 ≤ m) (hm12 : m ≤ 12)
    (hd1 : 1 ≤ d) (hd : d ≤ days_in_month y m) :
    julian_to_date (date_to_julian y m d) = (y, m, d) := by
  have hv : valid_date y m d := ⟨hm1, hm12, hd1, hd⟩
  have hjd := date_to_julian_nonneg y m d hy hv
  cases hr : julian_to_date (date_to_julian y m d) with
  | mk y2 md =>
    obtain ⟨m2, d2⟩ := md
    obtain ⟨hv2, hinv, hy2⟩ := julian_to_date_inverse _ y2 m2 d2 hjd hr
    have hy1 : 0 ≤ y + 4800 + (if m ≤ 2 then -1 else 0) := by
      split_ifs <;> omega
    obtain ⟨e1, e2, e3⟩ := date_to_julian_injective y2 m2 d2 y m d hv2 hv hy2 hy1 hinv
    rw [e1, e2, e3]

/-- C7 (witness): 29 February 2000 is Julian day 2451604 and converts back. -/
theorem date_julian_round_trip_witness :
    (-4712 : Int) ≤ 2000 ∧ (1 : Int) ≤ 2 ∧ (2 : Int) ≤ 12 ∧ (1 : Int) ≤ 29 ∧
    (29 : Int) ≤ days_in_month 2000 2 ∧ date_to_julian 2000 2 29 = 2451604 ∧
    julian_to_date (date_to_julian 2000 2 29) = (2000, 2, 29) :=
  ⟨by decide, by decide, by decide, by decide, by decide, by decide,
    date_julian_round_trip 2000 2 29 (by decide) (by decide) (by decide) (by decide)
      (by decide)⟩

end OTime

namespace OTime

/-! ## Successive calendar days -/

theorem quarter_step_plain (Y : Int) (h : (Y + 1) % 4 ≠ 0) :
    (1461 * (Y + 1)) / 4 = (1461 * Y) / 4 + 365 := by
  obtain ⟨q, h0 | h0 | h0 | h0⟩ := mod4_split Y <;> subst h0 <;> omega

theorem quarter_step_leap (Y : Int) (h : (Y + 1) % 4 = 0) :
    (1461 * (Y + 1)) / 4 = (1461 * Y) / 4 + 366 := by
  obtain ⟨q, h0 | h0 | h0 | h0⟩ := mod4_split Y <;> subst h0 <;> omega

theorem century_step (q : Int) (h : q % 4 ≠ 0) : (3 * (q + 1)) / 4 = (3 * q) / 4 + 1 := by
  obtain ⟨k, h0 | h0 | h0 | h0⟩ := mod4_split q <;> subst h0 <;> omega

theorem century_split (Y : Int) :
    ((Y + 1 + 100) / 100 = (Y + 100) / 100 ∧ (Y + 1) % 100 ≠ 0) ∨
    ((Y + 1 + 100) / 100 = (Y + 100) / 100 + 1 ∧ Y + 1 = 100 * ((Y + 100) / 100)) := by
  omega

theorem mod_100_400 (q : Int) : (100 * q) % 4 = 0 ∧ ((100 * q) % 400 = 0 ↔ q % 4 = 0) := by
  omega

/-- A year that is not a leap year has 365 days; `Y + 1` is the year plus 4800. -/
theorem year_step_plain (Y : Int)
    (hl : ¬ (((Y + 1) % 4 = 0 ∧ (Y + 1) % 100 ≠ 0) ∨ (Y + 1) % 400 = 0)) :
    (1461 * Y) / 4 - (3 * ((Y + 100) / 100)) / 4 + 365
      = (1461 * (Y + 1)) / 4 - (3 * ((Y + 1 + 100) / 100)) / 4 := by
  rcases century_split Y with ⟨h, h2⟩ | ⟨h, h2⟩
  · rw [h]
    have h4 : (Y + 1) % 4 ≠ 0 := by
      intro h4
      exact hl (Or.inl ⟨h4, h2⟩)
    rw [quarter_step_plain Y h4]
    ring
  · rw [h]
    obtain ⟨m4, m400⟩ := mod_100_400 ((Y + 100) / 100)
    rw [← h2] at m4 m400
    have hq : ((Y + 100) / 100) % 4 ≠ 0 := by
      intro hq
      exact hl (Or.inr (m400.mpr hq))
    rw [quarter_step_leap Y m4, century_step _ hq]
    ring

/-- Length of the year that starts on 1 March: 366 days exactly when the following
February belongs to a leap year. -/
theorem march_year_step (Y : Int) :
    march_year_start (Y + 1) = march_year_start Y + 365
      + (if ((Y + 1) % 4 = 0 ∧ (Y + 1) % 100 ≠ 0) ∨ (Y + 1) % 400 = 0 then 1 else 0) := by
  unfold march_year_start
  split_ifs with h
  · have := year_step_leap Y h
    linarith
  · have := year_step_plain Y h
    linarith

theorem leap_shift (y : Int) :
    (((y + 4799 + 1) % 4 = 0 ∧ (y + 4799 + 1) % 100 ≠ 0) ∨ (y + 4799 + 1) % 400 = 0)
      ↔ is_leap_year y = true := by
  rw [is_leap_year_iff]
  omega

theorem days_in_month_pos (y m : Int) : 1 ≤ days_in_month y m := by
  unfold days_in_month
  split_ifs <;> norm_num

/-- The first day of the month after a month's last day. -/
theorem date_to_julian_month_end (y m : Int) (hy : -4712 ≤ y) (h1 : 1 ≤ m) (h11 : m ≤ 11) :
    date_to_julian y (m + 1) 1 = date_to_julian y m (days_in_month y m) + 1 := by
  have hvn : valid_date y (m + 1) 1 := ⟨by omega, by omega, le_refl _, days_in_month_pos _ _⟩
  have hv : valid_date y m (days_in_month y m) :=
    ⟨h1, by omega, days_in_month_pos _ _, le_refl _⟩
  rw [date_to_julian_split y (m + 1) 1 _ hvn rfl (by split_ifs <;> omega),
    date_to_julian_split y m _ _ hv rfl (by split_ifs <;> omega)]
  unfold days_in_month
  rcases (by omega : m = 1 ∨ m = 2 ∨ 3 ≤ m) with hm | hm | hm
  · subst hm
    norm_num
    linarith
  · subst hm
    norm_num
    have hstep := march_year_step (y + 4799)
    have e1 : y + 4799 + 1 = y + 4800 := by ring
    have hls := leap_shift y
    rw [e1] at hstep hls
    rw [hstep]
    by_cases hleap : is_leap_year y = true
    · rw [if_pos (hls.mpr hleap), if_pos hleap]
      have e2 : y + 4800 + -1 = y + 4799 := by ring
      rw [e2]
      ring
    · rw [if_neg (fun h => hleap (hls.mp h)), if_neg hleap]
      have e2 : y + 4800 + -1 = y + 4799 := by ring
      rw [e2]
      ring
  · interval_cases m <;> norm_num <;> linarith

/-- The 1 January after a 31 December. -/
theorem date_to_julian_year_end (y : Int) (hy : -4712 ≤ y) :
    date_to_julian (y + 1) 1 1 = date_to_julian y 12 31 + 1 := by
  have hvn : valid_date (y + 1) 1 1 := by
    refine ⟨le_refl _, by norm_num, le_refl _, days_in_month_pos _ _⟩
  have hv : valid_date y 12 31 := by
    refine ⟨by norm_num, le_refl _, by norm_num, ?_⟩
    unfold days_in_month
    norm_num
  rw [date_to_julian_split (y + 1) 1 1 (-1) hvn (by norm_num) (by omega),
    date_to_julian_split y 12 31 0 hv (by norm_num) (by omega)]
  have e : y + 1 + 4800 + -1 = y + 4800 + 0 := by ring
  rw [e]
  norm_num
  linarith

/-- The day after a calendar date has the next `date_to_julian` value. -/
theorem date_to_julian_succ (y m d : Int) (hy : -4712 ≤ y) (hv : valid_date y m d) :
    date_to_julian (next_day y m d).1 (next_day y m d).2.1 (next_day y m d).2.2
      = date_to_julian y m d + 1 := by
  obtain ⟨h1, h12, hd1, hd⟩ := hv
  unfold next_day
  by_cases hin : d + 1 ≤ days_in_month y m
  · simp only [if_pos hin]
    unfold date_to_julian
    ring
  · simp only [if_neg hin]
    have hdeq : d = days_in_month y m := by omega
    by_cases hm : m + 1 ≤ 12
    · simp only [if_pos hm]
      rw [hdeq]
      exact date_to_julian_month_end y m hy h1 (by omega)
    · simp only [if_neg hm]
      have hm12 : m = 12 := by omega
      subst hm12
      have hd31 : d = 31 := by
        rw [hdeq]
        unfold days_in_month
        norm_num
      subst hd31
      exact date_to_julian_year_end y hy

end OTime

namespace OTime

/-! ## Range of the results of `julian_adj` and `OPENSSL_gmtime_adj` -/

/-- The day seconds left after C division of the offset by `SECS_PER_DAY` have the sign of
the offset and are less than a day in size. -/
theorem offset_hms_range (t : Int) :
    -86400 < t - Int.tdiv t 86400 * 86400 ∧ t - Int.tdiv t 86400 * 86400 < 86400 := by
  rcases le_or_lt 0 t with ht | ht
  · rw [Int.tdiv_eq_ediv ht (by norm_num)]
    omega
  · have h1 : Int.tdiv (-t) 86400 = -(Int.tdiv t 86400) := Int.neg_tdiv t 86400
    rw [Int.tdiv_eq_ediv (by omega) (by norm_num)] at h1
    omega

/-- With an in-range time of day (a leap second included) the seconds returned by
`julian_adj` lie inside one day. -/
theorem julian_adj_sec_range (tm : Tm) (off_day offset_sec jd sec : Int)
    (hh : 0 ≤ tm.tm_hour ∧ tm.tm_hour ≤ 23) (hm : 0 ≤ tm.tm_min ∧ tm.tm_min ≤ 59)
    (hs : 0 ≤ tm.tm_sec ∧ tm.tm_sec ≤ 60)
    (h : julian_adj tm off_day offset_sec = some (jd, sec)) :
    0 ≤ sec ∧ sec < 86400 := by
  have hr := offset_hms_range offset_sec
  unfold julian_adj at h
  simp only [SECS_PER_DAY] at h
  norm_num at h
  generalize Int.tdiv offset_sec 86400 = q at h hr
  split_ifs at h <;> obtain ⟨h1, h2⟩ := h <;> constructor <;> omega

/-- Hours, minutes and seconds of a number of day seconds. -/
theorem hms_range (t : Int) (h0 : 0 ≤ t) (h1 : t < 86400) :
    0 ≤ Int.tdiv t 3600 ∧ Int.tdiv t 3600 ≤ 23 ∧
    0 ≤ Int.tmod (Int.tdiv t 60) 60 ∧ Int.tmod (Int.tdiv t 60) 60 ≤ 59 ∧
    0 ≤ Int.tmod t 60 ∧ Int.tmod t 60 ≤ 59 := by
  have e60 : Int.tdiv t 60 = t / 60 := Int.tdiv_eq_ediv h0 (by norm_num)
  rw [Int.tdiv_eq_ediv h0 (by norm_num), e60,
    Int.tmod_eq_emod (by omega) (by norm_num), Int.tmod_eq_emod h0 (by norm_num)]
  omega

/-- The fields written by a successful `OPENSSL_gmtime_adj`, in terms of the result of
`julian_adj`. -/
theorem gmtime_adj_fields (tm tm2 : Tm) (off_day offset_sec : Int)
    (h : OPENSSL_gmtime_adj tm off_day offset_sec = some tm2) :
    ∃ jd sec : Int, julian_adj tm off_day offset_sec = some (jd, sec) ∧
      1900 ≤ (julian_to_date jd).1 ∧ (julian_to_date jd).1 ≤ 9999 ∧
      tm2.tm_year = (julian_to_date jd).1 - 1900 ∧
      tm2.tm_mon = (julian_to_date jd).2.1 - 1 ∧
      tm2.tm_mday = (julian_to_date jd).2.2 ∧
      tm2.tm_hour = Int.tdiv sec 3600 ∧
      tm2.tm_min = Int.tmod (Int.tdiv sec 60) 60 ∧
      tm2.tm_sec = Int.tmod sec 60 := by
  unfold OPENSSL_gmtime_adj at h
  cases hj : julian_adj tm off_day offset_sec with
  | none => rw [hj] at h; cases h
  | some p =>
    obtain ⟨jd, sec⟩ := p
    rw [hj] at h
    refine ⟨jd, sec, rfl, ?_⟩
    simp only at h
    split_ifs at h with hc
    cases h
    exact ⟨by omega, by omega, rfl, rfl, rfl, rfl, rfl, rfl⟩

end OTime

namespace OTime

/-! ## Properties of the normalisation -/

/-- C18: for every `tm` with `0 ≤ tm_hour ≤ 23`, `0 ≤ tm_min ≤ 59`, `0 ≤ tm_sec ≤ 60` and
every `off_day`, `offset_sec` for which `OPENSSL_gmtime_adj` returns 1, the updated
structure has `0 ≤ tm_hour ≤ 23`, `0 ≤ tm_min ≤ 59`, `0 ≤ tm_sec ≤ 59`, `0 ≤ tm_mon ≤ 11`,
`1 ≤ tm_mday ≤` the number of days of that month, and `0 ≤ tm_year ≤ 8099`. -/
theorem gmtime_adj_normalised (tm tm2 : Tm) (off_day offset_sec : Int)
    (hh : 0 ≤ tm.tm_hour ∧ tm.tm_hour ≤ 23) (hm : 0 ≤ tm.tm_min ∧ tm.tm_min ≤ 59)
    (hs : 0 ≤ tm.tm_sec ∧ tm.tm_sec ≤ 60)
    (h : OPENSSL_gmtime_adj tm off_day offset_sec = some tm2) :
    (0 ≤ tm2.tm_hour ∧ tm2.tm_hour ≤ 23) ∧ (0 ≤ tm2.tm_min ∧ tm2.tm_min ≤ 59) ∧
    (0 ≤ tm2.tm_sec ∧ tm2.tm_sec ≤ 59) ∧ (0 ≤ tm2.tm_mon ∧ tm2.tm_mon ≤ 11) ∧
    (1 ≤ tm2.tm_mday ∧ tm2.tm_mday ≤ days_in_month (tm2.tm_year + 1900) (tm2.tm_mon + 1)) ∧
    (0 ≤ tm2.tm_year ∧ tm2.tm_year ≤ 8099) := by
  obtain ⟨jd, sec, hj, hy0, hy1, ey, em, ed, eh, emi, es⟩ :=
    gmtime_adj_fields tm tm2 off_day offset_sec h
  obtain ⟨s0, s1⟩ := julian_adj_sec_range tm off_day offset_sec jd sec hh hm hs hj
  obtain ⟨r1, r2, r3, r4, r5, r6⟩ := hms_range sec s0 s1
  obtain ⟨hjd, -⟩ := julian_adj_total tm off_day offset_sec jd sec hj
  obtain ⟨⟨v1, v2, v3, v4⟩, -, -⟩ := julian_to_date_inverse jd (julian_to_date jd).1
    (julian_to_date jd).2.1 (julian_to_date jd).2.2 hjd rfl
  have e1 : tm2.tm_year + 1900 = (julian_to_date jd).1 := by omega
  have e2 : tm2.tm_mon + 1 = (julian_to_date jd).2.1 := by omega
  rw [e1, e2, ed, eh, emi, es]
  exact ⟨⟨r1, r2⟩, ⟨r3, r4⟩, ⟨r5, r6⟩, ⟨by omega, by omega⟩, ⟨v3, v4⟩, ⟨by omega, by omega⟩⟩

/-- C18 (witness): 31 December 1999 23:59:30 plus 45 seconds is the normalised
1 January 2000 00:00:15. -/
theorem gmtime_adj_normalised_witness :
    ((0 : Int) ≤ tm_1999_12_31.tm_hour ∧ tm_1999_12_31.tm_hour ≤ 23) ∧
    ((0 : Int) ≤ tm_1999_12_31.tm_min ∧ tm_1999_12_31.tm_min ≤ 59) ∧
    ((0 : Int) ≤ tm_1999_12_31.tm_sec ∧ tm_1999_12_31.tm_sec ≤ 60) ∧
    OPENSSL_gmtime_adj tm_1999_12_31 0 45 = some tm_2000_01_01 ∧
    ((0 ≤ tm_2000_01_01.tm_hour ∧ tm_2000_01_01.tm_hour ≤ 23) ∧
      (0 ≤ tm_2000_01_01.tm_min ∧ tm_2000_01_01.tm_min ≤ 59) ∧
      (0 ≤ tm_2000_01_01.tm_sec ∧ tm_2000_01_01.tm_sec ≤ 59) ∧
      (0 ≤ tm_2000_01_01.tm_mon ∧ tm_2000_01_01.tm_mon ≤ 11) ∧
      (1 ≤ tm_2000_01_01.tm_mday ∧ tm_2000_01_01.tm_mday
        ≤ days_in_month (tm_2000_01_01.tm_year + 1900) (tm_2000_01_01.tm_mon + 1)) ∧
      (0 ≤ tm_2000_01_01.tm_year ∧ tm_2000_01_01.tm_year ≤ 8099)) :=
  ⟨by decide, by decide, by decide, by decide,
    gmtime_adj_normalised tm_1999_12_31 tm_2000_01_01 0 45 (by decide) (by decide)
      (by decide) (by decide)⟩

/-- C20 (counterexample): with `tm_hour = 48` on 1 January 2000 and zero offsets
`julian_adj` returns 1 and stores `*psec = 86400`, which is not below `SECS_PER_DAY`:
only one day is carried. -/
theorem julian_adj_psec_counterexample :
    julian_adj tm_hour_48 0 0 = some (2451546, 86400) ∧ ¬ ((86400 : Int) < SECS_PER_DAY) := by
  decide

/-- C20 (amended): for every `tm` with an in-range time of day (`0 ≤ tm_hour ≤ 23`,
`0 ≤ tm_min ≤ 59`, `0 ≤ tm_sec ≤ 60`) and every `off_day`, `offset_sec` for which
`julian_adj` returns 1, the returned seconds satisfy `0 ≤ *psec < SECS_PER_DAY`. -/
theorem julian_adj_psec_in_day (tm : Tm) (off_day offset_sec jd sec : Int)
    (hh : 0 ≤ tm.tm_hour ∧ tm.tm_hour ≤ 23) (hm : 0 ≤ tm.tm_min ∧ tm.tm_min ≤ 59)
    (hs : 0 ≤ tm.tm_sec ∧ tm.tm_sec ≤ 60)
    (h : julian_adj tm off_day offset_sec = some (jd, sec)) :
    0 ≤ sec ∧ sec < SECS_PER_DAY := by
  have hr := julian_adj_sec_range tm off_day offset_sec jd sec hh hm hs h
  unfold SECS_PER_DAY
  omega

/-- C20 (witness): 31 December 1999 23:59:30 plus 45 seconds carries one day and leaves
15 seconds. -/
theorem julian_adj_psec_in_day_witness :
    ((0 : Int) ≤ tm_1999_12_31.tm_hour ∧ tm_1999_12_31.tm_hour ≤ 23) ∧
    ((0 : Int) ≤ tm_1999_12_31.tm_min ∧ tm_1999_12_31.tm_min ≤ 59) ∧
    ((0 : Int) ≤ tm_1999_12_31.tm_sec ∧ tm_1999_12_31.tm_sec ≤ 60) ∧
    julian_adj tm_1999_12_31 0 45 = some (2451545, 15) ∧
    ((0 : Int) ≤ 15 ∧ (15 : Int) < SECS_PER_DAY) :=
  ⟨by decide, by decide, by decide, by decide,
    julian_adj_psec_in_day tm_1999_12_31 0 45 2451545 15 (by decide) (by decide)
      (by decide) (by decide)⟩

end OTime

namespace QuicWire

/-! ## Rejection rules and the partial short decode -/

/-- C11: for every input whose first byte has the fixed bit (0x40) clear and which is
not a Version Negotiation packet (a short-header packet, or a long-header packet whose
version field is not read as 0), `ossl_quic_wire_decode_pkt_hdr` returns 0; and every
successfully decoded header of a type other than Version Negotiation has `fixed = 1`. -/
theorem decode_fixed_bit_rejection (pkt : List Nat) (short_conn_id_len : Nat)
    (partial_decode : Bool) :
    (∀ b0 r, pkt = b0 :: r → b0 &&& 0x40 = 0 →
      (b0 &&& 0x80 = 0 ∨ ∀ r2, PACKET_get_net_4 r ≠ some (QUIC_VERSION_NONE, r2)) →
      ossl_quic_wire_decode_pkt_hdr pkt short_conn_id_len partial_decode = none) ∧
    (∀ hdr ptrs rest,
      ossl_quic_wire_decode_pkt_hdr pkt short_conn_id_len partial_decode
        = some (hdr, ptrs, rest) →
      hdr.type ≠ QUIC_PKT_TYPE_VERSION_NEG → hdr.fixed = 1) := by
  constructor
  · intro b0 r hpkt hfix hnvn
    subst hpkt
    rw [decode_pkt_hdr_cons]
    by_cases hlen : (b0 :: r).length < QUIC_MIN_VALID_PKT_LEN
    · rw [if_pos hlen]
    rw [if_neg hlen]
    by_cases hform : b0 &&& 0x80 = 0
    · rw [if_pos hform]
      exact decode_short_hdr_fixed_clear _ _ _ _ _ hfix
    · rw [if_neg hform]
      rcases hnvn with h | h
      · exact absurd h hform
      · exact decode_long_hdr_fixed_clear _ _ _ _ h hfix
  · intro hdr ptrs rest h ht
    cases pkt with
    | nil => rw [decode_pkt_hdr_nil] at h; cases h
    | cons b0 r =>
      rw [decode_pkt_hdr_cons] at h
      by_cases hlen : (b0 :: r).length < QUIC_MIN_VALID_PKT_LEN
      · rw [if_pos hlen] at h; cases h
      rw [if_neg hlen] at h
      by_cases hform : b0 &&& 0x80 = 0
      · rw [if_pos hform] at h
        exact (decode_short_hdr_some _ _ _ _ _ _ _ _ h).2.1
      · rw [if_neg hform] at h
        exact decode_long_hdr_fixed _ _ _ _ _ _ _ h ht

/-- C11 (witness): a 21-byte short-header packet with first byte 0x01 is rejected, in a
full and in a partial decode. -/
theorem decode_fixed_bit_rejection_witness :
    example_packet_fixed_clear.length = 21 ∧
    ossl_quic_wire_decode_pkt_hdr example_packet_fixed_clear 8 false = none ∧
    ossl_quic_wire_decode_pkt_hdr example_packet_fixed_clear 8 true = none :=
  ⟨by decide,
    (decode_fixed_bit_rejection example_packet_fixed_clear 8 false).1 0x01 _ rfl (by decide)
      (Or.inl (by decide)),
    (decode_fixed_bit_rejection example_packet_fixed_clear 8 true).1 0x01 _ rfl (by decide)
      (Or.inl (by decide))⟩

/-- C12: `ossl_quic_wire_decode_pkt_hdr` fails on every long-header input whose
destination or source connection-ID length byte is greater than 20, and
`ossl_quic_wire_encode_pkt_hdr` fails on every header whose `dst_conn_id` or
`src_conn_id` is longer than 20 bytes. -/
theorem conn_id_bound (short_conn_id_len : Nat) (partial_decode : Bool) :
    (∀ b0 ver dcid_len rest, b0 &&& 0x80 ≠ 0 → ver.length = 4 →
      dcid_len > QUIC_MAX_CONN_ID_LEN →
      ossl_quic_wire_decode_pkt_hdr (b0 :: (ver ++ dcid_len :: rest)) short_conn_id_len
        partial_decode = none) ∧
    (∀ b0 ver dcid scid_len rest, b0 &&& 0x80 ≠ 0 → ver.length = 4 →
      scid_len > QUIC_MAX_CONN_ID_LEN →
      ossl_quic_wire_decode_pkt_hdr
        (b0 :: (ver ++ dcid.length :: (dcid ++ scid_len :: rest))) short_conn_id_len
        partial_decode = none) ∧
    (∀ hdr, (hdr.dst_conn_id.length > QUIC_MAX_CONN_ID_LEN ∨
        hdr.src_conn_id.length > QUIC_MAX_CONN_ID_LEN) →
      ossl_quic_wire_encode_pkt_hdr short_conn_id_len hdr = none) := by
  refine ⟨?_, ?_, ?_⟩
  · intro b0 ver dcid_len rest hform hver hlen
    rw [decode_pkt_hdr_cons]
    split_ifs
    · rfl
    · unfold decode_long_hdr PACKET_get_net_4
      rw [PACKET_copy_bytes_append ver _ 4 hver]
      simp only [PACKET_get_1]
      rw [if_pos hlen]
  · intro b0 ver dcid scid_len rest hform hver hlen
    rw [decode_pkt_hdr_cons]
    split_ifs
    · rfl
    · unfold decode_long_hdr PACKET_get_net_4
      rw [PACKET_copy_bytes_append ver _ 4 hver]
      simp only [PACKET_get_1]
      by_cases hd : dcid.length > QUIC_MAX_CONN_ID_LEN
      · rw [if_pos hd]
      · rw [if_neg hd, PACKET_copy_bytes_append dcid _ _ rfl]
        simp only [PACKET_get_1]
        rw [if_pos hlen]
  · intro hdr h
    unfold ossl_quic_wire_encode_pkt_hdr
    by_cases hp : hdr.partial_decode ≠ 0
    · rw [if_pos hp]
    rw [if_neg hp]
    by_cases ht : hdr.type = QUIC_PKT_TYPE_1RTT
    · rw [if_pos ht, if_pos]
      rcases h with h | h
      · by_cases he : hdr.dst_conn_id.length = short_conn_id_len
        · right
          left
          rw [← he]
          exact h
        · left
          exact he
      · right
        right
        exact h
    · rw [if_neg ht, if_pos h]

/-- C12 (witness): a long-header packet whose destination connection-ID length byte is
21 is rejected; an Initial header with a 21-byte `dst_conn_id` and a 1-RTT header with a
21-byte `src_conn_id` are not encoded. -/
theorem conn_id_bound_witness :
    ossl_quic_wire_decode_pkt_hdr example_packet_long_dcid 0 false = none ∧
    example_initial_hdr_long_dcid.dst_conn_id.length = 21 ∧
    ossl_quic_wire_encode_pkt_hdr 0 example_initial_hdr_long_dcid = none ∧
    example_short_hdr_long_scid.src_conn_id.length = 21 ∧
    ossl_quic_wire_encode_pkt_hdr 8 example_short_hdr_long_scid = none :=
  ⟨(conn_id_bound 0 false).1 0xc1 [0, 0, 0, 1] 21 (List.replicate 30 0) (by decide)
      (by decide) (by decide),
    by decide,
    (conn_id_bound 0 false).2.2 example_initial_hdr_long_dcid (Or.inl (by decide)),
    by decide,
    (conn_id_bound 8 false).2.2 example_short_hdr_long_scid (Or.inr (by decide))⟩

/-- C14: for every short-header packet and every `short_conn_id_len ≤ 20` for which
`ossl_quic_wire_decode_pkt_hdr` with `partial = 1` succeeds, the result has type 1-RTT,
`partial = 1`, `pn_len = 0`, `pn` and `key_phase` zero, and `data` at byte offset
`1 + short_conn_id_len` from the start of the packet, which is the start of the
packet-number field the pointer record names. -/
theorem partial_short_decode (b0 : Nat) (r : List Nat) (short_conn_id_len : Nat)
    (hdr : QUIC_PKT_HDR) (ptrs : QUIC_PKT_HDR_PTRS) (rest : List Nat)
    (hshort : b0 &&& 0x80 = 0) (_hscl : short_conn_id_len ≤ QUIC_MAX_CONN_ID_LEN)
    (h : ossl_quic_wire_decode_pkt_hdr (b0 :: r) short_conn_id_len true
      = some (hdr, ptrs, rest)) :
    hdr.type = QUIC_PKT_TYPE_1RTT ∧ hdr.partial_decode = 1 ∧ hdr.pn_len = 0 ∧
    hdr.pn = [0, 0, 0, 0] ∧ hdr.key_phase = 0 ∧
    hdr.data = some (1 + short_conn_id_len) ∧
    ptrs.raw_pn = some (1 + short_conn_id_len) := by
  rw [decode_pkt_hdr_cons] at h
  by_cases hlen : (b0 :: r).length < QUIC_MIN_VALID_PKT_LEN
  · rw [if_pos hlen] at h; cases h
  rw [if_neg hlen, if_pos hshort] at h
  obtain ⟨ht, -, hpd⟩ := decode_short_hdr_some _ _ _ _ _ _ _ _ h
  obtain ⟨h1, h2, h3, h4, h5, h6, h7⟩ := hpd rfl
  refine ⟨ht, h1, h2, h3, h4, h5, ?_⟩
  rw [h6]
  unfold hdr_ptrs_at
  rw [if_pos (by simp only [List.length_cons]; omega)]

/-- C14 (witness): the partial decode of a 21-byte short-header packet with an 8-byte
connection ID puts `data` at offset 9, the start of the packet-number field. -/
theorem partial_short_decode_witness :
    (0x5d : Nat) &&& 0x80 = 0 ∧ (8 : Nat) ≤ QUIC_MAX_CONN_ID_LEN ∧
    ossl_quic_wire_decode_pkt_hdr (0x5d :: example_short_body) 8 true
      = some (example_partial_hdr, example_partial_ptrs, []) ∧
    (example_partial_hdr.type = QUIC_PKT_TYPE_1RTT ∧ example_partial_hdr.partial_decode = 1 ∧
      example_partial_hdr.pn_len = 0 ∧ example_partial_hdr.pn = [0, 0, 0, 0] ∧
      example_partial_hdr.key_phase = 0 ∧ example_partial_hdr.data = some (1 + 8) ∧
      example_partial_ptrs.raw_pn = some (1 + 8)) :=
  ⟨by decide, by decide, by decide,
    partial_short_decode 0x5d example_short_body 8 example_partial_hdr example_partial_ptrs []
      (by decide) (by decide) (by decide)⟩

end QuicWire

namespace QuicWire

/-! ## What header-protection removal changes -/

/-- Each packet-number byte after the XOR: bytes at index below `pn_len` (counted from
`k`) are combined with the mask byte one position further, the others are kept. -/
theorem xor_pn_bytes_getD (pn_len : Nat) (mask : List Nat) (k : Nat) (bs : List Nat)
    (i : Nat) (h : i < bs.length) :
    (xor_pn_bytes pn_len mask k bs).getD i 0
      = if k + i < pn_len then bs.getD i 0 ^^^ mask.getD (k + i + 1) 0 else bs.getD i 0 := by
  induction bs generalizing k i with
  | nil => simp at h
  | cons b t ih =>
    cases i with
    | zero => simp [xor_pn_bytes]
    | succ j =>
      have hj : j < t.length := by simpa using h
      have e := ih (k + 1) j hj
      have e2 : k + 1 + j = k + (j + 1) := by omega
      rw [e2] at e
      simpa [xor_pn_bytes] using e

/-- XOR with a value below `2 ^ n` leaves the bits from position `n` on unchanged. -/
theorem xor_and_high_bits (b m K n i : Nat) (hK : K < 2 ^ n) (hi : n ≤ i) :
    (b ^^^ (m &&& K)).testBit i = b.testBit i := by
  have hlt : K < 2 ^ i := lt_of_lt_of_le hK (Nat.pow_le_pow_right (by norm_num) hi)
  rw [Nat.testBit_xor, Nat.testBit_and, Nat.testBit_lt_two_pow hlt]
  simp

/-- C15: on success `ossl_quic_hdr_protector_decrypt_fields` XORs mask byte 0 into the
first byte restricted to the low 5 bits for a short header and the low 4 bits for a long
header, leaving the other bits of the first byte unchanged, and XORs mask bytes
`1..pn_len` into exactly the first `pn_len` packet-number bytes, with `pn_len` read from
the unmasked first byte; the packet-number bytes beyond `pn_len` are unchanged. -/
theorem decrypt_fields_protected_bits (C : HdrCipher) (hpr : QUIC_HDR_PROTECTOR)
    (sample : List Nat) (sample_len first_byte : Nat) (pn_bytes : List Nat)
    (fb : Nat) (pn : List Nat)
    (h : ossl_quic_hdr_protector_decrypt_fields C hpr sample sample_len first_byte pn_bytes
      = (true, fb, pn)) :
    ∃ mask, hdr_generate_mask C hpr sample sample_len = some mask ∧
      fb = first_byte ^^^ (mask.getD 0 0 &&& (if first_byte &&& 0x80 = 0 then 0x1f else 0x0f)) ∧
      (∀ i, (if first_byte &&& 0x80 = 0 then 5 else 4) ≤ i →
        fb.testBit i = first_byte.testBit i) ∧
      pn.length = pn_bytes.length ∧
      (∀ i, i < pn_bytes.length →
        pn.getD i 0 =
          if i < (fb &&& 0x3) + 1 then pn_bytes.getD i 0 ^^^ mask.getD (i + 1) 0
          else pn_bytes.getD i 0) := by
  unfold ossl_quic_hdr_protector_decrypt_fields at h
  cases hm : hdr_generate_mask C hpr sample sample_len with
  | none =>
    rw [hm] at h
    simp only [Prod.mk.injEq] at h
    exact absurd h.1 (by decide)
  | some mask =>
    rw [hm] at h
    simp only [Prod.mk.injEq, true_and] at h
    obtain ⟨e1, e2⟩ := h
    have hbits : hdr_protected_bits first_byte
        = if first_byte &&& 0x80 = 0 then 0x1f else 0x0f := by
      unfold hdr_protected_bits
      by_cases hform : first_byte &&& 0x80 = 0
      · rw [if_neg (not_not.mpr hform), if_pos hform]
      · rw [if_pos hform, if_neg hform]
    rw [hbits] at e1 e2
    refine ⟨mask, rfl, e1.symm, ?_, ?_, ?_⟩
    · intro i hi
      rw [← e1]
      by_cases hform : first_byte &&& 0x80 = 0
      · rw [if_pos hform] at hi ⊢
        exact xor_and_high_bits _ _ _ 5 i (by norm_num) hi
      · rw [if_neg hform] at hi ⊢
        exact xor_and_high_bits _ _ _ 4 i (by norm_num) hi
    · rw [← e2, xor_pn_bytes_length]
    · intro i hi
      rw [← e2, xor_pn_bytes_getD _ _ _ _ _ hi, ← e1]
      simp only [Nat.zero_add]

/-- C15 (witness): with the stand-in cipher the mask is `f8 f9 fe ff fc`; the protected
short-header first byte 0x59 becomes 0x41, so `pn_len = 2`, and of the packet-number
bytes `eb ca a0 a1` only the first two change. -/
theorem decrypt_fields_protected_bits_witness :
    ossl_quic_hdr_protector_decrypt_fields example_cipher example_protector example_sample 19
        0x59 [0xeb, 0xca, 0xa0, 0xa1] = (true, 0x41, [0x12, 0x34, 0xa0, 0xa1]) ∧
    hdr_generate_mask example_cipher example_protector example_sample 19
      = some [0xf8, 0xf9, 0xfe, 0xff, 0xfc] ∧
    ∃ mask, hdr_generate_mask example_cipher example_protector example_sample 19 = some mask ∧
      0x41 = 0x59 ^^^ (mask.getD 0 0 &&& (if 0x59 &&& 0x80 = 0 then 0x1f else 0x0f)) ∧
      (∀ i, (if 0x59 &&& 0x80 = 0 then 5 else 4) ≤ i →
        (0x41 : Nat).testBit i = (0x59 : Nat).testBit i) ∧
      [0x12, 0x34, 0xa0, 0xa1].length = [0xeb, 0xca, 0xa0, 0xa1].length ∧
      (∀ i, i < [0xeb, 0xca, 0xa0, 0xa1].length →
        [0x12, 0x34, 0xa0, 0xa1].getD i 0 =
          if i < (0x41 &&& 0x3) + 1 then [0xeb, 0xca, 0xa0, 0xa1].getD i 0 ^^^ mask.getD (i + 1) 0
          else [0xeb, 0xca, 0xa0, 0xa1].getD i 0) :=
  ⟨by decide, by decide,
    decrypt_fields_protected_bits example_cipher example_protector example_sample 19 0x59
      [0xeb, 0xca, 0xa0, 0xa1] 0x41 [0x12, 0x34, 0xa0, 0xa1] (by decide)⟩

end QuicWire

namespace OTime

/-! ## The C integer types: where they agree with the integers -/

theorem to_int_eq (x : Int) (h1 : -2147483648 ≤ x) (h2 : x ≤ 2147483647) : to_int x = x := by
  unfold to_int
  omega

theorem to_long_eq (x : Int) (h1 : -9223372036854775808 ≤ x)
    (h2 : x ≤ 9223372036854775807) : to_long x = x := by
  unfold to_long
  omega

/-- Truncating division by a positive number, by the sign of the numerator. -/
theorem tdiv_cases (x k : Int) (hk : 0 < k) :
    (0 ≤ x ∧ Int.tdiv x k = x / k) ∨ (x < 0 ∧ Int.tdiv x k = -((-x) / k)) := by
  rcases le_or_lt 0 x with h | h
  · exact Or.inl ⟨h, Int.tdiv_eq_ediv h (le_of_lt hk)⟩
  · refine Or.inr ⟨h, ?_⟩
    have h1 : Int.tdiv (-x) k = -(Int.tdiv x k) := Int.neg_tdiv x k
    rw [Int.tdiv_eq_ediv (by omega) (le_of_lt hk)] at h1
    omega

theorem days_in_month_le (y m : Int) : days_in_month y m ≤ 31 := by
  unfold days_in_month
  split_ifs <;> norm_num

theorem days_in_month_ge (y m : Int) : 28 ≤ days_in_month y m := by
  unfold days_in_month
  split_ifs <;> norm_num

/-- As long as `1461 * (y + 4800 + (m - 14) / 12)` stays in the range of `int`, the C
function computes the integer formula. -/
theorem date_to_julian_c_eq (y m d a : Int) (h1 : 1 ≤ m) (h12 : m ≤ 12)
    (hd1 : 1 ≤ d) (hd2 : d ≤ 31) (ha : a = if m ≤ 2 then -1 else 0)
    (hy1 : -1469872 ≤ y + 4800 + a) (hy2 : y + 4800 + a ≤ 1469872) :
    date_to_julian_c y m d = date_to_julian y m d := by
  have hac : a = -1 ∨ a = 0 := by split_ifs at ha <;> omega
  unfold date_to_julian_c date_to_julian
  simp only []
  rw [to_int_eq (m - 14) (by omega) (by omega), month_shift m h1 h12, ← ha]
  rw [to_int_eq (y + 4800) (by omega) (by omega)]
  rw [to_int_eq (y + 4800 + a) (by omega) (by omega)]
  rw [to_int_eq (1461 * (y + 4800 + a)) (by omega) (by omega)]
  rw [to_int_eq (m - 2) (by omega) (by omega)]
  rw [to_int_eq (12 * a) (by omega) (by omega)]
  rw [to_int_eq (m - 2 - 12 * a) (by omega) (by omega)]
  rw [to_int_eq (367 * (m - 2 - 12 * a)) (by omega) (by omega)]
  rw [to_int_eq (y + 4900) (by omega) (by omega)]
  rw [to_int_eq (y + 4900 + a) (by omega) (by omega)]
  have c1 := tdiv_cases (1461 * (y + 4800 + a)) 4 (by norm_num)
  have c2 := tdiv_cases (367 * (m - 2 - 12 * a)) 12 (by norm_num)
  have c3 := tdiv_cases (y + 4900 + a) 100 (by norm_num)
  generalize Int.tdiv (1461 * (y + 4800 + a)) 4 = t1 at c1 ⊢
  generalize Int.tdiv (367 * (m - 2 - 12 * a)) 12 = t2 at c2 ⊢
  generalize Int.tdiv (y + 4900 + a) 100 = q at c3 ⊢
  have hq : -14700 ≤ q ∧ q ≤ 14700 := by omega
  rw [to_int_eq (3 * q) (by omega) (by omega)]
  have c4 := tdiv_cases (3 * q) 4 (by norm_num)
  generalize Int.tdiv (3 * q) 4 = t3 at c4 ⊢
  have ht1 : -536870748 ≤ t1 ∧ t1 ≤ 536870748 := by omega
  have ht2 : 0 ≤ t2 ∧ t2 ≤ 367 := by omega
  have ht3 : -11025 ≤ t3 ∧ t3 ≤ 11025 := by omega
  rw [to_int_eq (t1 + t2) (by omega) (by omega)]
  rw [to_int_eq (t1 + t2 - t3) (by omega) (by omega)]
  rw [to_int_eq (t1 + t2 - t3 + d) (by omega) (by omega)]
  rw [to_int_eq (t1 + t2 - t3 + d - 32075) (by omega) (by omega)]

end OTime

namespace OTime

/-- For a Julian day number up to `7 * 10^11` no `long` overflows in `julian_to_date` and
the year, month and day fit `int`: the C function computes the integer formula. -/
theorem julian_to_date_c_eq (jd : Int) (h : 0 ≤ jd) (hmax : jd ≤ 700000000000) :
    julian_to_date_c jd = julian_to_date jd := by
  unfold julian_to_date_c julian_to_date
  simp only []
  rw [to_long_eq (jd + 68569) (by omega) (by omega)]
  rw [to_long_eq (4 * (jd + 68569)) (by omega) (by omega)]
  have en := Int.tdiv_eq_ediv (a := 4 * (jd + 68569)) (b := 146097) (by omega) (by norm_num)
  have hn : 1 ≤ (4 * (jd + 68569)) / 146097 ∧ (4 * (jd + 68569)) / 146097 ≤ 19165351 := by
    omega
  have hc : 0 ≤ jd + 68569 - (146097 * ((4 * (jd + 68569)) / 146097) + 3) / 4 ∧
      jd + 68569 - (146097 * ((4 * (jd + 68569)) / 146097) + 3) / 4 ≤ 36524 := by omega
  rw [en]
  generalize (4 * (jd + 68569)) / 146097 = n at hn hc ⊢
  rw [to_long_eq (146097 * n) (by omega) (by omega)]
  rw [to_long_eq (146097 * n + 3) (by omega) (by omega)]
  rw [Int.tdiv_eq_ediv (a := 146097 * n + 3) (by omega) (by norm_num)]
  rw [to_long_eq (jd + 68569 - (146097 * n + 3) / 4) (by omega) (by omega)]
  generalize jd + 68569 - (146097 * n + 3) / 4 = c at hc ⊢
  rw [to_long_eq (c + 1) (by omega) (by omega)]
  rw [to_long_eq (4000 * (c + 1)) (by omega) (by omega)]
  have hi : 0 ≤ (4000 * (c + 1)) / 1461001 ∧ (4000 * (c + 1)) / 1461001 ≤ 100 := by omega
  have hdd : 0 ≤ c - (1461 * ((4000 * (c + 1)) / 1461001)) / 4 ∧
      c - (1461 * ((4000 * (c + 1)) / 1461001)) / 4 ≤ 365 := by omega
  rw [Int.tdiv_eq_ediv (a := 4000 * (c + 1)) (by omega) (by norm_num)]
  generalize (4000 * (c + 1)) / 1461001 = i at hi hdd ⊢
  rw [to_long_eq (1461 * i) (by omega) (by omega)]
  rw [Int.tdiv_eq_ediv (a := 1461 * i) (by omega) (by norm_num)]
  rw [to_long_eq (c - (1461 * i) / 4) (by omega) (by omega)]
  generalize c - (1461 * i) / 4 = dd at hdd ⊢
  rw [to_long_eq (dd + 31) (by omega) (by omega)]
  rw [to_long_eq (80 * (dd + 31)) (by omega) (by omega)]
  have hj : 1 ≤ (80 * (dd + 31)) / 2447 ∧ (80 * (dd + 31)) / 2447 ≤ 12 := by omega
  rw [Int.tdiv_eq_ediv (a := 80 * (dd + 31)) (by omega) (by norm_num)]
  generalize (80 * (dd + 31)) / 2447 = j at hj ⊢
  rw [to_long_eq (2447 * j) (by omega) (by omega)]
  rw [Int.tdiv_eq_ediv (a := 2447 * j) (by omega) (by norm_num)]
  rw [Int.tdiv_eq_ediv (a := j) (by omega) (by norm_num)]
  rw [to_long_eq (dd + 31 - (2447 * j) / 80) (by omega) (by omega)]
  rw [to_int_eq (dd + 31 - (2447 * j) / 80) (by omega) (by omega)]
  rw [to_long_eq (j + 2) (by omega) (by omega)]
  rw [to_long_eq (12 * (j / 11)) (by omega) (by omega)]
  rw [to_long_eq (j + 2 - 12 * (j / 11)) (by omega) (by omega)]
  rw [to_int_eq (j + 2 - 12 * (j / 11)) (by omega) (by omega)]
  rw [to_long_eq (n - 49) (by omega) (by omega)]
  rw [to_long_eq (100 * (n - 49)) (by omega) (by omega)]
  rw [to_long_eq (100 * (n - 49) + i) (by omega) (by omega)]
  rw [to_long_eq (100 * (n - 49) + i + j / 11) (by omega) (by omega)]
  rw [to_int_eq (100 * (n - 49) + i + j / 11) (by omega) (by omega)]

/-- A Julian day number up to the one of 28 February 1465073 is the day of a date whose
`date_to_julian` stays in the range of `int`. -/
theorem julian_year_cap (jd y m d : Int) (hv : valid_date y m d)
    (hy : 0 ≤ y + 4800 + (if m ≤ 2 then -1 else 0))
    (hd : date_to_julian y m d = jd) (hmax : jd ≤ 536828044) :
    y + 4800 + (if m ≤ 2 then -1 else 0) ≤ 1469872 := by
  by_contra hc
  obtain ⟨a, ha⟩ : ∃ a : Int, a = if m ≤ 2 then -1 else 0 := ⟨_, rfl⟩
  rw [← ha] at hy hc
  rw [date_to_julian_split y m d a hv ha hy] at hd
  obtain ⟨p1, p2, p3, -, -, -⟩ := date_position y m d a hv ha
  have hg : 31 ≤ (367 * (m - 2 - 12 * a)) / 12 + d := by omega
  have hgap := year_gap 1469872 (y + 4800 + a) 395 _ (by omega) (by norm_num) hg
    (by intro h; norm_num at h)
  have h0 : march_year_start 1469872 = 536859724 := by
    unfold march_year_start
    norm_num
  rw [h0] at hgap
  omega

end OTime

namespace OTime

end OTime

namespace OTime

/-- C16 (counterexample): Julian day 784354217577 is 29 February 2147484196; the year
stored through `int *` is -2147483100, which is not a leap year, so the stored day 29
exceeds the 28 days of the stored month. And Julian day 536828045 is 1 March 1465073,
for which `1461 * (y + 4800)` leaves the range of `int` and `date_to_julian` returns
-536913778. -/
theorem julian_to_date_narrowing_counterexample :
    (0 : Int) ≤ 784354217577 ∧
    julian_to_date_c 784354217577 = (-2147483100, 2, 29) ∧
    ¬ ((29 : Int) ≤ days_in_month (-2147483100) 2) ∧
    julian_to_date_c 536828045 = (1465073, 3, 1) ∧
    date_to_julian_c 1465073 3 1 = -536913778 ∧ (-536913778 : Int) ≠ 536828045 := by
  decide

/-- C16 (amended): for every Julian day number `jd` with `0 ≤ jd ≤ 536828044` (the day of
28 February 1465073), `julian_to_date jd` stores a triple `(y, m, d)` with `1 ≤ m ≤ 12`
and `1 ≤ d ≤` the number of days of month `m` in Gregorian year `y`, and
`date_to_julian y m d = jd`, all with the C integer types. -/
theorem julian_to_date_c_right_inverse (jd : Int) (h : 0 ≤ jd) (hmax : jd ≤ 536828044) :
    1 ≤ (julian_to_date_c jd).2.1 ∧ (julian_to_date_c jd).2.1 ≤ 12 ∧
    1 ≤ (julian_to_date_c jd).2.2 ∧
    (julian_to_date_c jd).2.2
      ≤ days_in_month (julian_to_date_c jd).1 (julian_to_date_c jd).2.1 ∧
    date_to_julian_c (julian_to_date_c jd).1 (julian_to_date_c jd).2.1
      (julian_to_date_c jd).2.2 = jd := by
  rw [julian_to_date_c_eq jd h (by omega)]
  obtain ⟨hv, hd, hy⟩ := julian_to_date_inverse jd (julian_to_date jd).1
    (julian_to_date jd).2.1 (julian_to_date jd).2.2 h rfl
  have hcap := julian_year_cap jd _ _ _ hv hy hd hmax
  obtain ⟨h1, h2, h3, h4⟩ := hv
  rw [date_to_julian_c_eq _ _ _ _ h1 h2 h3 (le_trans h4 (days_in_month_le _ _)) rfl
    (by omega) hcap]
  exact ⟨h1, h2, h3, h4, hd⟩

/-- C16 (witness): the last day of the range, Julian day 536828044, is
28 February 1465073. -/
theorem julian_to_date_c_right_inverse_witness :
    (0 : Int) ≤ 536828044 ∧ (536828044 : Int) ≤ 536828044 ∧
    julian_to_date_c 536828044 = (1465073, 2, 28) ∧
    1 ≤ (julian_to_date_c 536828044).2.1 ∧ (julian_to_date_c 536828044).2.1 ≤ 12 ∧
    1 ≤ (julian_to_date_c 536828044).2.2 ∧
    (julian_to_date_c 536828044).2.2
      ≤ days_in_month (julian_to_date_c 536828044).1 (julian_to_date_c 536828044).2.1 ∧
    date_to_julian_c (julian_to_date_c 536828044).1 (julian_to_date_c 536828044).2.1
      (julian_to_date_c 536828044).2.2 = 536828044 :=
  ⟨by decide, by decide, by decide,
    julian_to_date_c_right_inverse 536828044 (by decide) (by decide)⟩

/-- C17 (counterexample): 28 February 1465073 is a calendar date with Julian day
536828044; the next calendar day is 1 March 1465073, for which `1461 * (y + 4800)`
leaves the range of `int` and `date_to_julian` returns -536913778, not 536828045. -/
theorem date_to_julian_next_day_counterexample :
    (-4712 : Int) ≤ 1465073 ∧ valid_date 1465073 2 28 ∧
    next_day 1465073 2 28 = (1465073, 3, 1) ∧
    date_to_julian_c 1465073 2 28 = 536828044 ∧
    date_to_julian_c 1465073 3 1 = -536913778 ∧
    (-536913778 : Int) ≠ 536828044 + 1 := by
  decide

/-- C17 (amended): for every calendar date `(y, m, d)` of the Gregorian calendar from
year -4712 up to 27 February 1465073 (`y ≤ 1465072`, or `y = 1465073` with `m = 1`, or
with `m = 2` and `d ≤ 27`), `date_to_julian` of the next calendar day (`d + 1` within the
month, else day 1 of the next month, else 1 January of `y + 1`; February has 29 days
exactly in leap years) is `date_to_julian y m d + 1`, with the C integer types. -/
theorem date_to_julian_c_next_day (y m d : Int) (hy : -4712 ≤ y)
    (hmax : y ≤ 1465072 ∨ (y = 1465073 ∧ (m = 1 ∨ (m = 2 ∧ d ≤ 27))))
    (hm1 : 1 ≤ m) (hm12 : m ≤ 12) (hd1 : 1 ≤ d) (hd : d ≤ days_in_month y m) :
    date_to_julian_c (next_day y m d).1 (next_day y m d).2.1 (next_day y m d).2.2
      = date_to_julian_c y m d + 1 := by
  have hd31 := days_in_month_le y m
  have hd28 := days_in_month_ge y m
  rw [date_to_julian_c_eq y m d _ hm1 hm12 hd1 (by omega) rfl (by split_ifs <;> omega)
    (by split_ifs <;> omega)]
  rw [← date_to_julian_succ y m d hy ⟨hm1, hm12, hd1, hd⟩]
  unfold next_day
  by_cases hin : d + 1 ≤ days_in_month y m
  · simp only [if_pos hin]
    exact date_to_julian_c_eq y m (d + 1) _ hm1 hm12 (by omega) (by omega) rfl
      (by split_ifs <;> omega) (by split_ifs <;> omega)
  · simp only [if_neg hin]
    by_cases hm : m + 1 ≤ 12
    · simp only [if_pos hm]
      exact date_to_julian_c_eq y (m + 1) 1 _ (by omega) hm (by norm_num) (by norm_num) rfl
        (by split_ifs <;> omega) (by split_ifs <;> omega)
    · simp only [if_neg hm]
      exact date_to_julian_c_eq (y + 1) 1 1 (-1) (by norm_num) (by norm_num) (by norm_num)
        (by norm_num) (by norm_num) (by omega) (by omega)

/-- C17 (witness): the day after 27 February 1465073, the last date of the range, is
28 February 1465073, Julian day 536828044. -/
theorem date_to_julian_c_next_day_witness :
    (-4712 : Int) ≤ 1465073 ∧
    ((1465073 : Int) ≤ 1465072 ∨
      ((1465073 : Int) = 1465073 ∧ ((2 : Int) = 1 ∨ ((2 : Int) = 2 ∧ (27 : Int) ≤ 27)))) ∧
    (1 : Int) ≤ 2 ∧ (2 : Int) ≤ 12 ∧ (1 : Int) ≤ 27 ∧ (27 : Int) ≤ days_in_month 1465073 2 ∧
    next_day 1465073 2 27 = (1465073, 2, 28) ∧
    date_to_julian_c 1465073 2 28 = 536828044 ∧
    date_to_julian_c (next_day 1465073 2 27).1 (next_day 1465073 2 27).2.1
      (next_day 1465073 2 27).2.2 = date_to_julian_c 1465073 2 27 + 1 :=
  ⟨by decide, by decide, by decide, by decide, by decide, by decide, by decide, by decide,
    date_to_julian_c_next_day 1465073 2 27 (by decide) (by decide) (by decide) (by decide)
      (by decide) (by decide)⟩

end OTime

